import Mathlib

/-!
# Enemy AI core of `tank_battle` (src/js/enemy.js)

A shallow embedding of the `Enemy` class: the behaviour state machine
(`updateAI`, `setState`), perception (`canSeeTarget`, `getDistanceTo`), the
numeric helper `normalizeAngle`, steering (`rotateTowards`, `moveTowards`,
`getObstacleAvoidanceVector`, `executePatrol`, `calculateRetreatPoint`,
`checkIfStuck`), targeting (`aimAt`, `attemptShoot`, with `shoot` of tank.js),
the behaviours (`executeChase`, `executeAttack`, `executeRetreat`,
`executeBehavior`), movement (`updateMovement`, `constrainToWorld`), the tick
function `update`, and the health calls `takeDamage` and `heal` of tank.js.

JavaScript numbers are idealised as elements of a linearly ordered field `R`,
with exact arithmetic; the theorems hold for every such `R` and are read at
`R = ℝ`, where the scenarios are evaluated. Where a timer is added up over the
ticks of a run (`runAI`, `stuckRun`), the sum of `timer += deltaTime` is taken by
an addition `add` of the host, which the theorems leave arbitrary; the scenarios
take `addDouble`, the sum rounded to the nearest IEEE 754 double as the `+` of
JavaScript rounds it. What the code takes from its host is
passed in explicitly: the object `Math` as a record `JSMath` (in the first part
of the file `Math.PI` as `pi` and `Math.sqrt` as `sqrt`), each value of
`Math.random()` as an argument `r`, and each value of the wall clock
`Date.now()` as an argument `now`; `update` takes them bundled in `HostValues`.
-/

namespace TankBattle

/-- The four values the string field `state` of an `Enemy` takes. -/
inductive AIState where
  | patrol
  | chase
  | attack
  | retreat
  deriving DecidableEq, Repr

/-- A JavaScript object literal with the fields `x` and `y`. -/
structure Point (R : Type) where
  x : R
  y : R

/-- An entry of `game.obstacles`: an axis-aligned rectangle. -/
structure Obstacle (R : Type) where
  x : R
  y : R
  width : R
  height : R

/-- What `Enemy` reads of the tank it is given as `player` / `target`. -/
structure Target (R : Type) where
  x : R
  y : R
  velocity : Point R

/-- The fields of an `Enemy` instance: those set by the `Tank` constructor
(tank.js) that enemy.js reads or writes, then those set by the `Enemy`
constructor. -/
structure Enemy (R : Type) where
  x : R
  y : R
  angle : R
  maxHealth : R
  health : R
  speed : R
  rotationSpeed : R
  turretAngle : R
  turretRotationSpeed : R
  velocity : Point R
  acceleration : R
  friction : R
  fireRate : R
  lastShotTime : R
  projectileSpeed : R
  damage : R
  hasRapidFire : Bool
  muzzleFlash : R
  damageFlashTime : R
  turretLength : R
  state : AIState
  stateTime : R
  targetPosition : Point R
  lastPlayerPosition : Point R
  detectionRange : R
  attackRange : R
  fleeHealthThreshold : R
  lastStateChange : R
  pathUpdateTime : R
  stuckTime : R
  lastPosition : Point R
  path : List (Point R)
  currentPathIndex : Nat
  pathfindingCooldown : R
  predictiveAiming : Bool
  accuracy : R
  reactionTime : R
  lastReactionTime : R
  patrolPoints : List (Point R)
  currentPatrolIndex : Nat

/-- The inputs of one `updateAI` call: the tick duration, the target, the
obstacle list and the value of `Date.now()`. -/
structure Tick (R : Type) where
  deltaTime : R
  player : Target R
  obstacles : List (Obstacle R)
  now : R

/-- What enemy.js and tank.js take from the host object `Math`: the constant
`Math.PI` with its sign, and the functions `Math.sqrt`, `Math.atan2` (argument
order `y`, `x`), `Math.cos` and `Math.sin`. -/
structure JSMath (R : Type) [LinearOrderedField R] where
  PI : R
  PI_pos : 0 < PI
  sqrt : R → R
  atan2 : R → R → R
  cos : R → R
  sin : R → R

/-- What `shoot` passes to `new Projectile(...)` (tank.js 179-186); the owner
is the constant `this.type`. -/
structure Projectile (R : Type) where
  x : R
  y : R
  angle : R
  speed : R
  damage : R

/-- What enemy.js reads of the global `game`: the size of the world. -/
structure World (R : Type) where
  worldWidth : R
  worldHeight : R

/-- The player tank as `game.update` hands it to `Enemy.update`: what the
enemy reads of it, and its `health`. -/
structure PlayerTank (R : Type) extends Target R where
  health : R

/-- The values the host returns during one `update` call, one field per call
site: `Date.now()` in `updateAI`, in `attemptShoot` and in `shoot`, and
`Math.random()` in `executeStrafe`, in the test of `executeRetreat`, in `aimAt`
and in `checkIfStuck`. Each site is reached at most once in a call. -/
structure HostValues (R : Type) where
  nowStateChange : R
  nowAttempt : R
  nowShoot : R
  rStrafe : R
  rRetreat : R
  rAim : R
  rStuck : R

/-- One call on the health of a tank: `takeDamage(damage)` or
`heal(amount)`. -/
inductive HealthCall (R : Type) where
  | takeDamage (damage : R)
  | heal (amount : R)

/-- What changes around one `checkIfStuck` call of a run: where the agent is
when the call is made, the tick duration and the draw of `Math.random()`. -/
structure StuckTick (R : Type) where
  x : R
  y : R
  deltaTime : R
  r : R

section Defs

variable {R : Type} [LinearOrderedField R]

/-- The `Enemy` constructor (enemy.js 6-49, on top of the `Tank` constructor,
tank.js 6-52); the patrol route that `generatePatrolPoints` draws at random is
passed in. -/
def Enemy.new (x y angle : R) (patrolPoints : List (Point R)) : Enemy R where
  x := x
  y := y
  angle := angle
  maxHealth := 75
  health := 75
  speed := 120
  rotationSpeed := 3
  turretAngle := angle
  turretRotationSpeed := 4
  velocity := ⟨0, 0⟩
  acceleration := 600
  friction := 0.85
  fireRate := 0.8
  lastShotTime := 0
  projectileSpeed := 400
  damage := 20
  hasRapidFire := false
  muzzleFlash := 0
  damageFlashTime := 0
  turretLength := 35
  state := AIState.patrol
  stateTime := 0
  targetPosition := ⟨x, y⟩
  lastPlayerPosition := ⟨0, 0⟩
  detectionRange := 250
  attackRange := 200
  fleeHealthThreshold := 20
  lastStateChange := 0
  pathUpdateTime := 0
  stuckTime := 0
  lastPosition := ⟨x, y⟩
  path := []
  currentPathIndex := 0
  pathfindingCooldown := 0
  predictiveAiming := true
  accuracy := 0.8
  reactionTime := 0.3
  lastReactionTime := 0
  patrolPoints := patrolPoints
  currentPatrolIndex := 0

/-- The position of a target, as the object `getDistanceTo` reads. -/
def Target.pos (t : Target R) : Point R := ⟨t.x, t.y⟩

/-- `getDistanceTo(target)` (enemy.js 383-388). -/
def getDistanceTo (sqrt : R → R) (e : Enemy R) (target : Point R) : R :=
  sqrt ((target.x - e.x) ^ 2 + (target.y - e.y) ^ 2)

/-- The test of the inner loop of `canSeeTarget` (enemy.js 373-374): the
checked point lies in the rectangle of the obstacle, borders included. -/
def pointInObstacle (checkX checkY : R) (obstacle : Obstacle R) : Bool :=
  decide (checkX ≥ obstacle.x ∧ checkX ≤ obstacle.x + obstacle.width ∧
    checkY ≥ obstacle.y ∧ checkY ≤ obstacle.y + obstacle.height)

/-- The inner loop of `canSeeTarget` (enemy.js 372-377) over the obstacles
still to visit: `true` when it reaches `return false`. -/
def blockedAt (checkX checkY : R) : List (Obstacle R) → Bool
  | [] => false
  | obstacle :: rest =>
    if pointInObstacle checkX checkY obstacle then true else blockedAt checkX checkY rest

/-- The outer loop of `canSeeTarget` (enemy.js 367-378), `todo` iterations
from index `i` on, followed by the final `return true`. -/
def canSeeLoop (e : Enemy R) (dx dy : R) (obstacles : List (Obstacle R)) : Nat → Nat → Bool
  | 0, _ => true
  | todo + 1, i =>
    if blockedAt (e.x + dx * (i : R)) (e.y + dy * (i : R)) obstacles then false
    else canSeeLoop e dx dy obstacles todo (i + 1)

/-- `canSeeTarget(target, obstacles)` (enemy.js 361-381). -/
def canSeeTarget (e : Enemy R) (target : Target R) (obstacles : List (Obstacle R)) : Bool :=
  let steps : Nat := 20
  let dx := (target.x - e.x) / (steps : R)
  let dy := (target.y - e.y) / (steps : R)
  canSeeLoop e dx dy obstacles steps 0

/-- `setState(newState)` (enemy.js 147-154). -/
def setState (e : Enemy R) (newState : AIState) : Enemy R :=
  { e with state := newState, stateTime := 0, path := [], currentPathIndex := 0 }

/-- The memory update at the head of `updateAI` (enemy.js 93-100). -/
def updateMemory (e : Enemy R) (deltaTime : R) (player : Target R) (canSeePlayer : Bool) :
    Enemy R :=
  if canSeePlayer then
    { e with lastPlayerPosition := ⟨player.x, player.y⟩, lastReactionTime := 0 }
  else
    { e with lastReactionTime := e.lastReactionTime + deltaTime }

/-- The `switch` of `updateAI` (enemy.js 105-138). -/
def transition (e : Enemy R) (distanceToPlayer : R) (canSeePlayer : Bool) : Enemy R :=
  match e.state with
  | AIState.patrol =>
    if canSeePlayer = true ∧ distanceToPlayer < e.detectionRange then setState e AIState.chase
    else e
  | AIState.chase =>
    if canSeePlayer = false ∧ e.lastReactionTime > 3.0 then setState e AIState.patrol
    else if canSeePlayer = true ∧ distanceToPlayer < e.attackRange then setState e AIState.attack
    else if e.health < e.fleeHealthThreshold then setState e AIState.retreat
    else e
  | AIState.attack =>
    if distanceToPlayer > e.attackRange * 1.5 then setState e AIState.chase
    else if e.health < e.fleeHealthThreshold then setState e AIState.retreat
    else if canSeePlayer = false ∧ e.lastReactionTime > 2.0 then setState e AIState.chase
    else e
  | AIState.retreat =>
    if e.health > e.fleeHealthThreshold * 1.5 ∧ distanceToPlayer > e.detectionRange then
      setState e AIState.patrol
    else e

/-- `updateAI(deltaTime, player, obstacles)` (enemy.js 89-145); `now` is the
value `Date.now()` returns in this call. -/
def updateAI (sqrt : R → R) (now : R) (e : Enemy R) (deltaTime : R) (player : Target R)
    (obstacles : List (Obstacle R)) : Enemy R :=
  let distanceToPlayer := getDistanceTo sqrt e player.pos
  let canSeePlayer := canSeeTarget e player obstacles
  let e1 := updateMemory e deltaTime player canSeePlayer
  let previousState := e1.state
  let e2 := transition e1 distanceToPlayer canSeePlayer
  if previousState ≠ e2.state then
    { e2 with stateTime := 0, lastStateChange := now }
  else e2

/-- A freshly constructed enemy at the origin with an empty patrol route, put
in the given state with the given health. -/
def sampleAgent (state : AIState) (health : R) : Enemy R :=
  { Enemy.new 0 0 0 [] with state := state, health := health }

/-- A target at rest at `(x, 0)`. -/
def sampleTarget (x : R) : Target R := ⟨x, 0, ⟨0, 0⟩⟩

/-- An obstacle across the x axis, covering `[40, 60] × [-10, 10]`. -/
def sampleWall : Obstacle R := ⟨40, -10, 20, 20⟩

/-- A tick of the given duration with the target at `(100, 0)` behind
`sampleWall`. -/
def hiddenTick (deltaTime : R) : Tick R := ⟨deltaTime, sampleTarget 100, [sampleWall], 0⟩

end Defs

section AngleDefs

/-- The first loop of `normalizeAngle` (enemy.js 391):
`while (angle > Math.PI) angle -= 2 * Math.PI`. -/
def normalizeAngle.subLoop {R : Type} [LinearOrderedField R] [FloorRing R] (pi : R)
    (hpi : 0 < pi) (angle : R) : R :=
  if angle > pi then normalizeAngle.subLoop pi hpi (angle - 2 * pi) else angle
termination_by Int.toNat ⌈(angle - pi) / (2 * pi)⌉
decreasing_by
  rename_i h
  have h2 : (0 : R) < 2 * pi := by linarith
  have hx : 0 < (angle - pi) / (2 * pi) := div_pos (by linarith) h2
  have he : (angle - 2 * pi - pi) / (2 * pi) = (angle - pi) / (2 * pi) - 1 := by
    field_simp
    ring
  rw [he, Int.ceil_sub_one]
  have := Int.ceil_pos.mpr hx
  omega

/-- The second loop of `normalizeAngle` (enemy.js 392):
`while (angle < -Math.PI) angle += 2 * Math.PI`. -/
def normalizeAngle.addLoop {R : Type} [LinearOrderedField R] [FloorRing R] (pi : R)
    (hpi : 0 < pi) (angle : R) : R :=
  if angle < -pi then normalizeAngle.addLoop pi hpi (angle + 2 * pi) else angle
termination_by Int.toNat ⌈(-pi - angle) / (2 * pi)⌉
decreasing_by
  rename_i h
  have h2 : (0 : R) < 2 * pi := by linarith
  have hx : 0 < (-pi - angle) / (2 * pi) := div_pos (by linarith) h2
  have he : (-pi - (angle + 2 * pi)) / (2 * pi) = (-pi - angle) / (2 * pi) - 1 := by
    field_simp
    ring
  rw [he, Int.ceil_sub_one]
  have := Int.ceil_pos.mpr hx
  omega

/-- `normalizeAngle(angle)` (enemy.js 390-394): the two loops in sequence. `pi`
is `Math.PI`; its positivity `hpi` is what makes each loop end, after a number
of rounds bounded by the ceiling in its `termination_by`. -/
def normalizeAngle {R : Type} [LinearOrderedField R] [FloorRing R] (pi : R) (hpi : 0 < pi)
    (angle : R) : R :=
  normalizeAngle.addLoop pi hpi (normalizeAngle.subLoop pi hpi angle)

end AngleDefs

section BehaviourDefs

variable {R : Type} [LinearOrderedField R] [FloorRing R]

/-- `Math.sign(x)` on numbers: 1, -1 or 0. -/
def JSMath.sign (_Math : JSMath R) (x : R) : R :=
  if x > 0 then 1 else if x < 0 then -1 else 0

/-- `rotateTowards(targetAngle)` (enemy.js 290-299); `Math.abs` is `|·|`. -/
def rotateTowards (Math : JSMath R) (e : Enemy R) (targetAngle : R) : Enemy R :=
  let angleDiff := normalizeAngle Math.PI Math.PI_pos (targetAngle - e.angle)
  let maxRotation := e.rotationSpeed * 0.016
  if |angleDiff| < maxRotation then
    { e with angle := targetAngle }
  else
    { e with angle := e.angle + Math.sign angleDiff * maxRotation }

/-- `accelerate()` (enemy.js 301-304). -/
def accelerate (Math : JSMath R) (e : Enemy R) : Enemy R :=
  { e with velocity :=
      ⟨e.velocity.x + Math.cos e.angle * e.acceleration * 0.016,
        e.velocity.y + Math.sin e.angle * e.acceleration * 0.016⟩ }

/-- `getObstacleAvoidanceVector(obstacles)` (enemy.js 268-288): the loop over
the obstacles still to visit; `none` is `null`. -/
def getObstacleAvoidanceVector (Math : JSMath R) (e : Enemy R) : List (Obstacle R) → Option R
  | [] => none
  | obstacle :: rest =>
    let lookAheadDistance : R := 80
    let avoidanceAngle := Math.PI / 4
    let obstacleDistance := getDistanceTo Math.sqrt e ⟨obstacle.x, obstacle.y⟩
    if obstacleDistance < lookAheadDistance then
      let obstacleAngle := Math.atan2 (obstacle.y - e.y) (obstacle.x - e.x)
      let angleDiff := normalizeAngle Math.PI Math.PI_pos (obstacleAngle - e.angle)
      if |angleDiff| < avoidanceAngle then
        some (if angleDiff > 0 then -1 else 1)
      else getObstacleAvoidanceVector Math e rest
    else getObstacleAvoidanceVector Math e rest

/-- `moveTowards(target, obstacles)` (enemy.js 248-266). The values 1 and -1
of `obstacleAvoidance` are truthy, `null` is not. -/
def moveTowards (Math : JSMath R) (e : Enemy R) (target : Point R)
    (obstacles : List (Obstacle R)) : Enemy R :=
  let distance := getDistanceTo Math.sqrt e target
  if distance < 10 then e
  else
    let targetAngle := Math.atan2 (target.y - e.y) (target.x - e.x)
    let targetAngle :=
      match getObstacleAvoidanceVector Math e obstacles with
      | some obstacleAvoidance => targetAngle + obstacleAvoidance * 0.5
      | none => targetAngle
    accelerate Math (rotateTowards Math e targetAngle)

/-- `calculateRetreatPoint(player)` (enemy.js 350-359). -/
def calculateRetreatPoint (Math : JSMath R) (e : Enemy R) (player : Target R) : Point R :=
  let retreatAngle := Math.atan2 (e.y - player.y) (e.x - player.x)
  let retreatDistance : R := 200
  ⟨e.x + Math.cos retreatAngle * retreatDistance, e.y + Math.sin retreatAngle * retreatDistance⟩

/-- `executeStrafe(deltaTime, player)` (enemy.js 235-246); `r` is the value of
its `Math.random()` call. -/
def executeStrafe (Math : JSMath R) (r : R) (e : Enemy R) (_deltaTime : R)
    (player : Target R) : Enemy R :=
  let angleToPlayer := Math.atan2 (player.y - e.y) (player.x - e.x)
  let strafeAngle := angleToPlayer + (Math.PI / 2) * (if r < 0.5 then 1 else -1)
  let strafePoint : Point R :=
    ⟨e.x + Math.cos strafeAngle * 100, e.y + Math.sin strafeAngle * 100⟩
  { e with targetPosition := strafePoint }

/-- The offset `inaccuracy` of `aimAt` (enemy.js 322) at the draw `r` of
`Math.random()`. -/
def aimInaccuracy (Math : JSMath R) (accuracy r : R) : R :=
  (1 - accuracy) * (r - 0.5) * Math.PI / 4

/-- The value of the local `targetAngle` of `aimAt` after the inaccuracy is
added (enemy.js 307-323). -/
def aimAngle (Math : JSMath R) (r : R) (e : Enemy R) (target : Target R) : R :=
  let targetAngle :=
    if e.predictiveAiming then
      let timeToTarget := getDistanceTo Math.sqrt e target.pos / e.projectileSpeed
      let predictedX := target.x + target.velocity.x * timeToTarget
      let predictedY := target.y + target.velocity.y * timeToTarget
      Math.atan2 (predictedY - e.y) (predictedX - e.x)
    else
      Math.atan2 (target.y - e.y) (target.x - e.x)
  let inaccuracy := aimInaccuracy Math e.accuracy r
  targetAngle + inaccuracy

/-- `aimAt(target)` (enemy.js 306-334); `r` is the value of its
`Math.random()` call. -/
def aimAt (Math : JSMath R) (r : R) (e : Enemy R) (target : Target R) : Enemy R :=
  let targetAngle := aimAngle Math r e target
  let angleDiff := normalizeAngle Math.PI Math.PI_pos (targetAngle - e.turretAngle)
  let maxRotation := e.turretRotationSpeed * 0.016
  if |angleDiff| < maxRotation then
    { e with turretAngle := targetAngle }
  else
    { e with turretAngle := e.turretAngle + Math.sign angleDiff * maxRotation }

/-- `shoot()` (tank.js 172-198); `now` is the value of its `Date.now()` call.
The second component is the projectile pushed on `game.projectiles`, if any. -/
def shoot (Math : JSMath R) (now : R) (e : Enemy R) : Enemy R × Option (Projectile R) :=
  let currentTime := now / 1000
  let actualFireRate := if e.hasRapidFire then e.fireRate * 0.3 else e.fireRate
  if currentTime - e.lastShotTime < actualFireRate then (e, none)
  else
    let projectile : Projectile R :=
      ⟨e.x + Math.cos e.turretAngle * e.turretLength,
        e.y + Math.sin e.turretAngle * e.turretLength,
        e.turretAngle, e.projectileSpeed, e.damage⟩
    ({ e with
        muzzleFlash := 1.0
        velocity :=
          ⟨e.velocity.x - Math.cos e.turretAngle * 30,
            e.velocity.y - Math.sin e.turretAngle * 30⟩
        lastShotTime := currentTime },
      some projectile)

/-- `attemptShoot(target)` (enemy.js 336-348); `nowAttempt` is the value of
its own `Date.now()` call and `nowShoot` the value of the call in `shoot`. -/
def attemptShoot (Math : JSMath R) (nowAttempt nowShoot : R) (e : Enemy R)
    (target : Target R) : Enemy R × Option (Projectile R) :=
  let currentTime := nowAttempt / 1000
  if currentTime - e.lastShotTime < e.fireRate then (e, none)
  else
    let targetAngle := Math.atan2 (target.y - e.y) (target.x - e.x)
    let angleDiff := |normalizeAngle Math.PI Math.PI_pos (targetAngle - e.turretAngle)|
    if angleDiff < Math.PI / 8 then shoot Math nowShoot e
    else (e, none)

/-- `executePatrol(deltaTime, obstacles)` (enemy.js 176-189). The result
`none` is the `TypeError` that `getDistanceTo(undefined)` throws when
`currentPatrolIndex` is outside a non-empty route. -/
def executePatrol (Math : JSMath R) (e : Enemy R) (_deltaTime : R)
    (obstacles : List (Obstacle R)) : Option (Enemy R) :=
  if e.patrolPoints.length = 0 then some e
  else
    match e.patrolPoints[e.currentPatrolIndex]? with
    | none => none
    | some targetPoint =>
      let distance := getDistanceTo Math.sqrt e targetPoint
      if distance < 50 then
        some { e with
          currentPatrolIndex := (e.currentPatrolIndex + 1) % e.patrolPoints.length }
      else
        some (moveTowards Math e targetPoint obstacles)

/-- `executeAttack(deltaTime, player, obstacles)` (enemy.js 201-222).
`rStrafe` and `rAim` are the values of the `Math.random()` calls in
`executeStrafe` and `aimAt`, `nowAttempt` and `nowShoot` those of the
`Date.now()` calls in `attemptShoot` and `shoot`. -/
def executeAttack (Math : JSMath R) (rStrafe rAim nowAttempt nowShoot : R) (e : Enemy R)
    (deltaTime : R) (player : Target R) (obstacles : List (Obstacle R)) :
    Enemy R × Option (Projectile R) :=
  let distanceToPlayer := getDistanceTo Math.sqrt e player.pos
  let e1 :=
    if distanceToPlayer < e.attackRange * 0.7 then
      let retreatPoint := calculateRetreatPoint Math e player
      moveTowards Math e retreatPoint obstacles
    else if distanceToPlayer > e.attackRange then
      moveTowards Math e player.pos obstacles
    else
      executeStrafe Math rStrafe e deltaTime player
  if canSeeTarget e1 player obstacles then
    attemptShoot Math nowAttempt nowShoot (aimAt Math rAim e1 player) player
  else (e1, none)

/-- `checkIfStuck(deltaTime)` (enemy.js 396-413); `r` is the value of its
`Math.random()` call, made only when the agent has been stuck for over 2.0. -/
def checkIfStuck (Math : JSMath R) (r : R) (e : Enemy R) (deltaTime : R) : Enemy R :=
  let currentPos : Point R := ⟨e.x, e.y⟩
  let distanceMoved := getDistanceTo Math.sqrt e e.lastPosition
  let e1 :=
    if distanceMoved < 5 then { e with stuckTime := e.stuckTime + deltaTime }
    else { e with stuckTime := 0 }
  let e2 :=
    if e1.stuckTime > 2.0 then
      { e1 with angle := e1.angle + (r - 0.5) * Math.PI, stuckTime := 0 }
    else e1
  { e2 with lastPosition := currentPos }

/-- The agent with heading and turret angle set as given. -/
def Enemy.facing (e : Enemy R) (angle turretAngle : R) : Enemy R :=
  { e with angle := angle, turretAngle := turretAngle }

/-- A fresh enemy at the origin with perfect accuracy, in state attack. -/
def sharpshooter : Enemy R :=
  { sampleAgent AIState.attack 75 with accuracy := 1 }

/-- A fresh enemy at the origin, heading 0, whose patrol route is the single
waypoint `(0, 100)`. -/
def sentry : Enemy R := Enemy.new 0 0 0 [⟨0, 100⟩]

end BehaviourDefs

section UpdateDefs

variable {R : Type} [LinearOrderedField R] [FloorRing R]

/-- `updateEffects(deltaTime)` (tank.js 132-142). -/
def updateEffects (e : Enemy R) (deltaTime : R) : Enemy R :=
  let e1 :=
    if e.muzzleFlash > 0 then { e with muzzleFlash := e.muzzleFlash - deltaTime * 3 } else e
  if e1.damageFlashTime > 0 then
    { e1 with damageFlashTime := e1.damageFlashTime - deltaTime }
  else e1

/-- `takeDamage(damage)` (tank.js 229-256), without the particles it pushes on
`game.particles`. -/
def takeDamage (e : Enemy R) (damage : R) : Enemy R :=
  let e1 := { e with health := e.health - damage, damageFlashTime := 0.2 }
  if e1.health < 0 then { e1 with health := 0 } else e1

/-- `heal(amount)` (tank.js 258-260); `Math.min` is `min`. -/
def heal (e : Enemy R) (amount : R) : Enemy R :=
  { e with health := min e.maxHealth (e.health + amount) }

/-- A sequence of `takeDamage` and `heal` calls on one tank. -/
def applyHealthCalls (e : Enemy R) : List (HealthCall R) → Enemy R
  | [] => e
  | HealthCall.takeDamage damage :: rest => applyHealthCalls (takeDamage e damage) rest
  | HealthCall.heal amount :: rest => applyHealthCalls (heal e amount) rest

/-- `executeChase(deltaTime, player, obstacles)` (enemy.js 191-199); `rAim` is
the value of the `Math.random()` call in `aimAt`. -/
def executeChase (Math : JSMath R) (rAim : R) (e : Enemy R) (_deltaTime : R)
    (player : Target R) (obstacles : List (Obstacle R)) : Enemy R :=
  let e1 := moveTowards Math e e.lastPlayerPosition obstacles
  if canSeeTarget e1 player obstacles then aimAt Math rAim e1 player else e1

/-- `executeRetreat(deltaTime, player, obstacles)` (enemy.js 224-233).
`rRetreat` is the value of the `Math.random()` call in the test, made only when
the target is visible. -/
def executeRetreat (Math : JSMath R) (rRetreat rAim nowAttempt nowShoot : R) (e : Enemy R)
    (_deltaTime : R) (player : Target R) (obstacles : List (Obstacle R)) :
    Enemy R × Option (Projectile R) :=
  let retreatPoint := calculateRetreatPoint Math e player
  let e1 := moveTowards Math e retreatPoint obstacles
  if canSeeTarget e1 player obstacles = true ∧ rRetreat < 0.3 then
    attemptShoot Math nowAttempt nowShoot (aimAt Math rAim e1 player) player
  else (e1, none)

/-- `executeBehavior(deltaTime, player, obstacles)` (enemy.js 156-174). The
result `none` is the `TypeError` of `executePatrol`; the second component is the
projectile pushed on `game.projectiles`, if any. -/
def executeBehavior (Math : JSMath R) (host : HostValues R) (e : Enemy R) (deltaTime : R)
    (player : Target R) (obstacles : List (Obstacle R)) :
    Option (Enemy R × Option (Projectile R)) :=
  match e.state with
  | AIState.patrol =>
    match executePatrol Math e deltaTime obstacles with
    | some e1 => some (e1, none)
    | none => none
  | AIState.chase => some (executeChase Math host.rAim e deltaTime player obstacles, none)
  | AIState.attack =>
    some (executeAttack Math host.rStrafe host.rAim host.nowAttempt host.nowShoot e deltaTime
      player obstacles)
  | AIState.retreat =>
    some (executeRetreat Math host.rRetreat host.rAim host.nowAttempt host.nowShoot e deltaTime
      player obstacles)

/-- `updateMovement(deltaTime)` (enemy.js 436-451). -/
def updateMovement (Math : JSMath R) (e : Enemy R) (deltaTime : R) : Enemy R :=
  let vx := e.velocity.x * e.friction
  let vy := e.velocity.y * e.friction
  let currentSpeed := Math.sqrt (vx * vx + vy * vy)
  let velocity : Point R :=
    if currentSpeed > e.speed then
      ⟨vx / currentSpeed * e.speed, vy / currentSpeed * e.speed⟩
    else ⟨vx, vy⟩
  { e with
    velocity := velocity
    x := e.x + velocity.x * deltaTime
    y := e.y + velocity.y * deltaTime }

/-- `constrainToWorld()` (enemy.js 415-434); `none` is an unset `game`. -/
def constrainToWorld (game : Option (World R)) (e : Enemy R) : Enemy R :=
  match game with
  | none => e
  | some game =>
    let e1 :=
      if e.x < 30 then { e with x := 30, velocity := ⟨|e.velocity.x|, e.velocity.y⟩ } else e
    let e2 :=
      if e1.x > game.worldWidth - 30 then
        { e1 with x := game.worldWidth - 30, velocity := ⟨-|e1.velocity.x|, e1.velocity.y⟩ }
      else e1
    let e3 :=
      if e2.y < 30 then { e2 with y := 30, velocity := ⟨e2.velocity.x, |e2.velocity.y|⟩ } else e2
    if e3.y > game.worldHeight - 30 then
      { e3 with y := game.worldHeight - 30, velocity := ⟨e3.velocity.x, -|e3.velocity.y|⟩ }
    else e3

/-- The last three steps of `update` (enemy.js 79-86): `updateMovement`,
`constrainToWorld`, `checkIfStuck`. -/
def moveAndCheck (Math : JSMath R) (game : World R) (rStuck : R) (e : Enemy R)
    (deltaTime : R) : Enemy R :=
  checkIfStuck Math rStuck (constrainToWorld (some game) (updateMovement Math e deltaTime))
    deltaTime

/-- `update(deltaTime, player, obstacles)` (enemy.js 65-87), with the global
`game` set, as it is whenever an enemy exists. `player = none` is a `null`
player. The result `none` is the `TypeError` of `executePatrol`; the second
component is the projectile pushed on `game.projectiles`, if any. -/
def update (Math : JSMath R) (game : World R) (host : HostValues R) (e : Enemy R)
    (deltaTime : R) (player : Option (PlayerTank R)) (obstacles : List (Obstacle R)) :
    Option (Enemy R × Option (Projectile R)) :=
  let e0 := updateEffects e deltaTime
  match player with
  | none => some (e0, none)
  | some player =>
    let e1 :=
      { e0 with
        stateTime := e0.stateTime + deltaTime
        pathfindingCooldown := e0.pathfindingCooldown - deltaTime }
    let e2 := updateAI Math.sqrt host.nowStateChange e1 deltaTime player.toTarget obstacles
    match executeBehavior Math host e2 deltaTime player.toTarget obstacles with
    | none => none
    | some (e3, projectile) => some (moveAndCheck Math game host.rStuck e3 deltaTime, projectile)

/-- One tick of a run in which the health of the agent is set from outside
before `updateAI` is called. -/
def healthStep (sqrt : R → R) (e : Enemy R) (t : R × Tick R) : Enemy R :=
  updateAI sqrt t.2.now { e with health := t.1 } t.2.deltaTime t.2.player t.2.obstacles

/-- A run of `updateAI` calls with the health set from outside before each. -/
def healthRun (sqrt : R → R) (e : Enemy R) : List (R × Tick R) → Enemy R
  | [] => e
  | t :: rest => healthRun sqrt (healthStep sqrt e t) rest

/-- The health values of a run never go up, starting from `h`. -/
def healthNeverUp (h : R) : List (R × Tick R) → Bool
  | [] => true
  | t :: rest => decide (t.1 ≤ h) && healthNeverUp t.1 rest

/-- A still player tank at `(x, 0)` with the given health. -/
def samplePlayer (x health : R) : PlayerTank R := ⟨sampleTarget x, health⟩

/-- The world of game.js (39-40): 2400 by 1600. -/
def sampleWorld : World R := ⟨2400, 1600⟩

/-- Host values with every clock reading `now` and every draw 0.5. -/
def sampleHost (now : R) : HostValues R := ⟨now, now, now, 0.5, 0.5, 0.5, 0.5⟩

end UpdateDefs

section AvoidanceDefs

variable {R : Type} [LinearOrderedField R] [FloorRing R]

/-- The local `angleDiff` of `getObstacleAvoidanceVector` (enemy.js 278-279):
the bearing of the obstacle less the heading, normalized. -/
def avoidanceOffset (Math : JSMath R) (e : Enemy R) (obstacle : Obstacle R) : R :=
  normalizeAngle Math.PI Math.PI_pos
    (Math.atan2 (obstacle.y - e.y) (obstacle.x - e.x) - e.angle)

/-- The two tests of `getObstacleAvoidanceVector` (enemy.js 276, 281): the
obstacle is less than 80 from the agent and its offset is below `π / 4`. -/
def inAvoidanceCone (Math : JSMath R) (e : Enemy R) (obstacle : Obstacle R) : Bool :=
  decide (getDistanceTo Math.sqrt e ⟨obstacle.x, obstacle.y⟩ < 80 ∧
    |avoidanceOffset Math e obstacle| < Math.PI / 4)

/-- A fresh enemy at the origin, heading 0, without a route. -/
def scout : Enemy R := Enemy.new 0 0 0 []

/-- An obstacle with corner `(60, 0)`, straight ahead of `scout`. -/
def farAhead : Obstacle R := ⟨60, 0, 20, 20⟩

/-- An obstacle with corner `(30, 5)`, nearer to `scout` than `farAhead` and to
the positive side of its heading. -/
def nearLeft : Obstacle R := ⟨30, 5, 20, 20⟩

end AvoidanceDefs

section ScenarioDefs

variable {R : Type} [LinearOrderedField R]

/-- A tick of one second at the origin with the draw 0. -/
def stillTick : StuckTick R := ⟨0, 0, 1, 0⟩

/-- A fresh enemy at `(100, 100)`, heading 0, moving along the x axis at 200
before friction, with the stuck timer at 1.99. -/
def cruiser : Enemy R :=
  { Enemy.new 100 100 0 [] with velocity := ⟨200, 0⟩, stuckTime := 1.99 }

end ScenarioDefs

section HostAddDefs

variable {R : Type} [LinearOrderedField R]

/-- The memory update at the head of `updateAI` (enemy.js 93-100) with the
addition of `lastReactionTime += deltaTime` (enemy.js 99) as the host performs
it on its numbers, `add`, where `updateMemory` has the exact sum. -/
def updateMemoryWith (add : R → R → R) (e : Enemy R) (deltaTime : R) (player : Target R)
    (canSeePlayer : Bool) : Enemy R :=
  if canSeePlayer then
    { e with lastPlayerPosition := ⟨player.x, player.y⟩, lastReactionTime := 0 }
  else
    { e with lastReactionTime := add e.lastReactionTime deltaTime }

/-- `updateAI(deltaTime, player, obstacles)` (enemy.js 89-145) with the
addition of `lastReactionTime += deltaTime` as the host performs it, `add`;
`now` is the value `Date.now()` returns in this call. -/
def updateAIWith (add : R → R → R) (sqrt : R → R) (now : R) (e : Enemy R) (deltaTime : R)
    (player : Target R) (obstacles : List (Obstacle R)) : Enemy R :=
  let distanceToPlayer := getDistanceTo sqrt e player.pos
  let canSeePlayer := canSeeTarget e player obstacles
  let e1 := updateMemoryWith add e deltaTime player canSeePlayer
  let previousState := e1.state
  let e2 := transition e1 distanceToPlayer canSeePlayer
  if previousState ≠ e2.state then
    { e2 with stateTime := 0, lastStateChange := now }
  else e2

/-- Successive `updateAI` calls on one agent, one per tick of the list, the
timer added up by the host addition `add`. -/
def runAI (add : R → R → R) (sqrt : R → R) (e : Enemy R) : List (Tick R) → Enemy R
  | [] => e
  | t :: rest =>
    runAI add sqrt (updateAIWith add sqrt t.now e t.deltaTime t.player t.obstacles) rest

/-- Along the run of `runAI`, `canSeeTarget` is false at every tick, taken
from where the agent stands in that tick. -/
def neverSeen (add : R → R → R) (sqrt : R → R) (e : Enemy R) : List (Tick R) → Bool
  | [] => true
  | t :: rest =>
    !canSeeTarget e t.player t.obstacles &&
      neverSeen add sqrt (updateAIWith add sqrt t.now e t.deltaTime t.player t.obstacles) rest

/-- The value a timer holds after `timer += deltaTime` for each duration of
the list in turn, from the value `t`, every sum taken by the host addition
`add`. -/
def accumulate (add : R → R → R) (t : R) : List R → R
  | [] => t
  | deltaTime :: rest => accumulate add (add t deltaTime) rest

/-- `checkIfStuck(deltaTime)` (enemy.js 396-413) with the addition of
`stuckTime += deltaTime` (enemy.js 401) as the host performs it, `add`; `r` is
the value of its `Math.random()` call. -/
def checkIfStuckWith (add : R → R → R) (Math : JSMath R) (r : R) (e : Enemy R)
    (deltaTime : R) : Enemy R :=
  let currentPos : Point R := ⟨e.x, e.y⟩
  let distanceMoved := getDistanceTo Math.sqrt e e.lastPosition
  let e1 :=
    if distanceMoved < 5 then { e with stuckTime := add e.stuckTime deltaTime }
    else { e with stuckTime := 0 }
  let e2 :=
    if e1.stuckTime > 2.0 then
      { e1 with angle := e1.angle + (r - 0.5) * Math.PI, stuckTime := 0 }
    else e1
  { e2 with lastPosition := currentPos }

/-- One step of a run of `checkIfStuck`: the agent is where the tick says, the
call is made with the duration and the draw of the tick. -/
def stuckStep (add : R → R → R) (Math : JSMath R) (e : Enemy R) (t : StuckTick R) : Enemy R :=
  checkIfStuckWith add Math t.r { e with x := t.x, y := t.y } t.deltaTime

/-- A run of `checkIfStuck` calls, one per tick of the list. -/
def stuckRun (add : R → R → R) (Math : JSMath R) (e : Enemy R) : List (StuckTick R) → Enemy R
  | [] => e
  | t :: rest => stuckRun add Math (stuckStep add Math e t) rest

/-- Along the run of `stuckRun`, at every tick the agent is less than 5 units
from `lastPosition`. -/
def alwaysNear (add : R → R → R) (Math : JSMath R) (e : Enemy R) : List (StuckTick R) → Bool
  | [] => true
  | t :: rest =>
    decide (getDistanceTo Math.sqrt { e with x := t.x, y := t.y } e.lastPosition < 5) &&
      alwaysNear add Math (stuckStep add Math e t) rest

/-- For each tick of a run of `stuckRun`, whether the heading after the tick
differs from the heading before it. -/
def headingChanges (add : R → R → R) (Math : JSMath R) (e : Enemy R) :
    List (StuckTick R) → List Bool
  | [] => []
  | t :: rest =>
    decide ((stuckStep add Math e t).angle ≠ e.angle) ::
      headingChanges add Math (stuckStep add Math e t) rest

end HostAddDefs

section DoubleDefs

variable {R : Type} [LinearOrderedField R] [FloorRing R]

/-- Rounding of a real number to the nearest double (IEEE 754 binary64, ties
to the even significand): with `2 ^ e ≤ |x| < 2 ^ (e + 1)` the doubles around
`x` are the multiples of `2 ^ (e - 52)`. The exponent `e` is not bounded here, so
the value is the one of the format wherever that is a normal double; overflow
to `Infinity` and the coarser spacing of the subnormal numbers are left out. -/
def roundDouble (x : R) : R :=
  if x = 0 then 0
  else
    let spacing : R := 2 ^ (Int.log 2 |x| - 52)
    let q := x / spacing
    let m : ℤ :=
      if q - ⌊q⌋ < 1 / 2 then ⌊q⌋
      else if q - ⌊q⌋ > 1 / 2 then ⌊q⌋ + 1
      else if ⌊q⌋ % 2 = 0 then ⌊q⌋
      else ⌊q⌋ + 1
    m * spacing

/-- The `+` of two JavaScript numbers: the exact sum rounded to the nearest
double. -/
def addDouble (a b : R) : R := roundDouble (a + b)

end DoubleDefs

section DoubleScenarioDefs

variable {R : Type} [LinearOrderedField R]

/-- The double nearest 0.12, a frame time in seconds. -/
def frameTime : R := 1080863910568919 / 2 ^ 53

/-- The double nearest 0.2, a tick duration in seconds. -/
def fifthSecond : R := 3602879701896397 / 2 ^ 54

/-- A tick of `fifthSecond` at the origin with the draw 0. -/
def shortTick : StuckTick R := ⟨0, 0, fifthSecond, 0⟩

end DoubleScenarioDefs

section RealHost

/-- The host functions are the ones of real analysis: `Math.PI` is `π`,
`Math.sqrt` the real square root, `Math.atan2(y, x)` the argument of `x + iy` in
`(-π, π]`, `Math.cos` and `Math.sin` the real cosine and sine. -/
def JSMath.IsReal (Math : JSMath ℝ) : Prop :=
  Math.PI = Real.pi ∧ Math.sqrt = Real.sqrt ∧
    (∀ y x : ℝ, Math.atan2 y x = Complex.arg ⟨x, y⟩) ∧
    Math.cos = Real.cos ∧ Math.sin = Real.sin

/-- The statement `P` read at the host functions of real analysis. -/
def withRealMath (P : JSMath ℝ → Prop) : Prop :=
  P ⟨Real.pi, Real.pi_pos, Real.sqrt, fun y x => Complex.arg ⟨x, y⟩, Real.cos, Real.sin⟩

end RealHost

section StateMachine

variable {R : Type} [LinearOrderedField R]

/-- The closing `if` of `updateAI` writes `stateTime` and `lastStateChange`
only: the state after `updateAI` is the one the `switch` leaves. -/
theorem updateAI_state_eq (sqrt : R → R) (now : R) (e : Enemy R) (deltaTime : R)
    (player : Target R) (obstacles : List (Obstacle R)) :
    (updateAI sqrt now e deltaTime player obstacles).state =
      (transition (updateMemory e deltaTime player (canSeeTarget e player obstacles))
        (getDistanceTo sqrt e player.pos) (canSeeTarget e player obstacles)).state := by
  unfold updateAI
  dsimp only
  split <;> rfl

/-- The memory update leaves the state and the thresholds as they are. -/
theorem updateMemory_fields (e : Enemy R) (deltaTime : R) (player : Target R) (b : Bool) :
    (updateMemory e deltaTime player b).state = e.state ∧
    (updateMemory e deltaTime player b).health = e.health ∧
    (updateMemory e deltaTime player b).fleeHealthThreshold = e.fleeHealthThreshold ∧
    (updateMemory e deltaTime player b).attackRange = e.attackRange ∧
    (updateMemory e deltaTime player b).detectionRange = e.detectionRange := by
  cases b <;> simp [updateMemory]

/-- The value of `lastReactionTime` the `switch` reads. -/
theorem updateMemory_lastReactionTime (e : Enemy R) (deltaTime : R) (player : Target R)
    (b : Bool) :
    (updateMemory e deltaTime player b).lastReactionTime =
      if b = true then 0 else e.lastReactionTime + deltaTime := by
  cases b <;> simp [updateMemory]

/-- The state the chase branch of the `switch` leaves. -/
theorem transition_chase_state (e : Enemy R) (d : R) (b : Bool) (h : e.state = AIState.chase) :
    (transition e d b).state =
      if b = false ∧ e.lastReactionTime > 3.0 then AIState.patrol
      else if b = true ∧ d < e.attackRange then AIState.attack
      else if e.health < e.fleeHealthThreshold then AIState.retreat
      else AIState.chase := by
  unfold transition
  rw [h]
  dsimp only
  split_ifs <;> simp [setState, h]

/-- The state `updateAI` leaves from state chase, as an `if` chain in the
order of the tests. -/
theorem updateAI_state_of_chase (sqrt : R → R) (now : R) (e : Enemy R) (deltaTime : R)
    (player : Target R) (obstacles : List (Obstacle R)) (h : e.state = AIState.chase) :
    (updateAI sqrt now e deltaTime player obstacles).state =
      if canSeeTarget e player obstacles = false ∧ e.lastReactionTime + deltaTime > 3.0 then
        AIState.patrol
      else if canSeeTarget e player obstacles = true ∧
          getDistanceTo sqrt e player.pos < e.attackRange then AIState.attack
      else if e.health < e.fleeHealthThreshold then AIState.retreat
      else AIState.chase := by
  obtain ⟨hs, hh, hf, ha, -⟩ :=
    updateMemory_fields e deltaTime player (canSeeTarget e player obstacles)
  rw [updateAI_state_eq, transition_chase_state _ _ _ (hs.trans h),
    updateMemory_lastReactionTime, hh, hf, ha]
  cases hv : canSeeTarget e player obstacles <;> simp

/-- C1. From state chase, `updateAI` takes the first matching test, in this
order: patrol when the target is not visible and the updated
`lastReactionTime` (old value plus `deltaTime`) exceeds 3.0; else attack when
the target is visible and nearer than `attackRange`; else retreat when
`health < fleeHealthThreshold`; else the state stays chase. In particular an
agent that sees the target inside `attackRange` goes to attack whatever its
health. -/
theorem updateAI_chase (sqrt : R → R) (now : R) (e : Enemy R) (deltaTime : R)
    (player : Target R) (obstacles : List (Obstacle R)) (h : e.state = AIState.chase) :
    (updateAI sqrt now e deltaTime player obstacles).state =
      (if canSeeTarget e player obstacles = false ∧ e.lastReactionTime + deltaTime > 3.0 then
        AIState.patrol
      else if canSeeTarget e player obstacles = true ∧
          getDistanceTo sqrt e player.pos < e.attackRange then AIState.attack
      else if e.health < e.fleeHealthThreshold then AIState.retreat
      else AIState.chase) ∧
    (canSeeTarget e player obstacles = true →
      getDistanceTo sqrt e player.pos < e.attackRange →
      (updateAI sqrt now e deltaTime player obstacles).state = AIState.attack) := by
  have hc := updateAI_state_of_chase sqrt now e deltaTime player obstacles h
  refine ⟨hc, fun hv hd => ?_⟩
  rw [hc, if_neg (by simp [hv]), if_pos ⟨hv, hd⟩]

/-- The state the attack branch of the `switch` leaves. -/
theorem transition_attack_state (e : Enemy R) (d : R) (b : Bool)
    (h : e.state = AIState.attack) :
    (transition e d b).state =
      if d > e.attackRange * 1.5 then AIState.chase
      else if e.health < e.fleeHealthThreshold then AIState.retreat
      else if b = false ∧ e.lastReactionTime > 2.0 then AIState.chase
      else AIState.attack := by
  unfold transition
  rw [h]
  dsimp only
  split_ifs <;> simp [setState, h]

/-- The state the patrol branch of the `switch` leaves. -/
theorem transition_patrol_state (e : Enemy R) (d : R) (b : Bool)
    (h : e.state = AIState.patrol) :
    (transition e d b).state =
      if b = true ∧ d < e.detectionRange then AIState.chase else AIState.patrol := by
  unfold transition
  rw [h]
  dsimp only
  split_ifs <;> simp [setState, h]

/-- The state the retreat branch of the `switch` leaves. -/
theorem transition_retreat_state (e : Enemy R) (d : R) (b : Bool)
    (h : e.state = AIState.retreat) :
    (transition e d b).state =
      if e.health > e.fleeHealthThreshold * 1.5 ∧ d > e.detectionRange then AIState.patrol
      else AIState.retreat := by
  unfold transition
  rw [h]
  dsimp only
  split_ifs <;> simp [setState, h]

/-- The state `updateAI` leaves from state attack, as an `if` chain in the
order of the tests. -/
theorem updateAI_state_of_attack (sqrt : R → R) (now : R) (e : Enemy R) (deltaTime : R)
    (player : Target R) (obstacles : List (Obstacle R)) (h : e.state = AIState.attack) :
    (updateAI sqrt now e deltaTime player obstacles).state =
      if getDistanceTo sqrt e player.pos > e.attackRange * 1.5 then AIState.chase
      else if e.health < e.fleeHealthThreshold then AIState.retreat
      else if canSeeTarget e player obstacles = false ∧ e.lastReactionTime + deltaTime > 2.0 then
        AIState.chase
      else AIState.attack := by
  obtain ⟨hs, hh, hf, ha, -⟩ :=
    updateMemory_fields e deltaTime player (canSeeTarget e player obstacles)
  rw [updateAI_state_eq, transition_attack_state _ _ _ (hs.trans h),
    updateMemory_lastReactionTime, hh, hf, ha]
  cases hv : canSeeTarget e player obstacles <;> simp

/-- C2. From state attack, `updateAI` takes the first matching test, in this
order: chase when `distanceToPlayer > 1.5 * attackRange`; else retreat when
`health < fleeHealthThreshold`; else chase when the target is not visible and
the updated `lastReactionTime` (old value plus `deltaTime`) exceeds 2.0; else
the state stays attack. -/
theorem updateAI_attack (sqrt : R → R) (now : R) (e : Enemy R) (deltaTime : R)
    (player : Target R) (obstacles : List (Obstacle R)) (h : e.state = AIState.attack) :
    (updateAI sqrt now e deltaTime player obstacles).state =
      if getDistanceTo sqrt e player.pos > e.attackRange * 1.5 then AIState.chase
      else if e.health < e.fleeHealthThreshold then AIState.retreat
      else if canSeeTarget e player obstacles = false ∧ e.lastReactionTime + deltaTime > 2.0 then
        AIState.chase
      else AIState.attack :=
  updateAI_state_of_attack sqrt now e deltaTime player obstacles h

/-- The state `updateAI` leaves from state patrol. -/
theorem updateAI_state_of_patrol (sqrt : R → R) (now : R) (e : Enemy R) (deltaTime : R)
    (player : Target R) (obstacles : List (Obstacle R)) (h : e.state = AIState.patrol) :
    (updateAI sqrt now e deltaTime player obstacles).state =
      if canSeeTarget e player obstacles = true ∧
          getDistanceTo sqrt e player.pos < e.detectionRange then AIState.chase
      else AIState.patrol := by
  obtain ⟨hs, -, -, -, hd⟩ :=
    updateMemory_fields e deltaTime player (canSeeTarget e player obstacles)
  rw [updateAI_state_eq, transition_patrol_state _ _ _ (hs.trans h), hd]

/-- C3. From state patrol, the state after `updateAI` is chase exactly when
`canSeeTarget` is true and `distanceToPlayer < detectionRange`, and patrol
otherwise; neither `health` nor `attackRange` takes part. -/
theorem updateAI_patrol (sqrt : R → R) (now : R) (e : Enemy R) (deltaTime : R)
    (player : Target R) (obstacles : List (Obstacle R)) (h : e.state = AIState.patrol) :
    ((updateAI sqrt now e deltaTime player obstacles).state = AIState.chase ↔
      canSeeTarget e player obstacles = true ∧
        getDistanceTo sqrt e player.pos < e.detectionRange) ∧
    (¬ (canSeeTarget e player obstacles = true ∧
        getDistanceTo sqrt e player.pos < e.detectionRange) →
      (updateAI sqrt now e deltaTime player obstacles).state = AIState.patrol) := by
  obtain ⟨hs, -, -, -, hd⟩ :=
    updateMemory_fields e deltaTime player (canSeeTarget e player obstacles)
  rw [updateAI_state_eq, transition_patrol_state _ _ _ (hs.trans h), hd]
  constructor
  · split_ifs with hc <;> simp [hc]
  · intro hn
    rw [if_neg hn]

/-- C4. From state retreat, the state after `updateAI` is patrol exactly when
`health > 1.5 * fleeHealthThreshold` and `distanceToPlayer > detectionRange`,
and retreat otherwise; visibility and `lastReactionTime` take no part. -/
theorem updateAI_retreat (sqrt : R → R) (now : R) (e : Enemy R) (deltaTime : R)
    (player : Target R) (obstacles : List (Obstacle R)) (h : e.state = AIState.retreat) :
    ((updateAI sqrt now e deltaTime player obstacles).state = AIState.patrol ↔
      e.health > e.fleeHealthThreshold * 1.5 ∧
        getDistanceTo sqrt e player.pos > e.detectionRange) ∧
    (¬ (e.health > e.fleeHealthThreshold * 1.5 ∧
        getDistanceTo sqrt e player.pos > e.detectionRange) →
      (updateAI sqrt now e deltaTime player obstacles).state = AIState.retreat) := by
  obtain ⟨hs, hh, hf, -, hd⟩ :=
    updateMemory_fields e deltaTime player (canSeeTarget e player obstacles)
  rw [updateAI_state_eq, transition_retreat_state _ _ _ (hs.trans h), hh, hf, hd]
  constructor
  · split_ifs with hc <;> simp [hc]
  · intro hn
    rw [if_neg hn]

/-- C5, as the code has it. From state attack with `health <
fleeHealthThreshold`, `updateAI` leaves the state retreat for every visibility
outcome whenever `distanceToPlayer ≤ 1.5 * attackRange`; when
`distanceToPlayer > 1.5 * attackRange` the first test of the branch wins and the
state becomes chase. -/
theorem updateAI_attack_low_health (sqrt : R → R) (now : R) (e : Enemy R) (deltaTime : R)
    (player : Target R) (obstacles : List (Obstacle R)) (h : e.state = AIState.attack)
    (hlow : e.health < e.fleeHealthThreshold) :
    (getDistanceTo sqrt e player.pos ≤ e.attackRange * 1.5 →
      (updateAI sqrt now e deltaTime player obstacles).state = AIState.retreat) ∧
    (getDistanceTo sqrt e player.pos > e.attackRange * 1.5 →
      (updateAI sqrt now e deltaTime player obstacles).state = AIState.chase) := by
  rw [updateAI_state_of_attack sqrt now e deltaTime player obstacles h]
  constructor
  · intro hd
    rw [if_neg (not_lt.mpr hd), if_pos hlow]
  · intro hd
    rw [if_pos hd]

/-- The `switch` leaves the memory fields as they are. -/
theorem transition_memory (e : Enemy R) (d : R) (b : Bool) :
    (transition e d b).lastReactionTime = e.lastReactionTime ∧
    (transition e d b).lastPlayerPosition = e.lastPlayerPosition := by
  unfold transition
  split <;> split_ifs <;> exact ⟨rfl, rfl⟩

/-- The `switch` and the closing `if` of `updateAI` leave the memory fields
as the memory update wrote them. -/
theorem updateAI_memory_eq (sqrt : R → R) (now : R) (e : Enemy R) (deltaTime : R)
    (player : Target R) (obstacles : List (Obstacle R)) :
    (updateAI sqrt now e deltaTime player obstacles).lastReactionTime =
      (updateMemory e deltaTime player (canSeeTarget e player obstacles)).lastReactionTime ∧
    (updateAI sqrt now e deltaTime player obstacles).lastPlayerPosition =
      (updateMemory e deltaTime player (canSeeTarget e player obstacles)).lastPlayerPosition := by
  unfold updateAI
  dsimp only
  obtain ⟨h1, h2⟩ := transition_memory
    (updateMemory e deltaTime player (canSeeTarget e player obstacles))
    (getDistanceTo sqrt e player.pos) (canSeeTarget e player obstacles)
  constructor <;> (split <;> first | exact h1 | exact h2)

/-- C8. In every `updateAI` call: when the target is visible,
`lastPlayerPosition` becomes the target's `(x, y)` and `lastReactionTime`
becomes 0; when it is not visible, `lastReactionTime` becomes its old value
plus `deltaTime` (strictly larger when `deltaTime > 0`) and
`lastPlayerPosition` keeps its value. -/
theorem updateAI_memory (sqrt : R → R) (now : R) (e : Enemy R) (deltaTime : R)
    (player : Target R) (obstacles : List (Obstacle R)) :
    (canSeeTarget e player obstacles = true →
      (updateAI sqrt now e deltaTime player obstacles).lastPlayerPosition =
        ⟨player.x, player.y⟩ ∧
      (updateAI sqrt now e deltaTime player obstacles).lastReactionTime = 0) ∧
    (canSeeTarget e player obstacles = false →
      (updateAI sqrt now e deltaTime player obstacles).lastReactionTime =
        e.lastReactionTime + deltaTime ∧
      (updateAI sqrt now e deltaTime player obstacles).lastPlayerPosition =
        e.lastPlayerPosition ∧
      (0 < deltaTime →
        e.lastReactionTime <
          (updateAI sqrt now e deltaTime player obstacles).lastReactionTime)) := by
  obtain ⟨h1, h2⟩ := updateAI_memory_eq sqrt now e deltaTime player obstacles
  rw [h1, h2]
  constructor
  · intro hv
    simp [updateMemory, hv]
  · intro hv
    simp [updateMemory, hv]

end StateMachine

section Forgetting

variable {R : Type} [LinearOrderedField R]

/-- The `switch` leaves health, threshold and position as they are. -/
theorem transition_keeps (e : Enemy R) (d : R) (b : Bool) :
    (transition e d b).health = e.health ∧
    (transition e d b).fleeHealthThreshold = e.fleeHealthThreshold ∧
    (transition e d b).x = e.x ∧ (transition e d b).y = e.y := by
  unfold transition
  split <;> split_ifs <;> exact ⟨rfl, rfl, rfl, rfl⟩

/-- The memory update leaves the position as it is. -/
theorem updateMemory_pos (e : Enemy R) (deltaTime : R) (player : Target R) (b : Bool) :
    (updateMemory e deltaTime player b).x = e.x ∧
    (updateMemory e deltaTime player b).y = e.y := by
  cases b <;> exact ⟨rfl, rfl⟩

/-- A call of `updateAI` changes neither health, nor the flee threshold, nor the
position of the agent. -/
theorem updateAI_keeps (sqrt : R → R) (now : R) (e : Enemy R) (deltaTime : R)
    (player : Target R) (obstacles : List (Obstacle R)) :
    (updateAI sqrt now e deltaTime player obstacles).health = e.health ∧
    (updateAI sqrt now e deltaTime player obstacles).fleeHealthThreshold =
      e.fleeHealthThreshold ∧
    (updateAI sqrt now e deltaTime player obstacles).x = e.x ∧
    (updateAI sqrt now e deltaTime player obstacles).y = e.y := by
  obtain ⟨h1, h2, h3, h4⟩ := transition_keeps
    (updateMemory e deltaTime player (canSeeTarget e player obstacles))
    (getDistanceTo sqrt e player.pos) (canSeeTarget e player obstacles)
  obtain ⟨m1, m2, -, -, -⟩ :=
    updateMemory_fields e deltaTime player (canSeeTarget e player obstacles)
  obtain ⟨p1, p2⟩ := updateMemory_pos e deltaTime player (canSeeTarget e player obstacles)
  unfold updateAI
  dsimp only
  split
  · exact ⟨h1.trans (by cases canSeeTarget e player obstacles <;> rfl),
      h2.trans (by cases canSeeTarget e player obstacles <;> rfl), h3.trans p1, h4.trans p2⟩
  · exact ⟨h1.trans (by cases canSeeTarget e player obstacles <;> rfl),
      h2.trans (by cases canSeeTarget e player obstacles <;> rfl), h3.trans p1, h4.trans p2⟩

/-- The two loops of `canSeeTarget` read the agent through its position only. -/
theorem canSeeLoop_congr (e e' : Enemy R) (hx : e'.x = e.x) (hy : e'.y = e.y) (dx dy : R)
    (obstacles : List (Obstacle R)) (todo : Nat) :
    ∀ i : Nat, canSeeLoop e' dx dy obstacles todo i = canSeeLoop e dx dy obstacles todo i := by
  induction todo with
  | zero => intro i; rfl
  | succ n ih =>
    intro i
    unfold canSeeLoop
    rw [hx, hy, ih]

/-- Two agents at one position see the same targets. -/
theorem canSeeTarget_congr (e e' : Enemy R) (hx : e'.x = e.x) (hy : e'.y = e.y)
    (target : Target R) (obstacles : List (Obstacle R)) :
    canSeeTarget e' target obstacles = canSeeTarget e target obstacles := by
  unfold canSeeTarget
  dsimp only
  rw [hx, hy]
  exact canSeeLoop_congr e e' hx hy _ _ obstacles 20 0

end Forgetting

section Perception

variable {R : Type} [LinearOrderedField R]

/-- The inner loop reaches `return false` exactly when some obstacle of the
list contains the checked point, borders included. -/
theorem blockedAt_iff (checkX checkY : R) (obstacles : List (Obstacle R)) :
    blockedAt checkX checkY obstacles = true ↔
      ∃ o ∈ obstacles, o.x ≤ checkX ∧ checkX ≤ o.x + o.width ∧
        o.y ≤ checkY ∧ checkY ≤ o.y + o.height := by
  induction obstacles with
  | nil => simp [blockedAt]
  | cons o rest ih =>
    unfold blockedAt
    by_cases h : pointInObstacle checkX checkY o = true
    · rw [if_pos h]
      simp only [pointInObstacle, decide_eq_true_eq, ge_iff_le] at h
      simp only [List.mem_cons, exists_eq_or_imp, true_iff]
      exact Or.inl h
    · rw [if_neg h, ih]
      simp only [pointInObstacle, decide_eq_true_eq, ge_iff_le] at h
      simp only [List.mem_cons, exists_eq_or_imp]
      exact ⟨Or.inr, fun hh => hh.resolve_left h⟩

/-- The outer loop returns `false` exactly when one of the indices it visits
has a blocked sample. -/
theorem canSeeLoop_eq_false_iff (e : Enemy R) (dx dy : R) (obstacles : List (Obstacle R))
    (todo i : Nat) :
    canSeeLoop e dx dy obstacles todo i = false ↔
      ∃ j : Nat, i ≤ j ∧ j < i + todo ∧
        blockedAt (e.x + dx * (j : R)) (e.y + dy * (j : R)) obstacles = true := by
  induction todo generalizing i with
  | zero =>
    simp only [canSeeLoop, Bool.true_eq_false, false_iff, not_exists]
    rintro j ⟨h1, h2, -⟩
    omega
  | succ n ih =>
    unfold canSeeLoop
    by_cases h : blockedAt (e.x + dx * (i : R)) (e.y + dy * (i : R)) obstacles = true
    · rw [if_pos h]
      simp only [true_iff]
      exact ⟨i, le_rfl, by omega, h⟩
    · rw [if_neg h, ih]
      constructor
      · rintro ⟨j, h1, h2, h3⟩
        exact ⟨j, by omega, by omega, h3⟩
      · rintro ⟨j, h1, h2, h3⟩
        rcases Nat.eq_or_lt_of_le h1 with heq | hlt
        · subst heq
          exact absurd h3 h
        · exact ⟨j, hlt, by omega, h3⟩

/-- The visibility test in closed form: it fails exactly when one of the 20
samples `agent + (i / 20) * (target - agent)`, `i = 0..19`, lies in the closed
rectangle of an obstacle. -/
theorem canSeeTarget_eq_false_iff (e : Enemy R) (target : Target R)
    (obstacles : List (Obstacle R)) :
    canSeeTarget e target obstacles = false ↔
      ∃ i : Nat, i < 20 ∧ ∃ o ∈ obstacles,
        o.x ≤ e.x + ((i : R) / 20) * (target.x - e.x) ∧
        e.x + ((i : R) / 20) * (target.x - e.x) ≤ o.x + o.width ∧
        o.y ≤ e.y + ((i : R) / 20) * (target.y - e.y) ∧
        e.y + ((i : R) / 20) * (target.y - e.y) ≤ o.y + o.height := by
  unfold canSeeTarget
  dsimp only
  rw [canSeeLoop_eq_false_iff]
  have hx : ∀ i : Nat, e.x + (target.x - e.x) / ((20 : Nat) : R) * (i : R) =
      e.x + ((i : R) / 20) * (target.x - e.x) := by
    intro i
    push_cast
    ring
  have hy : ∀ i : Nat, e.y + (target.y - e.y) / ((20 : Nat) : R) * (i : R) =
      e.y + ((i : R) / 20) * (target.y - e.y) := by
    intro i
    push_cast
    ring
  constructor
  · rintro ⟨j, -, h2, h3⟩
    rw [blockedAt_iff, hx, hy] at h3
    exact ⟨j, by omega, h3⟩
  · rintro ⟨i, h1, h2⟩
    refine ⟨i, Nat.zero_le _, by omega, ?_⟩
    rw [blockedAt_iff, hx, hy]
    exact h2

/-- With no obstacle the target is visible from everywhere. -/
theorem canSeeTarget_nil (e : Enemy R) (target : Target R) :
    canSeeTarget e target [] = true := by
  rw [← Bool.not_eq_false, canSeeTarget_eq_false_iff]
  simp

/-- C10. `canSeeTarget(target, obstacles)` returns false exactly when at least
one of the 20 samples `agent + (i / 20) * (target - agent)`, `i = 0..19`, lies in
the closed rectangle `[x, x + width] × [y, y + height]` of at least one obstacle,
and true otherwise; with an empty obstacle list it returns true for every agent
and target. -/
theorem canSeeTarget_spec (e : Enemy R) (target : Target R) (obstacles : List (Obstacle R)) :
    (canSeeTarget e target obstacles = false ↔
      ∃ i : Nat, i < 20 ∧ ∃ o ∈ obstacles,
        o.x ≤ e.x + ((i : R) / 20) * (target.x - e.x) ∧
        e.x + ((i : R) / 20) * (target.x - e.x) ≤ o.x + o.width ∧
        o.y ≤ e.y + ((i : R) / 20) * (target.y - e.y) ∧
        e.y + ((i : R) / 20) * (target.y - e.y) ≤ o.y + o.height) ∧
    canSeeTarget e target [] = true :=
  ⟨canSeeTarget_eq_false_iff e target obstacles, canSeeTarget_nil e target⟩

end Perception

section Angle

variable {R : Type} [LinearOrderedField R] [FloorRing R]

/-- The first loop does not run on an angle that is at most `pi`. -/
theorem subLoop_of_le (pi : R) (hpi : 0 < pi) (a : R) (h : a ≤ pi) :
    normalizeAngle.subLoop pi hpi a = a := by
  rw [normalizeAngle.subLoop, if_neg (not_lt.mpr h)]

/-- The second loop does not run on an angle that is at least `-pi`. -/
theorem addLoop_of_le (pi : R) (hpi : 0 < pi) (a : R) (h : -pi ≤ a) :
    normalizeAngle.addLoop pi hpi a = a := by
  rw [normalizeAngle.addLoop, if_neg (not_lt.mpr h)]

/-- The first loop ends at most at `pi`, having subtracted `2 * pi` some `n`
times; when it ran at all, it ends above `-pi`. -/
theorem subLoop_spec (pi : R) (hpi : 0 < pi) (a : R) :
    normalizeAngle.subLoop pi hpi a ≤ pi ∧
    ∃ n : ℕ, normalizeAngle.subLoop pi hpi a = a - 2 * pi * n ∧
      (0 < n → -pi < normalizeAngle.subLoop pi hpi a) := by
  refine normalizeAngle.subLoop.induct pi hpi
    (fun a => normalizeAngle.subLoop pi hpi a ≤ pi ∧
      ∃ n : ℕ, normalizeAngle.subLoop pi hpi a = a - 2 * pi * n ∧
        (0 < n → -pi < normalizeAngle.subLoop pi hpi a)) ?_ ?_ a
  · intro x hx ih
    obtain ⟨h1, n, h2, h3⟩ := ih
    rw [normalizeAngle.subLoop, if_pos hx]
    refine ⟨h1, n + 1, ?_, fun _ => ?_⟩
    · rw [h2]
      push_cast
      ring
    · rcases Nat.eq_zero_or_pos n with h0 | h0
      · rw [h2, h0]
        simp only [Nat.cast_zero, mul_zero, sub_zero]
        linarith
      · exact h3 h0
  · intro x hx
    rw [normalizeAngle.subLoop, if_neg hx]
    exact ⟨not_lt.mp hx, 0, by simp, fun h => absurd h (lt_irrefl 0)⟩

/-- The second loop ends at least at `-pi`, having added `2 * pi` some `n`
times; when it ran at all, it ends below `pi`. -/
theorem addLoop_spec (pi : R) (hpi : 0 < pi) (a : R) :
    -pi ≤ normalizeAngle.addLoop pi hpi a ∧
    ∃ n : ℕ, normalizeAngle.addLoop pi hpi a = a + 2 * pi * n ∧
      (0 < n → normalizeAngle.addLoop pi hpi a < pi) := by
  refine normalizeAngle.addLoop.induct pi hpi
    (fun a => -pi ≤ normalizeAngle.addLoop pi hpi a ∧
      ∃ n : ℕ, normalizeAngle.addLoop pi hpi a = a + 2 * pi * n ∧
        (0 < n → normalizeAngle.addLoop pi hpi a < pi)) ?_ ?_ a
  · intro x hx ih
    obtain ⟨h1, n, h2, h3⟩ := ih
    rw [normalizeAngle.addLoop, if_pos hx]
    refine ⟨h1, n + 1, ?_, fun _ => ?_⟩
    · rw [h2]
      push_cast
      ring
    · rcases Nat.eq_zero_or_pos n with h0 | h0
      · rw [h2, h0]
        simp only [Nat.cast_zero, mul_zero, add_zero]
        linarith
      · exact h3 h0
  · intro x hx
    rw [normalizeAngle.addLoop, if_neg hx]
    exact ⟨not_lt.mp hx, 0, by simp, fun h => absurd h (lt_irrefl 0)⟩

/-- The result of `normalizeAngle` lies in `[-pi, pi]` and differs from the
argument by an integer multiple of `2 * pi`; when the first loop ran, the
result exceeds `-pi`, and when the second ran, it is below `pi`. -/
theorem normalizeAngle_spec (pi : R) (hpi : 0 < pi) (a : R) :
    -pi ≤ normalizeAngle pi hpi a ∧ normalizeAngle pi hpi a ≤ pi ∧
    ∃ m : ℤ, normalizeAngle pi hpi a = a + 2 * pi * m ∧
      (m < 0 → -pi < normalizeAngle pi hpi a) ∧ (0 < m → normalizeAngle pi hpi a < pi) := by
  obtain ⟨hs1, n1, hs2, hs3⟩ := subLoop_spec pi hpi a
  unfold normalizeAngle
  rcases Nat.eq_zero_or_pos n1 with h0 | h0
  · -- the first loop did not run
    have hsa : normalizeAngle.subLoop pi hpi a = a := by simpa [h0] using hs2
    rw [hsa] at hs1 ⊢
    obtain ⟨ha1, n2, ha2, ha3⟩ := addLoop_spec pi hpi a
    refine ⟨ha1, ?_, (n2 : ℤ), by simpa using ha2, fun h => ?_, fun h => ?_⟩
    · rcases Nat.eq_zero_or_pos n2 with h2 | h2
      · rw [ha2, h2]
        simpa using hs1
      · exact (ha3 h2).le
    · exact absurd h (by simp)
    · exact ha3 (by exact_mod_cast h)
  · -- the first loop ran: the second does not
    have hgt := hs3 h0
    rw [addLoop_of_le pi hpi _ hgt.le]
    refine ⟨hgt.le, hs1, -(n1 : ℤ), ?_, fun _ => hgt, fun h => ?_⟩
    · rw [hs2]
      push_cast
      ring
    · omega

/-- On `[-pi, pi]` the function `normalizeAngle` is the identity. -/
theorem normalizeAngle_of_mem (pi : R) (hpi : 0 < pi) (a : R) (h1 : -pi ≤ a) (h2 : a ≤ pi) :
    normalizeAngle pi hpi a = a := by
  unfold normalizeAngle
  rw [subLoop_of_le pi hpi a h2, addLoop_of_le pi hpi a h1]

/-- Two results of `normalizeAngle` at arguments `2 * pi * k` apart are equal,
or they are `pi` and `-pi`. -/
theorem normalizeAngle_add_cases (pi : R) (hpi : 0 < pi) (a : R) (k : ℤ) :
    normalizeAngle pi hpi (a + 2 * pi * k) = normalizeAngle pi hpi a ∨
    (|normalizeAngle pi hpi a| = pi ∧
      normalizeAngle pi hpi (a + 2 * pi * k) = -normalizeAngle pi hpi a) := by
  obtain ⟨l1, u1, m1, e1, -, -⟩ := normalizeAngle_spec pi hpi a
  obtain ⟨l2, u2, m2, e2, -, -⟩ := normalizeAngle_spec pi hpi (a + 2 * pi * k)
  have h2 : (0 : R) < 2 * pi := by linarith
  have hd : normalizeAngle pi hpi (a + 2 * pi * k) - normalizeAngle pi hpi a =
      ((k + m2 - m1 : ℤ) : R) * (2 * pi) := by
    rw [e1, e2]
    push_cast
    ring
  have hle : ((k + m2 - m1 : ℤ) : R) ≤ 1 := by
    have : ((k + m2 - m1 : ℤ) : R) * (2 * pi) ≤ 1 * (2 * pi) := by linarith
    exact le_of_mul_le_mul_right this h2
  have hge : (-1 : R) ≤ ((k + m2 - m1 : ℤ) : R) := by
    have : (-1 : R) * (2 * pi) ≤ ((k + m2 - m1 : ℤ) : R) * (2 * pi) := by linarith
    exact le_of_mul_le_mul_right this h2
  have hle' : k + m2 - m1 ≤ 1 := by exact_mod_cast hle
  have hge' : -1 ≤ k + m2 - m1 := by exact_mod_cast hge
  have hj : k + m2 - m1 = 0 ∨ k + m2 - m1 = 1 ∨ k + m2 - m1 = -1 := by omega
  rcases hj with hj | hj | hj
  · left
    rw [hj] at hd
    simp only [Int.cast_zero, zero_mul] at hd
    linarith
  · right
    rw [hj] at hd
    simp only [Int.cast_one, one_mul] at hd
    have hr : normalizeAngle pi hpi a = -pi := by linarith
    refine ⟨?_, ?_⟩
    · rw [hr, abs_neg, abs_of_pos hpi]
    · linarith
  · right
    rw [hj] at hd
    simp only [Int.cast_neg, Int.cast_one, neg_mul, one_mul] at hd
    have hr : normalizeAngle pi hpi a = pi := by linarith
    refine ⟨?_, ?_⟩
    · rw [hr, abs_of_pos hpi]
    · linarith

/-- Away from the odd multiples of `pi` the result of `normalizeAngle` is
strictly inside `(-pi, pi)`. -/
theorem normalizeAngle_abs_lt (pi : R) (hpi : 0 < pi) (a : R)
    (h : ∀ m : ℤ, a ≠ (2 * m + 1) * pi) : |normalizeAngle pi hpi a| ≠ pi := by
  obtain ⟨-, -, m, e, -, -⟩ := normalizeAngle_spec pi hpi a
  intro habs
  rcases abs_eq hpi.le |>.mp habs with hr | hr
  · apply h (-m)
    push_cast
    linarith
  · apply h (-m - 1)
    push_cast
    linarith

/-- The result of `normalizeAngle` is `-pi` exactly at `-pi - 2 * pi * k`,
`k = 0, 1, 2, ...`. -/
theorem normalizeAngle_eq_neg_pi_iff (pi : R) (hpi : 0 < pi) (a : R) :
    normalizeAngle pi hpi a = -pi ↔ ∃ k : ℕ, a = -pi - 2 * pi * k := by
  obtain ⟨l, u, m, e, hneg, hpos⟩ := normalizeAngle_spec pi hpi a
  have h2 : (0 : R) < 2 * pi := by linarith
  constructor
  · intro hr
    have hm : 0 ≤ m := by
      by_contra hc
      exact absurd hr (ne_of_gt (hneg (not_le.mp hc)))
    obtain ⟨n, hn⟩ := Int.eq_ofNat_of_zero_le hm
    refine ⟨n, ?_⟩
    rw [hn, Int.cast_natCast] at e
    linarith
  · rintro ⟨k, hk⟩
    have hd : normalizeAngle pi hpi a - -pi = ((m - k : ℤ) : R) * (2 * pi) := by
      rw [e, hk]
      push_cast
      ring
    have hle : ((m - k : ℤ) : R) ≤ 1 := by
      have : ((m - k : ℤ) : R) * (2 * pi) ≤ 1 * (2 * pi) := by linarith
      exact le_of_mul_le_mul_right this h2
    have hge : (0 : R) ≤ ((m - k : ℤ) : R) := by
      have : (0 : R) * (2 * pi) ≤ ((m - k : ℤ) : R) * (2 * pi) := by linarith
      exact le_of_mul_le_mul_right this h2
    have hle' : m - k ≤ 1 := by exact_mod_cast hle
    have hge' : 0 ≤ m - k := by exact_mod_cast hge
    rcases (by omega : m - k = 0 ∨ m - k = 1) with hj | hj
    · rw [hj] at hd
      simp only [Int.cast_zero, zero_mul] at hd
      linarith
    · exfalso
      rw [hj] at hd
      simp only [Int.cast_one, one_mul] at hd
      have hlt := hpos (by omega)
      linarith

/-- C6, as the code has it. For every real angle `θ`, `normalizeAngle(θ)` lies
in the closed interval `[-π, π]`; the lower end `-π` is the result exactly at
`θ = -π - 2πk` for `k = 0, 1, 2, ...`, and for every other `θ` the result is in
`(-π, π]`. -/
theorem normalizeAngle_range (θ : ℝ) :
    -Real.pi ≤ normalizeAngle Real.pi Real.pi_pos θ ∧
    normalizeAngle Real.pi Real.pi_pos θ ≤ Real.pi ∧
    (normalizeAngle Real.pi Real.pi_pos θ = -Real.pi ↔
      ∃ k : ℕ, θ = -Real.pi - 2 * Real.pi * k) ∧
    ((∀ k : ℕ, θ ≠ -Real.pi - 2 * Real.pi * k) →
      -Real.pi < normalizeAngle Real.pi Real.pi_pos θ) := by
  obtain ⟨l, u, -⟩ := normalizeAngle_spec Real.pi Real.pi_pos θ
  have hiff := normalizeAngle_eq_neg_pi_iff Real.pi Real.pi_pos θ
  refine ⟨l, u, hiff, fun hne => lt_of_le_of_ne l fun heq => ?_⟩
  obtain ⟨k, hk⟩ := hiff.mp heq.symm
  exact hne k hk

/-- C6 fails at `θ = -π`: neither loop runs, and the result `-π` is not
strictly greater than `-π`. -/
theorem normalizeAngle_neg_pi_not_in_half_open :
    normalizeAngle Real.pi Real.pi_pos (-Real.pi) = -Real.pi ∧
    ¬ (-Real.pi < normalizeAngle Real.pi Real.pi_pos (-Real.pi)) := by
  have h : normalizeAngle Real.pi Real.pi_pos (-Real.pi) = -Real.pi :=
    normalizeAngle_of_mem Real.pi Real.pi_pos (-Real.pi) le_rfl
      (by linarith [Real.pi_pos])
  exact ⟨h, by rw [h]; exact lt_irrefl _⟩

/-- C7, as the code has it. For every real angle `θ` and integer `k`:
when `θ` is not an odd multiple of `π`, `normalizeAngle(θ + 2πk) =
normalizeAngle(θ)`; for every `θ` the two results are equal or they are `π` and
`-π`. -/
theorem normalizeAngle_periodic (θ : ℝ) (k : ℤ) :
    ((∀ m : ℤ, θ ≠ (2 * m + 1) * Real.pi) →
      normalizeAngle Real.pi Real.pi_pos (θ + 2 * Real.pi * k) =
        normalizeAngle Real.pi Real.pi_pos θ) ∧
    (normalizeAngle Real.pi Real.pi_pos (θ + 2 * Real.pi * k) =
        normalizeAngle Real.pi Real.pi_pos θ ∨
      (|normalizeAngle Real.pi Real.pi_pos θ| = Real.pi ∧
        normalizeAngle Real.pi Real.pi_pos (θ + 2 * Real.pi * k) =
          -normalizeAngle Real.pi Real.pi_pos θ)) := by
  have hc := normalizeAngle_add_cases Real.pi Real.pi_pos θ k
  refine ⟨fun hodd => ?_, hc⟩
  rcases hc with h | ⟨h, -⟩
  · exact h
  · exact absurd h (normalizeAngle_abs_lt Real.pi Real.pi_pos θ hodd)

/-- C7 fails at `θ = π`, `k = -1`: `normalizeAngle(π) = π`, while
`normalizeAngle(π - 2π) = normalizeAngle(-π) = -π`. -/
theorem normalizeAngle_pi_not_periodic :
    normalizeAngle Real.pi Real.pi_pos Real.pi = Real.pi ∧
    normalizeAngle Real.pi Real.pi_pos (Real.pi + 2 * Real.pi * ((-1 : ℤ) : ℝ)) = -Real.pi ∧
    normalizeAngle Real.pi Real.pi_pos Real.pi ≠
      normalizeAngle Real.pi Real.pi_pos (Real.pi + 2 * Real.pi * ((-1 : ℤ) : ℝ)) := by
  have hp := Real.pi_pos
  have h1 : normalizeAngle Real.pi Real.pi_pos Real.pi = Real.pi :=
    normalizeAngle_of_mem Real.pi Real.pi_pos Real.pi (by linarith) le_rfl
  have he : Real.pi + 2 * Real.pi * ((-1 : ℤ) : ℝ) = -Real.pi := by
    push_cast
    ring
  have h2 : normalizeAngle Real.pi Real.pi_pos (Real.pi + 2 * Real.pi * ((-1 : ℤ) : ℝ)) =
      -Real.pi := by
    rw [he]
    exact normalizeAngle_of_mem Real.pi Real.pi_pos (-Real.pi) le_rfl (by linarith)
  refine ⟨h1, h2, ?_⟩
  rw [h1, h2]
  intro h
  linarith

end Angle

section Scenarios

/-- The distance from the sample agent at the origin to the target at `(x, 0)`,
computed with the real square root. -/
theorem getDistanceTo_sample (st : AIState) (h x : ℝ) (hx : 0 ≤ x) :
    getDistanceTo Real.sqrt (sampleAgent st h) (sampleTarget x).pos = x := by
  simp [getDistanceTo, sampleAgent, Enemy.new, sampleTarget, Target.pos, Real.sqrt_sq hx]

/-- The target at `(100, 0)` is hidden from the origin by `sampleWall`: the
sample of index 8 is `(40, 0)`. -/
theorem sampleWall_hides (st : AIState) (h : ℝ) :
    canSeeTarget (sampleAgent st h) (sampleTarget 100) [sampleWall] = false := by
  rw [canSeeTarget_eq_false_iff]
  refine ⟨8, by norm_num, sampleWall, List.mem_singleton_self _, ?_⟩
  norm_num [sampleAgent, Enemy.new, sampleTarget, sampleWall]

/-- C1 at a concrete input: a chasing agent with health 15 (threshold 20) that
sees the target at distance 100 (attack range 200) goes to attack. -/
theorem updateAI_chase_witness :
    (sampleAgent AIState.chase (15 : ℝ)).health <
      (sampleAgent AIState.chase (15 : ℝ)).fleeHealthThreshold ∧
    (updateAI Real.sqrt 0 (sampleAgent AIState.chase (15 : ℝ)) 0.016
      (sampleTarget 100) []).state =
      AIState.attack :=
  ⟨by norm_num [sampleAgent, Enemy.new],
    (updateAI_chase Real.sqrt 0 (sampleAgent AIState.chase 15) 0.016 (sampleTarget 100) [] rfl).2
      (canSeeTarget_nil _ _)
      (by rw [getDistanceTo_sample _ _ _ (by norm_num)]; norm_num [sampleAgent, Enemy.new])⟩

/-- C2 at a concrete input: an attacking agent in good health that sees the
target at distance 100 stays in attack. -/
theorem updateAI_attack_witness :
    (updateAI Real.sqrt 0 (sampleAgent AIState.attack (75 : ℝ)) 0.016
      (sampleTarget 100) []).state =
      AIState.attack := by
  rw [updateAI_attack Real.sqrt 0 (sampleAgent AIState.attack 75) 0.016 (sampleTarget 100) [] rfl,
    getDistanceTo_sample _ _ _ (by norm_num), canSeeTarget_nil]
  norm_num [sampleAgent, Enemy.new]

/-- C3 at the input of the scenario: detection range 250, target at distance
200, no obstacles; the patrolling agent goes to chase. -/
theorem updateAI_patrol_witness :
    (sampleAgent AIState.patrol (75 : ℝ)).detectionRange = 250 ∧
    getDistanceTo Real.sqrt (sampleAgent AIState.patrol (75 : ℝ)) (sampleTarget 200).pos = 200 ∧
    (updateAI Real.sqrt 0 (sampleAgent AIState.patrol (75 : ℝ)) 0.016
      (sampleTarget 200) []).state =
      AIState.chase :=
  ⟨rfl, getDistanceTo_sample _ _ _ (by norm_num),
    (updateAI_patrol Real.sqrt 0 (sampleAgent AIState.patrol 75) 0.016 (sampleTarget 200) []
      rfl).1.mpr
      ⟨canSeeTarget_nil _ _,
        by rw [getDistanceTo_sample _ _ _ (by norm_num)]; norm_num [sampleAgent, Enemy.new]⟩⟩

/-- C4 at a concrete input: a retreating agent with health 75 (threshold 20)
and the target at distance 300 (detection range 250) goes back to patrol. -/
theorem updateAI_retreat_witness :
    (updateAI Real.sqrt 0 (sampleAgent AIState.retreat (75 : ℝ)) 0.016
      (sampleTarget 300) []).state =
      AIState.patrol :=
  (updateAI_retreat Real.sqrt 0 (sampleAgent AIState.retreat 75) 0.016 (sampleTarget 300) []
    rfl).1.mpr
    ⟨by norm_num [sampleAgent, Enemy.new],
      by rw [getDistanceTo_sample _ _ _ (by norm_num)]; norm_num [sampleAgent, Enemy.new]⟩

/-- C5 fails at distance 400: an attacking agent with health 15 and threshold
20 whose target is 400 away (more than 1.5 times the attack range 200) is left in
state chase, not retreat. -/
theorem updateAI_attack_low_health_far :
    (sampleAgent AIState.attack (15 : ℝ)).state = AIState.attack ∧
    (sampleAgent AIState.attack (15 : ℝ)).health = 15 ∧
    (sampleAgent AIState.attack (15 : ℝ)).fleeHealthThreshold = 20 ∧
    (updateAI Real.sqrt 0 (sampleAgent AIState.attack (15 : ℝ)) 0.016
      (sampleTarget 400) []).state =
      AIState.chase ∧
    (updateAI Real.sqrt 0 (sampleAgent AIState.attack (15 : ℝ)) 0.016
      (sampleTarget 400) []).state ≠
      AIState.retreat := by
  have h : (updateAI Real.sqrt 0 (sampleAgent AIState.attack (15 : ℝ)) 0.016
      (sampleTarget 400) []).state = AIState.chase := by
    rw [updateAI_state_of_attack Real.sqrt 0 (sampleAgent AIState.attack 15) 0.016
      (sampleTarget 400) [] rfl, getDistanceTo_sample _ _ _ (by norm_num)]
    norm_num [sampleAgent, Enemy.new]
  refine ⟨rfl, rfl, rfl, h, ?_⟩
  rw [h]
  decide

/-- C5 as amended, at a concrete input: health 15, threshold 20, target at
distance 100; the attacking agent goes to retreat. -/
theorem updateAI_attack_low_health_witness :
    (updateAI Real.sqrt 0 (sampleAgent AIState.attack (15 : ℝ)) 0.016
      (sampleTarget 100) []).state =
      AIState.retreat :=
  (updateAI_attack_low_health Real.sqrt 0 (sampleAgent AIState.attack 15) 0.016
    (sampleTarget 100) [] rfl (by norm_num [sampleAgent, Enemy.new])).1
    (by rw [getDistanceTo_sample _ _ _ (by norm_num)]; norm_num [sampleAgent, Enemy.new])

end Scenarios

section Sign

variable {R : Type} [LinearOrderedField R]

/-- The value of `Math.sign` has magnitude 1 away from 0. -/
theorem JSMath.abs_sign (Math : JSMath R) (d : R) (hd : d ≠ 0) : |Math.sign d| = 1 := by
  unfold JSMath.sign
  rcases lt_or_gt_of_ne hd with h | h
  · rw [if_neg (not_lt.mpr h.le), if_pos h]
    simp
  · rw [if_pos h]
    simp

/-- The value of `Math.sign` has magnitude at most 1. -/
theorem JSMath.abs_sign_le (Math : JSMath R) (d : R) : |Math.sign d| ≤ 1 := by
  by_cases hd : d = 0
  · subst hd
    simp [JSMath.sign]
  · exact (Math.abs_sign d hd).le

end Sign

section Steering

variable {R : Type} [LinearOrderedField R] [FloorRing R]

/-- An angle strictly inside `(-pi, pi)` is the result of `normalizeAngle` at
every argument that differs from it by a multiple of `2 * pi`. -/
theorem normalizeAngle_eq_of_congr (pi : R) (hpi : 0 < pi) (a y : R) (k : ℤ)
    (h1 : -pi < y) (h2 : y < pi) (h : a = y + 2 * pi * k) :
    normalizeAngle pi hpi a = y := by
  have hy : normalizeAngle pi hpi y = y := normalizeAngle_of_mem pi hpi y h1.le h2.le
  rcases normalizeAngle_add_cases pi hpi y k with h' | ⟨h', -⟩
  · rw [h, h', hy]
  · rw [hy] at h'
    exfalso
    have : |y| < pi := abs_lt.mpr ⟨h1, h2⟩
    linarith

/-- The snap branch of `rotateTowards`. -/
theorem rotateTowards_angle_of_lt (Math : JSMath R) (e : Enemy R) (targetAngle : R)
    (h : |normalizeAngle Math.PI Math.PI_pos (targetAngle - e.angle)| <
      e.rotationSpeed * 0.016) :
    (rotateTowards Math e targetAngle).angle = targetAngle := by
  unfold rotateTowards
  dsimp only
  rw [if_pos h]

/-- The step branch of `rotateTowards`. -/
theorem rotateTowards_angle_of_not_lt (Math : JSMath R) (e : Enemy R) (targetAngle : R)
    (h : ¬ |normalizeAngle Math.PI Math.PI_pos (targetAngle - e.angle)| <
      e.rotationSpeed * 0.016) :
    (rotateTowards Math e targetAngle).angle =
      e.angle + Math.sign (normalizeAngle Math.PI Math.PI_pos (targetAngle - e.angle)) *
        (e.rotationSpeed * 0.016) := by
  unfold rotateTowards
  dsimp only
  rw [if_neg h]

/-- The function `rotateTowards` writes the heading only. -/
theorem rotateTowards_keeps (Math : JSMath R) (e : Enemy R) (targetAngle : R) :
    (rotateTowards Math e targetAngle).x = e.x ∧
    (rotateTowards Math e targetAngle).y = e.y ∧
    (rotateTowards Math e targetAngle).rotationSpeed = e.rotationSpeed ∧
    (rotateTowards Math e targetAngle).turretAngle = e.turretAngle ∧
    (rotateTowards Math e targetAngle).velocity = e.velocity := by
  unfold rotateTowards
  dsimp only
  split <;> exact ⟨rfl, rfl, rfl, rfl, rfl⟩

/-- After a step of `rotateTowards` with a positive budget the remaining
error has shrunk by the budget and kept its sign. -/
theorem remaining_error_of_step (pi : R) (hpi : 0 < pi) (Math : JSMath R) (angle targetAngle m : R)
    (hm : 0 < m) (h : m ≤ |normalizeAngle pi hpi (targetAngle - angle)|) :
    normalizeAngle pi hpi
        (targetAngle - (angle + Math.sign (normalizeAngle pi hpi (targetAngle - angle)) * m)) =
      normalizeAngle pi hpi (targetAngle - angle) -
        Math.sign (normalizeAngle pi hpi (targetAngle - angle)) * m ∧
    |normalizeAngle pi hpi (targetAngle - angle) -
        Math.sign (normalizeAngle pi hpi (targetAngle - angle)) * m| =
      |normalizeAngle pi hpi (targetAngle - angle)| - m := by
  obtain ⟨l, u, k, hk, -, -⟩ := normalizeAngle_spec pi hpi (targetAngle - angle)
  set d := normalizeAngle pi hpi (targetAngle - angle) with hd
  rcases lt_trichotomy d 0 with hneg | hzero | hpos
  · have hs : Math.sign d = -1 := by
      unfold JSMath.sign
      rw [if_neg (not_lt.mpr hneg.le), if_pos hneg]
    rw [hs, abs_of_neg hneg] at *
    have hrange : -pi < d - -1 * m ∧ d - -1 * m < pi := by constructor <;> linarith
    refine ⟨normalizeAngle_eq_of_congr pi hpi _ _ (-k) hrange.1 hrange.2 ?_, ?_⟩
    · push_cast
      linarith
    · rw [abs_of_nonpos (by linarith)]
      ring
  · rw [hzero, abs_zero] at h
    linarith
  · have hs : Math.sign d = 1 := by
      unfold JSMath.sign
      rw [if_pos hpos]
    rw [hs, abs_of_pos hpos] at *
    have hrange : -pi < d - 1 * m ∧ d - 1 * m < pi := by constructor <;> linarith
    refine ⟨normalizeAngle_eq_of_congr pi hpi _ _ (-k) hrange.1 hrange.2 ?_, ?_⟩
    · push_cast
      linarith
    · rw [abs_of_nonneg (by linarith)]
      ring

/-- C18, as the code has it. The budget of one `rotateTowards` call is the
constant `rotationSpeed * 0.016`, whatever the duration of the tick. With
`rotationSpeed ≥ 0`: when the angular error is below the budget the heading is
set to the target angle; otherwise the heading moves by the budget towards it
and the error shrinks by exactly the budget (no overshoot); in both cases the
heading turns by at most the budget, measured modulo `2π`. -/
theorem rotateTowards_budget (Math : JSMath R) (e : Enemy R) (targetAngle : R)
    (hrs : 0 ≤ e.rotationSpeed) :
    (|normalizeAngle Math.PI Math.PI_pos (targetAngle - e.angle)| < e.rotationSpeed * 0.016 →
      (rotateTowards Math e targetAngle).angle = targetAngle) ∧
    (e.rotationSpeed * 0.016 ≤ |normalizeAngle Math.PI Math.PI_pos (targetAngle - e.angle)| →
      (rotateTowards Math e targetAngle).angle =
        e.angle + Math.sign (normalizeAngle Math.PI Math.PI_pos (targetAngle - e.angle)) *
          (e.rotationSpeed * 0.016) ∧
      |normalizeAngle Math.PI Math.PI_pos
          (targetAngle - (rotateTowards Math e targetAngle).angle)| =
        |normalizeAngle Math.PI Math.PI_pos (targetAngle - e.angle)| -
          e.rotationSpeed * 0.016) ∧
    |normalizeAngle Math.PI Math.PI_pos ((rotateTowards Math e targetAngle).angle - e.angle)| ≤
      e.rotationSpeed * 0.016 := by
  have hm : (0 : R) ≤ e.rotationSpeed * 0.016 := mul_nonneg hrs (by norm_num)
  obtain ⟨l, u, -⟩ := normalizeAngle_spec Math.PI Math.PI_pos (targetAngle - e.angle)
  have hstep : e.rotationSpeed * 0.016 ≤
      |normalizeAngle Math.PI Math.PI_pos (targetAngle - e.angle)| →
      (rotateTowards Math e targetAngle).angle =
        e.angle + Math.sign (normalizeAngle Math.PI Math.PI_pos (targetAngle - e.angle)) *
          (e.rotationSpeed * 0.016) :=
    fun h => rotateTowards_angle_of_not_lt Math e targetAngle (not_lt.mpr h)
  refine ⟨rotateTowards_angle_of_lt Math e targetAngle, fun h => ⟨hstep h, ?_⟩, ?_⟩
  · rw [hstep h]
    rcases hm.eq_or_lt with h0 | hpos
    · rw [← h0]
      simp
    · rw [(remaining_error_of_step Math.PI Math.PI_pos Math e.angle targetAngle _ hpos h).1,
        (remaining_error_of_step Math.PI Math.PI_pos Math e.angle targetAngle _ hpos h).2]
  · by_cases h : |normalizeAngle Math.PI Math.PI_pos (targetAngle - e.angle)| <
        e.rotationSpeed * 0.016
    · rw [rotateTowards_angle_of_lt Math e targetAngle h]
      exact h.le
    · rw [hstep (not_lt.mp h), add_sub_cancel_left]
      have hb : |Math.sign (normalizeAngle Math.PI Math.PI_pos (targetAngle - e.angle)) *
          (e.rotationSpeed * 0.016)| ≤ e.rotationSpeed * 0.016 := by
        rw [abs_mul, abs_of_nonneg hm]
        exact mul_le_of_le_one_left hm (Math.abs_sign_le _)
      have hpi : e.rotationSpeed * 0.016 ≤ Math.PI :=
        (not_lt.mp h).trans (abs_le.mpr ⟨l, u⟩)
      obtain ⟨hb1, hb2⟩ := abs_le.mp hb
      rw [normalizeAngle_of_mem Math.PI Math.PI_pos _ (by linarith) (by linarith)]
      exact hb

end Steering

section Bearing

variable {R : Type} [LinearOrderedField R]

/-- The distance and the bearing to a point are read off the position. -/
theorem bearing_congr (Math : JSMath R) (e e' : Enemy R) (target : Point R)
    (hx : e'.x = e.x) (hy : e'.y = e.y) :
    getDistanceTo Math.sqrt e' target = getDistanceTo Math.sqrt e target ∧
    Math.atan2 (target.y - e'.y) (target.x - e'.x) =
      Math.atan2 (target.y - e.y) (target.x - e.x) := by
  unfold getDistanceTo
  rw [hx, hy]
  exact ⟨rfl, rfl⟩

end Bearing

section Convergence

variable {R : Type} [LinearOrderedField R] [FloorRing R]

/-- Without obstacles and at 10 units or more from the target, `moveTowards`
turns the heading by `rotateTowards` at the bearing to the target; it leaves
position and `rotationSpeed` as they are. -/
theorem moveTowards_nil (Math : JSMath R) (e : Enemy R) (target : Point R)
    (hfar : 10 ≤ getDistanceTo Math.sqrt e target) :
    (moveTowards Math e target []).angle =
      (rotateTowards Math e (Math.atan2 (target.y - e.y) (target.x - e.x))).angle ∧
    (moveTowards Math e target []).x = e.x ∧
    (moveTowards Math e target []).y = e.y ∧
    (moveTowards Math e target []).rotationSpeed = e.rotationSpeed := by
  obtain ⟨kx, ky, kr, -, -⟩ :=
    rotateTowards_keeps Math e (Math.atan2 (target.y - e.y) (target.x - e.x))
  unfold moveTowards
  dsimp only
  rw [if_neg (not_lt.mpr hfar)]
  exact ⟨rfl, kx, ky, kr⟩

/-- Once the heading is the bearing, every further `moveTowards` call leaves
it there. -/
theorem moveTowards_fixed (Math : JSMath R) (target : Point R) (n : Nat) :
    ∀ e : Enemy R, 0 < e.rotationSpeed → 10 ≤ getDistanceTo Math.sqrt e target →
      e.angle = Math.atan2 (target.y - e.y) (target.x - e.x) →
      ((fun a => moveTowards Math a target [])^[n] e).angle =
        Math.atan2 (target.y - e.y) (target.x - e.x) := by
  induction n with
  | zero => intro e _ _ h; exact h
  | succ n ih =>
    intro e hrs hfar h
    obtain ⟨ha, kx, ky, kr⟩ := moveTowards_nil Math e target hfar
    obtain ⟨cd, cb⟩ := bearing_congr Math e (moveTowards Math e target []) target kx ky
    have hsnap : (moveTowards Math e target []).angle =
        Math.atan2 (target.y - e.y) (target.x - e.x) := by
      rw [ha]
      apply rotateTowards_angle_of_lt
      rw [← h, sub_self,
        normalizeAngle_of_mem Math.PI Math.PI_pos 0 (by linarith [Math.PI_pos])
          Math.PI_pos.le, abs_zero]
      exact mul_pos hrs (by norm_num)
    rw [Function.iterate_succ_apply,
      ih (moveTowards Math e target []) (by rw [kr]; exact hrs) (by rw [cd]; exact hfar)
        (by rw [cb]; exact hsnap), cb]

/-- The heading reaches the bearing within `k + 1` calls when the initial error
is below `k + 1` budgets, and stays there. -/
theorem moveTowards_reaches (Math : JSMath R) (target : Point R) (k : Nat) :
    ∀ (e : Enemy R) (n : Nat), 0 < e.rotationSpeed →
      10 ≤ getDistanceTo Math.sqrt e target →
      |normalizeAngle Math.PI Math.PI_pos
          (Math.atan2 (target.y - e.y) (target.x - e.x) - e.angle)| <
        ((k : R) + 1) * (e.rotationSpeed * 0.016) →
      k + 1 ≤ n →
      ((fun a => moveTowards Math a target [])^[n] e).angle =
        Math.atan2 (target.y - e.y) (target.x - e.x) := by
  induction k with
  | zero =>
    intro e n hrs hfar herr hn
    obtain ⟨n', rfl⟩ : ∃ n', n = n' + 1 := ⟨n - 1, by omega⟩
    obtain ⟨ha, kx, ky, kr⟩ := moveTowards_nil Math e target hfar
    obtain ⟨cd, cb⟩ := bearing_congr Math e (moveTowards Math e target []) target kx ky
    have hsnap : (moveTowards Math e target []).angle =
        Math.atan2 (target.y - e.y) (target.x - e.x) := by
      rw [ha]
      apply rotateTowards_angle_of_lt
      simpa using herr
    rw [Function.iterate_succ_apply,
      moveTowards_fixed Math target n' (moveTowards Math e target []) (by rw [kr]; exact hrs)
        (by rw [cd]; exact hfar) (by rw [cb]; exact hsnap), cb]
  | succ k ih =>
    intro e n hrs hfar herr hn
    obtain ⟨n', rfl⟩ : ∃ n', n = n' + 1 := ⟨n - 1, by omega⟩
    obtain ⟨ha, kx, ky, kr⟩ := moveTowards_nil Math e target hfar
    obtain ⟨cd, cb⟩ := bearing_congr Math e (moveTowards Math e target []) target kx ky
    have hm : (0 : R) < e.rotationSpeed * 0.016 := mul_pos hrs (by norm_num)
    rw [Function.iterate_succ_apply]
    by_cases hlt : |normalizeAngle Math.PI Math.PI_pos
        (Math.atan2 (target.y - e.y) (target.x - e.x) - e.angle)| < e.rotationSpeed * 0.016
    · have hsnap : (moveTowards Math e target []).angle =
          Math.atan2 (target.y - e.y) (target.x - e.x) := by
        rw [ha]
        exact rotateTowards_angle_of_lt Math e _ hlt
      rw [moveTowards_fixed Math target n' (moveTowards Math e target [])
        (by rw [kr]; exact hrs) (by rw [cd]; exact hfar) (by rw [cb]; exact hsnap), cb]
    · have hstep := rotateTowards_angle_of_not_lt Math e
        (Math.atan2 (target.y - e.y) (target.x - e.x)) hlt
      obtain ⟨r1, r2⟩ := remaining_error_of_step Math.PI Math.PI_pos Math e.angle
        (Math.atan2 (target.y - e.y) (target.x - e.x)) _ hm (not_lt.mp hlt)
      rw [ih (moveTowards Math e target []) n' (by rw [kr]; exact hrs)
        (by rw [cd]; exact hfar) ?_ (by omega), cb]
      rw [cb, kr, ha, hstep, r1, r2]
      push_cast at herr
      linarith

/-- C19. An agent with `rotationSpeed > 0`, no obstacles and a fixed target
point at least 10 units away: after `n` calls of `moveTowards`, for every `n ≥
floor(|e0| / (rotationSpeed * 0.016)) + 1` with `e0 = normalizeAngle(bearing -
initial heading)`, the heading equals the bearing `atan2(target.y - y, target.x
- x)`; so it is reached within that many calls and kept by every later call. -/
theorem moveTowards_converges (Math : JSMath R) (e : Enemy R) (target : Point R) (n : Nat)
    (hrs : 0 < e.rotationSpeed) (hfar : 10 ≤ getDistanceTo Math.sqrt e target)
    (hn : ⌊|normalizeAngle Math.PI Math.PI_pos
        (Math.atan2 (target.y - e.y) (target.x - e.x) - e.angle)| /
          (e.rotationSpeed * 0.016)⌋₊ + 1 ≤ n) :
    ((fun a => moveTowards Math a target [])^[n] e).angle =
      Math.atan2 (target.y - e.y) (target.x - e.x) := by
  have hm : (0 : R) < e.rotationSpeed * 0.016 := mul_pos hrs (by norm_num)
  apply moveTowards_reaches Math target _ e n hrs hfar _ hn
  have h := Nat.lt_floor_add_one (|normalizeAngle Math.PI Math.PI_pos
    (Math.atan2 (target.y - e.y) (target.x - e.x) - e.angle)| / (e.rotationSpeed * 0.016))
  rwa [div_lt_iff₀ hm] at h

end Convergence

section Firing

variable {R : Type} [LinearOrderedField R]

/-- The function `shoot` emits a projectile exactly when its own cooldown test
passes, and then stamps `lastShotTime` with its clock reading; otherwise it
returns the agent as it was. -/
theorem shoot_spec (Math : JSMath R) (now : R) (e : Enemy R) :
    ((if e.hasRapidFire then e.fireRate * 0.3 else e.fireRate) ≤ now / 1000 - e.lastShotTime →
      (shoot Math now e).2.isSome = true ∧ (shoot Math now e).1.lastShotTime = now / 1000) ∧
    (now / 1000 - e.lastShotTime < (if e.hasRapidFire then e.fireRate * 0.3 else e.fireRate) →
      shoot Math now e = (e, none)) := by
  unfold shoot
  dsimp only
  constructor
  · intro h
    rw [if_neg (not_lt.mpr h)]
    exact ⟨rfl, rfl⟩
  · intro h
    rw [if_pos h]

/-- The function `shoot` never writes the heading or `targetPosition`, and
without a projectile it returns the agent as it was. -/
theorem shoot_keeps (Math : JSMath R) (now : R) (e : Enemy R) :
    (shoot Math now e).1.angle = e.angle ∧
    (shoot Math now e).1.targetPosition = e.targetPosition ∧
    ((shoot Math now e).2 = none → (shoot Math now e).1 = e) := by
  unfold shoot
  dsimp only
  by_cases h : now / 1000 - e.lastShotTime <
      (if e.hasRapidFire then e.fireRate * 0.3 else e.fireRate)
  · rw [if_pos h]
    exact ⟨rfl, rfl, fun _ => rfl⟩
  · rw [if_neg h]
    exact ⟨rfl, rfl, fun hn => absurd hn (by simp)⟩

/-- With `fireRate ≥ 0` the cooldown of `shoot` is at most `fireRate`. -/
theorem actualFireRate_le (e : Enemy R) (h : 0 ≤ e.fireRate) :
    (if e.hasRapidFire then e.fireRate * 0.3 else e.fireRate) ≤ e.fireRate := by
  split
  · nlinarith
  · exact le_rfl

/-- The offset of `aimAt` is `(1 - accuracy)` times the offset at accuracy 0. -/
theorem aimInaccuracy_scale (Math : JSMath R) (accuracy r : R) :
    aimInaccuracy Math accuracy r = (1 - accuracy) * aimInaccuracy Math 0 r := by
  unfold aimInaccuracy
  ring

/-- The magnitude of the offset of `aimAt` in closed form. -/
theorem abs_aimInaccuracy (Math : JSMath R) (accuracy r : R) :
    |aimInaccuracy Math accuracy r| = |1 - accuracy| * |r - 0.5| * (Math.PI / 4) := by
  unfold aimInaccuracy
  rw [mul_div_assoc, abs_mul, abs_mul, abs_of_pos (div_pos Math.PI_pos (by norm_num))]

/-- Over the draws `r` in `[0, 1)`, the largest magnitude of the offset of
`aimAt` at a given accuracy is `|1 - accuracy| * π / 8`, taken at `r = 0`. -/
theorem aimInaccuracy_isGreatest (Math : JSMath R) (accuracy : R) :
    IsGreatest (Set.image (fun r => |aimInaccuracy Math accuracy r|) (Set.Ico 0 1))
      (|1 - accuracy| * (Math.PI / 8)) := by
  have hq : (0 : R) < Math.PI / 4 := div_pos Math.PI_pos (by norm_num)
  constructor
  · refine ⟨0, ⟨le_rfl, zero_lt_one⟩, ?_⟩
    show |aimInaccuracy Math accuracy 0| = _
    rw [abs_aimInaccuracy]
    have : |(0 : R) - 0.5| = 1 / 2 := by
      rw [abs_of_neg (by norm_num)]
      norm_num
    rw [this]
    ring
  · rintro _ ⟨r, ⟨h0, h1⟩, rfl⟩
    show |aimInaccuracy Math accuracy r| ≤ _
    rw [abs_aimInaccuracy]
    have hr : |r - 0.5| ≤ 1 / 2 := by
      rw [abs_le]
      constructor
      · norm_num
        linarith
      · norm_num
        linarith
    have ha : 0 ≤ |1 - accuracy| := abs_nonneg _
    calc |1 - accuracy| * |r - 0.5| * (Math.PI / 4)
        ≤ |1 - accuracy| * (1 / 2) * (Math.PI / 4) := by
          apply mul_le_mul_of_nonneg_right _ hq.le
          exact mul_le_mul_of_nonneg_left hr ha
      _ = |1 - accuracy| * (Math.PI / 8) := by ring

/-- C14, as the code has it. The offset that `aimAt` adds is `(1 - accuracy)`
times the offset at accuracy 0. Over the draws `r` in `[0, 1)` the supremum of
its magnitude is `π / 40` (4.5°) at accuracy 0.8, attained at `r = 0`; the value
`π / 8` (22.5°) is the supremum at accuracy 0. -/
theorem aimInaccuracy_sup (Math : JSMath R) :
    (∀ accuracy r : R,
      aimInaccuracy Math accuracy r = (1 - accuracy) * aimInaccuracy Math 0 r) ∧
    IsLUB (Set.image (fun r => |aimInaccuracy Math 0.8 r|) (Set.Ico 0 1)) (Math.PI / 40) ∧
    IsLUB (Set.image (fun r => |aimInaccuracy Math 0 r|) (Set.Ico 0 1)) (Math.PI / 8) := by
  refine ⟨aimInaccuracy_scale Math, ?_, ?_⟩
  · have h := (aimInaccuracy_isGreatest Math 0.8).isLUB
    have he : |(1 : R) - 0.8| * (Math.PI / 8) = Math.PI / 40 := by
      rw [abs_of_pos (by norm_num)]
      ring
    rwa [he] at h
  · have h := (aimInaccuracy_isGreatest Math 0).isLUB
    have he : |(1 : R) - 0| * (Math.PI / 8) = Math.PI / 8 := by
      rw [sub_zero, abs_one, one_mul]
    rwa [he] at h

/-- C13. With `accuracy = 1.0` the aim angle that `aimAt` computes is, for
every draw `r`: with `predictiveAiming` on and `projectileSpeed ≠ 0`, the
bearing `atan2(py - y, px - x)` to the point `p = target position + target
velocity * (distance to target / projectileSpeed)`; with `predictiveAiming`
off, the bearing to the target's current position. -/
theorem aimAngle_exact (Math : JSMath R) (r : R) (e : Enemy R) (target : Target R)
    (hacc : e.accuracy = 1) :
    (e.predictiveAiming = true → e.projectileSpeed ≠ 0 →
      aimAngle Math r e target =
        Math.atan2
          (target.y + target.velocity.y *
            (getDistanceTo Math.sqrt e target.pos / e.projectileSpeed) - e.y)
          (target.x + target.velocity.x *
            (getDistanceTo Math.sqrt e target.pos / e.projectileSpeed) - e.x)) ∧
    (e.predictiveAiming = false →
      aimAngle Math r e target = Math.atan2 (target.y - e.y) (target.x - e.x)) := by
  have h0 : aimInaccuracy Math e.accuracy r = 0 := by
    rw [hacc]
    unfold aimInaccuracy
    ring
  unfold aimAngle
  dsimp only
  rw [h0, add_zero]
  constructor
  · intro hp _
    rw [if_pos hp]
  · intro hp
    rw [if_neg (by simp [hp])]

end Firing

section FireControl

variable {R : Type} [LinearOrderedField R] [FloorRing R]

/-- The function `attemptShoot` gives up, leaving the agent as it was, when its
cooldown test fails or the angular error is not below `π / 8`; otherwise it is
`shoot`. -/
theorem attemptShoot_eq (Math : JSMath R) (nowAttempt nowShoot : R) (e : Enemy R)
    (target : Target R) :
    (nowAttempt / 1000 - e.lastShotTime < e.fireRate →
      attemptShoot Math nowAttempt nowShoot e target = (e, none)) ∧
    (Math.PI / 8 ≤ |normalizeAngle Math.PI Math.PI_pos
        (Math.atan2 (target.y - e.y) (target.x - e.x) - e.turretAngle)| →
      attemptShoot Math nowAttempt nowShoot e target = (e, none)) ∧
    (e.fireRate ≤ nowAttempt / 1000 - e.lastShotTime →
      |normalizeAngle Math.PI Math.PI_pos
        (Math.atan2 (target.y - e.y) (target.x - e.x) - e.turretAngle)| < Math.PI / 8 →
      attemptShoot Math nowAttempt nowShoot e target = shoot Math nowShoot e) := by
  unfold attemptShoot
  dsimp only
  refine ⟨fun h => by rw [if_pos h], fun h => ?_, fun h1 h2 => ?_⟩
  · split
    · rfl
    · rw [if_neg (not_lt.mpr h)]
  · rw [if_neg (not_lt.mpr h1), if_pos h2]

/-- C11. Whatever the clock readings and the cooldown state, `attemptShoot`
emits no projectile, and leaves the agent as it was, when the angular error
`|normalizeAngle(atan2(target.y - y, target.x - x) - turretAngle)|` exceeds
`π / 8` (22.5°). -/
theorem attemptShoot_outside_cone (Math : JSMath R) (nowAttempt nowShoot : R) (e : Enemy R)
    (target : Target R)
    (h : Math.PI / 8 < |normalizeAngle Math.PI Math.PI_pos
      (Math.atan2 (target.y - e.y) (target.x - e.x) - e.turretAngle)|) :
    (attemptShoot Math nowAttempt nowShoot e target).2 = none ∧
    (attemptShoot Math nowAttempt nowShoot e target).1 = e := by
  rw [(attemptShoot_eq Math nowAttempt nowShoot e target).2.1 h.le]
  exact ⟨rfl, rfl⟩

/-- C12, as the code has it. With `fireRate ≥ 0` and a clock that does not run
backwards between the reading in `attemptShoot` and the one in `shoot`:
`attemptShoot` emits a projectile exactly when the time since `lastShotTime` is
at least `fireRate` and the angular error is strictly below `π / 8`; when it
fires, `lastShotTime` becomes the current time (the reading in `shoot`), and when
it does not, the agent is left as it was. -/
theorem attemptShoot_fires_iff (Math : JSMath R) (nowAttempt nowShoot : R) (e : Enemy R)
    (target : Target R) (hrate : 0 ≤ e.fireRate) (hclock : nowAttempt ≤ nowShoot) :
    ((attemptShoot Math nowAttempt nowShoot e target).2.isSome = true ↔
      e.fireRate ≤ nowAttempt / 1000 - e.lastShotTime ∧
      |normalizeAngle Math.PI Math.PI_pos
        (Math.atan2 (target.y - e.y) (target.x - e.x) - e.turretAngle)| < Math.PI / 8) ∧
    ((attemptShoot Math nowAttempt nowShoot e target).2.isSome = true →
      (attemptShoot Math nowAttempt nowShoot e target).1.lastShotTime = nowShoot / 1000) ∧
    ((attemptShoot Math nowAttempt nowShoot e target).2 = none →
      (attemptShoot Math nowAttempt nowShoot e target).1 = e) := by
  obtain ⟨hcool, hcone, hshoot⟩ := attemptShoot_eq Math nowAttempt nowShoot e target
  by_cases h1 : e.fireRate ≤ nowAttempt / 1000 - e.lastShotTime
  · by_cases h2 : |normalizeAngle Math.PI Math.PI_pos
        (Math.atan2 (target.y - e.y) (target.x - e.x) - e.turretAngle)| < Math.PI / 8
    · have hgate : (if e.hasRapidFire then e.fireRate * 0.3 else e.fireRate) ≤
          nowShoot / 1000 - e.lastShotTime := by
        have hdiv : nowAttempt / 1000 ≤ nowShoot / 1000 :=
          div_le_div_of_nonneg_right hclock (by norm_num)
        linarith [actualFireRate_le e hrate]
      obtain ⟨hs1, hs2⟩ := (shoot_spec Math nowShoot e).1 hgate
      rw [hshoot h1 h2]
      refine ⟨⟨fun _ => ⟨h1, h2⟩, fun _ => hs1⟩, fun _ => hs2, fun hn => ?_⟩
      rw [hn] at hs1
      exact absurd hs1 (by simp)
    · rw [hcone (not_lt.mp h2)]
      exact ⟨⟨fun h => absurd h (by simp), fun h => absurd h.2 h2⟩,
        fun h => absurd h (by simp), fun _ => rfl⟩
  · rw [hcool (not_le.mp h1)]
    exact ⟨⟨fun h => absurd h (by simp), fun h => absurd h.1 h1⟩,
      fun h => absurd h (by simp), fun _ => rfl⟩

end FireControl

section Retreat

/-- The cosine and sine of `atan2(v, u)` are `u` and `v` over the length of
`(u, v)`, away from the origin. -/
theorem cos_sin_atan2 (u v : ℝ) (h : u ≠ 0 ∨ v ≠ 0) :
    0 < Real.sqrt (u ^ 2 + v ^ 2) ∧
    Real.cos (Complex.arg ⟨u, v⟩) = u / Real.sqrt (u ^ 2 + v ^ 2) ∧
    Real.sin (Complex.arg ⟨u, v⟩) = v / Real.sqrt (u ^ 2 + v ^ 2) := by
  have hz : (⟨u, v⟩ : ℂ) ≠ 0 := by
    intro hc
    have h1 := congrArg Complex.re hc
    have h2 := congrArg Complex.im hc
    simp only [Complex.zero_re, Complex.zero_im] at h1 h2
    rcases h with h | h
    · exact h h1
    · exact h h2
  have habs : Complex.abs ⟨u, v⟩ = Real.sqrt (u ^ 2 + v ^ 2) := by
    rw [Complex.abs_apply, Complex.normSq_mk]
    congr 1
    ring
  refine ⟨?_, ?_, ?_⟩
  · rw [← habs]
    exact Complex.abs.pos hz
  · rw [Complex.cos_arg hz, habs]
  · rw [Complex.sin_arg, habs]

/-- The offset `(200 / d) * (u, v)` has squared length `200 ^ 2` when `(u, v)`
has length `d`. -/
theorem retreat_offset_sq (d u v : ℝ) (hd : 0 < d) (h : d ^ 2 = u ^ 2 + v ^ 2) :
    (200 / d * u) ^ 2 + (200 / d * v) ^ 2 = 200 ^ 2 := by
  have : (200 / d * u) ^ 2 + (200 / d * v) ^ 2 = (200 / d) ^ 2 * (u ^ 2 + v ^ 2) := by ring
  rw [this, ← h]
  field_simp

/-- The vector `(u, v) + (200 / d) * (u, v)` has squared length `(d + 200) ^ 2`
when `(u, v)` has length `d`. -/
theorem retreat_reach_sq (d u v : ℝ) (hd : 0 < d) (h : d ^ 2 = u ^ 2 + v ^ 2) :
    (u + 200 / d * u) ^ 2 + (v + 200 / d * v) ^ 2 = (d + 200) ^ 2 := by
  have : (u + 200 / d * u) ^ 2 + (v + 200 / d * v) ^ 2 =
      (1 + 200 / d) ^ 2 * (u ^ 2 + v ^ 2) := by ring
  rw [this, ← h]
  field_simp

/-- C16. Over the real numbers, for an agent and a target at different
positions, `calculateRetreatPoint` returns the point `agent + (200 / d) * (agent
- target)`, with `d` the distance from agent to target: it lies on the ray from
the target through the agent, exactly 200 from the agent and exactly `d + 200`
from the target. -/
theorem calculateRetreatPoint_spec (Math : JSMath ℝ) (hM : Math.IsReal) (e : Enemy ℝ)
    (player : Target ℝ) (hne : e.x ≠ player.x ∨ e.y ≠ player.y) :
    0 < getDistanceTo Math.sqrt e player.pos ∧
    (calculateRetreatPoint Math e player).x =
      e.x + 200 / getDistanceTo Math.sqrt e player.pos * (e.x - player.x) ∧
    (calculateRetreatPoint Math e player).y =
      e.y + 200 / getDistanceTo Math.sqrt e player.pos * (e.y - player.y) ∧
    getDistanceTo Math.sqrt e (calculateRetreatPoint Math e player) = 200 ∧
    Math.sqrt (((calculateRetreatPoint Math e player).x - player.x) ^ 2 +
        ((calculateRetreatPoint Math e player).y - player.y) ^ 2) =
      getDistanceTo Math.sqrt e player.pos + 200 := by
  obtain ⟨-, hsqrt, hatan, hcos, hsin⟩ := hM
  have hne' : e.x - player.x ≠ 0 ∨ e.y - player.y ≠ 0 := by
    rcases hne with h | h
    · exact Or.inl (sub_ne_zero.mpr h)
    · exact Or.inr (sub_ne_zero.mpr h)
  obtain ⟨hd, hc, hs⟩ := cos_sin_atan2 (e.x - player.x) (e.y - player.y) hne'
  have hdist : getDistanceTo Math.sqrt e player.pos =
      Real.sqrt ((e.x - player.x) ^ 2 + (e.y - player.y) ^ 2) := by
    unfold getDistanceTo Target.pos
    rw [hsqrt]
    congr 1
    ring
  have hsq : Real.sqrt ((e.x - player.x) ^ 2 + (e.y - player.y) ^ 2) ^ 2 =
      (e.x - player.x) ^ 2 + (e.y - player.y) ^ 2 := Real.sq_sqrt (by positivity)
  have hx : (calculateRetreatPoint Math e player).x =
      e.x + 200 / getDistanceTo Math.sqrt e player.pos * (e.x - player.x) := by
    unfold calculateRetreatPoint
    dsimp only
    rw [hatan, hcos, hc, hdist]
    ring
  have hy : (calculateRetreatPoint Math e player).y =
      e.y + 200 / getDistanceTo Math.sqrt e player.pos * (e.y - player.y) := by
    unfold calculateRetreatPoint
    dsimp only
    rw [hatan, hsin, hs, hdist]
    ring
  refine ⟨by rw [hdist]; exact hd, hx, hy, ?_, ?_⟩
  · unfold getDistanceTo
    rw [hx, hy, hdist, hsqrt,
      show (e.x + 200 / Real.sqrt ((e.x - player.x) ^ 2 + (e.y - player.y) ^ 2) *
          (e.x - player.x) - e.x) ^ 2 +
        (e.y + 200 / Real.sqrt ((e.x - player.x) ^ 2 + (e.y - player.y) ^ 2) *
          (e.y - player.y) - e.y) ^ 2 = 200 ^ 2 from by
        have h := retreat_offset_sq _ (e.x - player.x) (e.y - player.y) hd hsq
        rw [← h]
        ring]
    exact Real.sqrt_sq (by norm_num)
  · rw [hx, hy, hdist, hsqrt,
      show (e.x + 200 / Real.sqrt ((e.x - player.x) ^ 2 + (e.y - player.y) ^ 2) *
          (e.x - player.x) - player.x) ^ 2 +
        (e.y + 200 / Real.sqrt ((e.x - player.x) ^ 2 + (e.y - player.y) ^ 2) *
          (e.y - player.y) - player.y) ^ 2 =
        (Real.sqrt ((e.x - player.x) ^ 2 + (e.y - player.y) ^ 2) + 200) ^ 2 from by
        have h := retreat_reach_sq _ (e.x - player.x) (e.y - player.y) hd hsq
        rw [← h]
        ring]
    exact Real.sqrt_sq (by linarith)

end Retreat

section Patrol

variable {R : Type} [LinearOrderedField R] [FloorRing R]

/-- The function `moveTowards` leaves the patrol route and its index as they
are. -/
theorem moveTowards_patrol (Math : JSMath R) (e : Enemy R) (target : Point R)
    (obstacles : List (Obstacle R)) :
    (moveTowards Math e target obstacles).patrolPoints = e.patrolPoints ∧
    (moveTowards Math e target obstacles).currentPatrolIndex = e.currentPatrolIndex := by
  unfold moveTowards
  dsimp only
  split
  · exact ⟨rfl, rfl⟩
  · unfold accelerate rotateTowards
    dsimp only
    split <;> exact ⟨rfl, rfl⟩

/-- Stepping an index below `n` forward cyclically `k` times adds `k` modulo
`n`. -/
theorem iterate_next_index (n k : Nat) :
    ∀ i : Nat, (fun j => (j + 1) % n)^[k] i = if k = 0 then i else (i + k) % n := by
  induction k with
  | zero => intro i; rfl
  | succ k ih =>
    intro i
    rw [Function.iterate_succ_apply, ih]
    by_cases hk : k = 0
    · subst hk
      simp
    · rw [if_neg hk, if_neg (Nat.succ_ne_zero k), Nat.mod_add_mod]
      congr 1
      omega

/-- Near the current waypoint `executePatrol` advances the index and does
nothing else. -/
theorem executePatrol_near (Math : JSMath R) (e : Enemy R) (deltaTime : R)
    (obstacles : List (Obstacle R)) (h : e.currentPatrolIndex < e.patrolPoints.length)
    (hd : getDistanceTo Math.sqrt e (e.patrolPoints.get ⟨e.currentPatrolIndex, h⟩) < 50) :
    executePatrol Math e deltaTime obstacles =
      some { e with
        currentPatrolIndex := (e.currentPatrolIndex + 1) % e.patrolPoints.length } := by
  have hlen : ¬ e.patrolPoints.length = 0 := by omega
  have hget : e.patrolPoints[e.currentPatrolIndex]? =
      some (e.patrolPoints.get ⟨e.currentPatrolIndex, h⟩) := by
    rw [List.getElem?_eq_getElem h]
    rfl
  unfold executePatrol
  rw [if_neg hlen, hget]
  dsimp only
  rw [if_pos hd]

/-- Away from the current waypoint `executePatrol` is `moveTowards` at it. -/
theorem executePatrol_far (Math : JSMath R) (e : Enemy R) (deltaTime : R)
    (obstacles : List (Obstacle R)) (h : e.currentPatrolIndex < e.patrolPoints.length)
    (hd : ¬ getDistanceTo Math.sqrt e (e.patrolPoints.get ⟨e.currentPatrolIndex, h⟩) < 50) :
    executePatrol Math e deltaTime obstacles =
      some (moveTowards Math e (e.patrolPoints.get ⟨e.currentPatrolIndex, h⟩) obstacles) := by
  have hlen : ¬ e.patrolPoints.length = 0 := by omega
  have hget : e.patrolPoints[e.currentPatrolIndex]? =
      some (e.patrolPoints.get ⟨e.currentPatrolIndex, h⟩) := by
    rw [List.getElem?_eq_getElem h]
    rfl
  unfold executePatrol
  rw [if_neg hlen, hget]
  dsimp only
  rw [if_neg hd]

/-- C17. `executePatrol`: with an empty route it returns the agent unchanged.
With `currentPatrolIndex` inside a non-empty route: less than 50 units from the
current waypoint, only the index changes, to `(currentPatrolIndex + 1) mod
length` (nothing is steered); otherwise the result is `moveTowards` at the
current waypoint, index unchanged. In both cases the index stays below the
length of the unchanged route, and `length` advances bring the index back to
where it started. -/
theorem executePatrol_spec (Math : JSMath R) (e : Enemy R) (deltaTime : R)
    (obstacles : List (Obstacle R)) :
    (e.patrolPoints = [] → executePatrol Math e deltaTime obstacles = some e) ∧
    (∀ h : e.currentPatrolIndex < e.patrolPoints.length,
      (getDistanceTo Math.sqrt e (e.patrolPoints.get ⟨e.currentPatrolIndex, h⟩) < 50 →
        executePatrol Math e deltaTime obstacles =
          some { e with
            currentPatrolIndex := (e.currentPatrolIndex + 1) % e.patrolPoints.length }) ∧
      (¬ getDistanceTo Math.sqrt e (e.patrolPoints.get ⟨e.currentPatrolIndex, h⟩) < 50 →
        executePatrol Math e deltaTime obstacles =
          some (moveTowards Math e (e.patrolPoints.get ⟨e.currentPatrolIndex, h⟩) obstacles) ∧
        (moveTowards Math e (e.patrolPoints.get ⟨e.currentPatrolIndex, h⟩)
          obstacles).currentPatrolIndex = e.currentPatrolIndex) ∧
      (∃ e', executePatrol Math e deltaTime obstacles = some e' ∧
        e'.patrolPoints = e.patrolPoints ∧
        e'.currentPatrolIndex < e'.patrolPoints.length) ∧
      (fun j => (j + 1) % e.patrolPoints.length)^[e.patrolPoints.length]
        e.currentPatrolIndex = e.currentPatrolIndex) := by
  constructor
  · intro h
    unfold executePatrol
    rw [if_pos (by rw [h]; rfl)]
  · intro h
    have hlen : ¬ e.patrolPoints.length = 0 := by omega
    obtain ⟨mp, mi⟩ := moveTowards_patrol Math e
      (e.patrolPoints.get ⟨e.currentPatrolIndex, h⟩) obstacles
    have hnear := executePatrol_near Math e deltaTime obstacles h
    have hfar := executePatrol_far Math e deltaTime obstacles h
    refine ⟨hnear, fun hd => ⟨hfar hd, mi⟩, ?_, ?_⟩
    · by_cases hd : getDistanceTo Math.sqrt e
          (e.patrolPoints.get ⟨e.currentPatrolIndex, h⟩) < 50
      · exact ⟨_, hnear hd, rfl, Nat.mod_lt _ (by omega)⟩
      · refine ⟨_, hfar hd, mp, ?_⟩
        rw [mi, mp]
        exact h
    · rw [iterate_next_index, if_neg hlen, Nat.add_mod_right, Nat.mod_eq_of_lt h]

end Patrol

section Attack

variable {R : Type} [LinearOrderedField R] [FloorRing R]

/-- The function `aimAt` writes the turret angle only. -/
theorem aimAt_keeps (Math : JSMath R) (r : R) (e : Enemy R) (target : Target R) :
    (aimAt Math r e target).angle = e.angle ∧
    (aimAt Math r e target).velocity = e.velocity ∧
    (aimAt Math r e target).targetPosition = e.targetPosition ∧
    (aimAt Math r e target).lastShotTime = e.lastShotTime ∧
    (aimAt Math r e target).fireRate = e.fireRate := by
  unfold aimAt
  dsimp only
  split <;> exact ⟨rfl, rfl, rfl, rfl, rfl⟩

/-- The function `attemptShoot` never writes the heading or `targetPosition`,
and without a projectile it returns the agent as it was. -/
theorem attemptShoot_keeps (Math : JSMath R) (nowAttempt nowShoot : R) (e : Enemy R)
    (target : Target R) :
    (attemptShoot Math nowAttempt nowShoot e target).1.angle = e.angle ∧
    (attemptShoot Math nowAttempt nowShoot e target).1.targetPosition = e.targetPosition ∧
    ((attemptShoot Math nowAttempt nowShoot e target).2 = none →
      (attemptShoot Math nowAttempt nowShoot e target).1 = e) := by
  obtain ⟨hcool, hcone, hshoot⟩ := attemptShoot_eq Math nowAttempt nowShoot e target
  by_cases h1 : e.fireRate ≤ nowAttempt / 1000 - e.lastShotTime
  · by_cases h2 : |normalizeAngle Math.PI Math.PI_pos
        (Math.atan2 (target.y - e.y) (target.x - e.x) - e.turretAngle)| < Math.PI / 8
    · rw [hshoot h1 h2]
      exact shoot_keeps Math nowShoot e
    · rw [hcone (not_lt.mp h2)]
      exact ⟨rfl, rfl, fun _ => rfl⟩
  · rw [hcool (not_le.mp h1)]
    exact ⟨rfl, rfl, fun _ => rfl⟩

/-- In the middle band of `executeAttack` (distance between `0.7 * attackRange`
and `attackRange`) the heading is not touched; the velocity is not touched
either unless a shot adds its recoil; only `targetPosition` receives the strafe
point. -/
theorem executeAttack_strafe_band (Math : JSMath R) (rStrafe rAim nowAttempt nowShoot : R)
    (e : Enemy R) (deltaTime : R) (player : Target R) (obstacles : List (Obstacle R))
    (h1 : ¬ getDistanceTo Math.sqrt e player.pos < e.attackRange * 0.7)
    (h2 : ¬ getDistanceTo Math.sqrt e player.pos > e.attackRange) :
    (executeAttack Math rStrafe rAim nowAttempt nowShoot e deltaTime player obstacles).1.angle =
      e.angle ∧
    ((executeAttack Math rStrafe rAim nowAttempt nowShoot e deltaTime player obstacles).2 = none →
      (executeAttack Math rStrafe rAim nowAttempt nowShoot e deltaTime player
        obstacles).1.velocity = e.velocity) ∧
    (executeAttack Math rStrafe rAim nowAttempt nowShoot e deltaTime player
        obstacles).1.targetPosition =
      (executeStrafe Math rStrafe e deltaTime player).targetPosition ∧
    (nowAttempt / 1000 - e.lastShotTime < e.fireRate →
      (executeAttack Math rStrafe rAim nowAttempt nowShoot e deltaTime player obstacles).2 =
        none) := by
  unfold executeAttack
  dsimp only
  rw [if_neg h1, if_neg h2]
  split
  · obtain ⟨a1, a2, a3, a4, a5⟩ :=
      aimAt_keeps Math rAim (executeStrafe Math rStrafe e deltaTime player) player
    obtain ⟨s1, s2, s3⟩ := attemptShoot_keeps Math nowAttempt nowShoot
      (aimAt Math rAim (executeStrafe Math rStrafe e deltaTime player) player) player
    refine ⟨s1.trans a1, fun hn => ?_, s2.trans a3, fun hc => ?_⟩
    · rw [s3 hn, a2]
      rfl
    · rw [(attemptShoot_eq Math nowAttempt nowShoot _ player).1 (by rw [a4, a5]; exact hc)]
  · exact ⟨rfl, fun _ => rfl, rfl, fun _ => rfl⟩

end Attack

section StoredAngles

variable {R : Type} [LinearOrderedField R] [FloorRing R]

/-- C20, as the code has it. None of `rotateTowards`, `aimAt` and
`checkIfStuck` normalizes the angle it stores. `rotateTowards` sets the heading
to the target angle it is given or moves it by at most `|rotationSpeed * 0.016|`;
`aimAt` sets the turret angle to the computed aim angle or moves it by at most
`|turretRotationSpeed * 0.016|`; `checkIfStuck` keeps the heading or adds the
kick `(r - 0.5) * π`. Each of them leaves the other stored angle as it is. -/
theorem stored_angle_step (Math : JSMath R) (e : Enemy R) (targetAngle r deltaTime : R)
    (target : Target R) :
    (((rotateTowards Math e targetAngle).angle = targetAngle ∨
        |(rotateTowards Math e targetAngle).angle - e.angle| ≤ |e.rotationSpeed * 0.016|) ∧
      (rotateTowards Math e targetAngle).turretAngle = e.turretAngle) ∧
    (((aimAt Math r e target).turretAngle = aimAngle Math r e target ∨
        |(aimAt Math r e target).turretAngle - e.turretAngle| ≤
          |e.turretRotationSpeed * 0.016|) ∧
      (aimAt Math r e target).angle = e.angle) ∧
    (((checkIfStuck Math r e deltaTime).angle = e.angle ∨
        (checkIfStuck Math r e deltaTime).angle = e.angle + (r - 0.5) * Math.PI) ∧
      (checkIfStuck Math r e deltaTime).turretAngle = e.turretAngle) := by
  refine ⟨⟨?_, (rotateTowards_keeps Math e targetAngle).2.2.2.1⟩,
    ⟨?_, (aimAt_keeps Math r e target).1⟩, ?_⟩
  · unfold rotateTowards
    dsimp only
    split
    · exact Or.inl rfl
    · right
      dsimp only
      rw [add_sub_cancel_left, abs_mul]
      exact mul_le_of_le_one_left (abs_nonneg _) (Math.abs_sign_le _)
  · unfold aimAt
    dsimp only
    split
    · exact Or.inl rfl
    · right
      dsimp only
      rw [add_sub_cancel_left, abs_mul]
      exact mul_le_of_le_one_left (abs_nonneg _) (Math.abs_sign_le _)
  · unfold checkIfStuck
    dsimp only
    split <;> split <;> first
      | exact ⟨Or.inl rfl, rfl⟩
      | exact ⟨Or.inr rfl, rfl⟩

end StoredAngles

section RealScenarios

/-- A statement that holds for every host with the functions of real analysis
holds at `withRealMath`. -/
theorem withRealMath_intro (P : JSMath ℝ → Prop)
    (h : ∀ Math : JSMath ℝ, Math.IsReal → P Math) : withRealMath P :=
  h _ ⟨rfl, rfl, fun _ _ => rfl, rfl, rfl⟩

/-- Bounds on `Math.PI` over the real numbers. -/
theorem JSMath.IsReal.pi_bounds {Math : JSMath ℝ} (hM : Math.IsReal) :
    3 < Math.PI ∧ Math.PI < 3.15 := by
  rw [hM.1]
  exact ⟨Real.pi_gt_three, Real.pi_lt_d2⟩

/-- The value of `Math.atan2(0, u)` over the real numbers: 0 on the positive x
axis and at the origin, `π` on the negative x axis. -/
theorem JSMath.IsReal.atan2_zero {Math : JSMath ℝ} (hM : Math.IsReal) (u : ℝ) :
    Math.atan2 0 u = if 0 ≤ u then 0 else Math.PI := by
  rw [hM.2.2.1, hM.1]
  have hu : (⟨u, 0⟩ : ℂ) = (u : ℂ) := rfl
  rw [hu]
  split_ifs with h
  · exact Complex.arg_ofReal_of_nonneg h
  · exact Complex.arg_ofReal_of_neg (not_le.mp h)

/-- The value of `Math.atan2(v, 0)` for `v > 0` over the real numbers. -/
theorem JSMath.IsReal.atan2_up {Math : JSMath ℝ} (hM : Math.IsReal) (v : ℝ) (hv : 0 < v) :
    Math.atan2 v 0 = Math.PI / 2 := by
  rw [hM.2.2.1, hM.1]
  exact Complex.arg_eq_pi_div_two_iff.mpr ⟨rfl, hv⟩

/-- The distance from the sample agent to the target at `(x, 0)`, `x ≥ 0`. -/
theorem JSMath.IsReal.distance_sample {Math : JSMath ℝ} (hM : Math.IsReal) (st : AIState)
    (h x : ℝ) (hx : 0 ≤ x) :
    getDistanceTo Math.sqrt (sampleAgent st h) (sampleTarget x).pos = x := by
  rw [hM.2.1]
  exact getDistanceTo_sample st h x hx

/-- C11 at a concrete input: turret at angle 0, target at `(-100, 0)` straight
behind (angular error `π`), cooldown long elapsed; no projectile. -/
theorem attemptShoot_outside_cone_witness :
    withRealMath fun Math =>
      (sampleAgent AIState.attack (75 : ℝ)).fireRate ≤
        5000 / 1000 - (sampleAgent AIState.attack (75 : ℝ)).lastShotTime ∧
      (attemptShoot Math 5000 5000 (sampleAgent AIState.attack 75) (sampleTarget (-100))).2 =
        none := by
  apply withRealMath_intro
  intro Math hM
  obtain ⟨hp1, hp2⟩ := hM.pi_bounds
  refine ⟨by norm_num [sampleAgent, Enemy.new], ?_⟩
  refine (attemptShoot_outside_cone Math 5000 5000 (sampleAgent AIState.attack 75)
    (sampleTarget (-100)) ?_).1
  have hb : Math.atan2 ((sampleTarget (-100 : ℝ)).y - (sampleAgent AIState.attack (75 : ℝ)).y)
      ((sampleTarget (-100 : ℝ)).x - (sampleAgent AIState.attack (75 : ℝ)).x) -
      (sampleAgent AIState.attack (75 : ℝ)).turretAngle = Math.PI := by
    simp only [sampleTarget, sampleAgent, Enemy.new, sub_zero]
    rw [hM.atan2_zero, if_neg (by norm_num)]
  rw [hb, normalizeAngle_of_mem Math.PI Math.PI_pos Math.PI (by linarith) le_rfl,
    abs_of_pos Math.PI_pos]
  linarith

/-- C12 fails at an angular error of exactly `π / 8`: the turret at `-π / 8`,
the target at `(100, 0)` (bearing 0), the cooldown long elapsed. Both gates of
the claim hold, and no projectile is emitted. -/
theorem attemptShoot_at_cone_edge :
    withRealMath fun Math =>
      ((sampleAgent AIState.attack (75 : ℝ)).facing 0 (-Math.PI / 8)).fireRate ≤
        5000 / 1000 -
          ((sampleAgent AIState.attack (75 : ℝ)).facing 0 (-Math.PI / 8)).lastShotTime ∧
      |normalizeAngle Math.PI Math.PI_pos
        (Math.atan2
          ((sampleTarget (100 : ℝ)).y -
            ((sampleAgent AIState.attack (75 : ℝ)).facing 0 (-Math.PI / 8)).y)
          ((sampleTarget (100 : ℝ)).x -
            ((sampleAgent AIState.attack (75 : ℝ)).facing 0 (-Math.PI / 8)).x) -
          ((sampleAgent AIState.attack (75 : ℝ)).facing 0 (-Math.PI / 8)).turretAngle)| ≤
        Math.PI / 8 ∧
      (attemptShoot Math 5000 5000 ((sampleAgent AIState.attack 75).facing 0 (-Math.PI / 8))
        (sampleTarget 100)).2 = none := by
  apply withRealMath_intro
  intro Math hM
  obtain ⟨hp1, hp2⟩ := hM.pi_bounds
  have hb : Math.atan2
      ((sampleTarget (100 : ℝ)).y -
        ((sampleAgent AIState.attack (75 : ℝ)).facing 0 (-Math.PI / 8)).y)
      ((sampleTarget (100 : ℝ)).x -
        ((sampleAgent AIState.attack (75 : ℝ)).facing 0 (-Math.PI / 8)).x) -
      ((sampleAgent AIState.attack (75 : ℝ)).facing 0 (-Math.PI / 8)).turretAngle =
        Math.PI / 8 := by
    simp only [sampleTarget, sampleAgent, Enemy.new, Enemy.facing, sub_zero]
    rw [hM.atan2_zero, if_pos (by norm_num)]
    ring
  have hn : |normalizeAngle Math.PI Math.PI_pos (Math.PI / 8)| = Math.PI / 8 := by
    rw [normalizeAngle_of_mem Math.PI Math.PI_pos _ (by linarith) (by linarith),
      abs_of_pos (by linarith)]
  refine ⟨by norm_num [sampleAgent, Enemy.new, Enemy.facing], ?_, ?_⟩
  · rw [hb, hn]
  · rw [(attemptShoot_eq Math 5000 5000 _ (sampleTarget 100)).2.1 (by rw [hb, hn])]

/-- C12 as amended, at a concrete input: turret at angle 0, target at `(100,
0)` (angular error 0), `lastShotTime = 0`, `fireRate = 0.8` and both clock
readings 5000 ms; a projectile is emitted and `lastShotTime` becomes 5. -/
theorem attemptShoot_fires_iff_witness :
    withRealMath fun Math =>
      (attemptShoot Math 5000 5000 (sampleAgent AIState.attack (75 : ℝ))
        (sampleTarget 100)).2.isSome = true ∧
      (attemptShoot Math 5000 5000 (sampleAgent AIState.attack (75 : ℝ))
        (sampleTarget 100)).1.lastShotTime = 5 := by
  apply withRealMath_intro
  intro Math hM
  obtain ⟨hp1, hp2⟩ := hM.pi_bounds
  obtain ⟨hiff, hstamp, -⟩ := attemptShoot_fires_iff Math 5000 5000
    (sampleAgent AIState.attack (75 : ℝ)) (sampleTarget 100)
    (by norm_num [sampleAgent, Enemy.new]) le_rfl
  have hb : Math.atan2 ((sampleTarget (100 : ℝ)).y - (sampleAgent AIState.attack (75 : ℝ)).y)
      ((sampleTarget (100 : ℝ)).x - (sampleAgent AIState.attack (75 : ℝ)).x) -
      (sampleAgent AIState.attack (75 : ℝ)).turretAngle = 0 := by
    simp only [sampleTarget, sampleAgent, Enemy.new, sub_zero]
    rw [hM.atan2_zero, if_pos (by norm_num)]
  have hfire : (attemptShoot Math 5000 5000 (sampleAgent AIState.attack (75 : ℝ))
      (sampleTarget 100)).2.isSome = true := by
    refine hiff.mpr ⟨by norm_num [sampleAgent, Enemy.new], ?_⟩
    rw [hb, normalizeAngle_of_mem Math.PI Math.PI_pos 0 (by linarith) (by linarith), abs_zero]
    linarith
  refine ⟨hfire, ?_⟩
  rw [hstamp hfire]
  norm_num

/-- C13 at the input of the scenario: target at `(0, 400)`, distance 400,
moving at `(100, 0)`, `projectileSpeed = 400`, accuracy 1; the aim angle is the
bearing `atan2(400, 100)` to the point `(100, 400)`, the target position plus
`(100, 0)`. -/
theorem aimAngle_exact_witness :
    withRealMath fun Math =>
      getDistanceTo Math.sqrt (sharpshooter : Enemy ℝ)
        (⟨0, 400, ⟨100, 0⟩⟩ : Target ℝ).pos = 400 ∧
      (sharpshooter : Enemy ℝ).projectileSpeed = 400 ∧
      aimAngle Math 0.25 (sharpshooter : Enemy ℝ) ⟨0, 400, ⟨100, 0⟩⟩ =
        Math.atan2 400 100 := by
  apply withRealMath_intro
  intro Math hM
  have hd : getDistanceTo Math.sqrt (sharpshooter : Enemy ℝ)
      (⟨0, 400, ⟨100, 0⟩⟩ : Target ℝ).pos = 400 := by
    rw [hM.2.1]
    simp only [getDistanceTo, sharpshooter, sampleAgent, Enemy.new, Target.pos, sub_zero]
    rw [show (0 : ℝ) ^ 2 + 400 ^ 2 = 400 ^ 2 from by norm_num]
    exact Real.sqrt_sq (by norm_num)
  refine ⟨hd, rfl, ?_⟩
  rw [(aimAngle_exact Math 0.25 (sharpshooter : Enemy ℝ) ⟨0, 400, ⟨100, 0⟩⟩ rfl).1 rfl
    (by norm_num [sharpshooter, sampleAgent, Enemy.new]), hd]
  norm_num [sharpshooter, sampleAgent, Enemy.new]

/-- C14 fails: at accuracy 0.8 every offset has magnitude at most `π / 40`, so
`π / 8` is not the supremum of the magnitudes over the draws in `[0, 1)`. -/
theorem aimInaccuracy_sup_not_pi_div_eight :
    withRealMath fun Math =>
      ¬ IsLUB (Set.image (fun r => |aimInaccuracy Math 0.8 r|) (Set.Ico 0 1)) (Math.PI / 8) := by
  apply withRealMath_intro
  intro Math _ hlub
  have h := (aimInaccuracy_isGreatest Math (0.8 : ℝ)).isLUB
  have he := hlub.unique h
  rw [abs_of_pos (by norm_num : (0 : ℝ) < 1 - 0.8)] at he
  have := Math.PI_pos
  linarith

/-- The strafe band at a concrete input: attack range 200, target at `(150,
0)`, heading 0, velocity `(0, 0)`, cooldown not elapsed, strafe draw 0.25. After
`executeAttack` the strafe point `(0, 100)` is stored in `targetPosition`, while
heading and velocity are what they were and no projectile is emitted: the agent
is not steered towards the strafe point, whose bearing is `π / 2`. -/
theorem executeAttack_strafe_does_not_steer :
    withRealMath fun Math =>
      getDistanceTo Math.sqrt (sampleAgent AIState.attack (75 : ℝ)) (sampleTarget 150).pos =
        150 ∧
      (sampleAgent AIState.attack (75 : ℝ)).attackRange = 200 ∧
      (executeAttack Math 0.25 0.5 0 0 (sampleAgent AIState.attack (75 : ℝ)) 0.016
        (sampleTarget 150) []).1.targetPosition = ⟨0, 100⟩ ∧
      Math.atan2 (100 - (sampleAgent AIState.attack (75 : ℝ)).y)
        (0 - (sampleAgent AIState.attack (75 : ℝ)).x) = Math.PI / 2 ∧
      (executeAttack Math 0.25 0.5 0 0 (sampleAgent AIState.attack (75 : ℝ)) 0.016
        (sampleTarget 150) []).1.angle = 0 ∧
      (executeAttack Math 0.25 0.5 0 0 (sampleAgent AIState.attack (75 : ℝ)) 0.016
        (sampleTarget 150) []).1.velocity = ⟨0, 0⟩ ∧
      (executeAttack Math 0.25 0.5 0 0 (sampleAgent AIState.attack (75 : ℝ)) 0.016
        (sampleTarget 150) []).2 = none := by
  apply withRealMath_intro
  intro Math hM
  have hd := hM.distance_sample AIState.attack 75 150 (by norm_num)
  obtain ⟨hangle, hvel, htp, hnone⟩ := executeAttack_strafe_band Math 0.25 0.5 0 0
    (sampleAgent AIState.attack (75 : ℝ)) 0.016 (sampleTarget 150) []
    (by rw [hd]; norm_num [sampleAgent, Enemy.new])
    (by rw [hd]; norm_num [sampleAgent, Enemy.new])
  have hn := hnone (by norm_num [sampleAgent, Enemy.new])
  refine ⟨hd, rfl, ?_, ?_, hangle, hvel hn, hn⟩
  · rw [htp]
    simp only [executeStrafe, sampleTarget, sampleAgent, Enemy.new, sub_zero]
    rw [hM.atan2_zero, if_pos (by norm_num), if_pos (by norm_num), hM.2.2.2.1, hM.2.2.2.2,
      hM.1]
    simp
  · simp only [sampleAgent, Enemy.new, sub_zero]
    exact hM.atan2_up 100 (by norm_num)

/-- C16 at a concrete input: agent at the origin, target at `(100, 0)`; the
retreat point is `(-200, 0)`, 200 from the agent and 300 from the target. -/
theorem calculateRetreatPoint_witness :
    withRealMath fun Math =>
      (calculateRetreatPoint Math (sampleAgent AIState.retreat (75 : ℝ)) (sampleTarget 100)).x =
        -200 ∧
      (calculateRetreatPoint Math (sampleAgent AIState.retreat (75 : ℝ)) (sampleTarget 100)).y =
        0 ∧
      getDistanceTo Math.sqrt (sampleAgent AIState.retreat (75 : ℝ))
        (calculateRetreatPoint Math (sampleAgent AIState.retreat (75 : ℝ)) (sampleTarget 100)) =
        200 ∧
      Math.sqrt
        (((calculateRetreatPoint Math (sampleAgent AIState.retreat (75 : ℝ))
            (sampleTarget 100)).x - (sampleTarget (100 : ℝ)).x) ^ 2 +
          ((calculateRetreatPoint Math (sampleAgent AIState.retreat (75 : ℝ))
            (sampleTarget 100)).y - (sampleTarget (100 : ℝ)).y) ^ 2) = 300 := by
  apply withRealMath_intro
  intro Math hM
  have hd := hM.distance_sample AIState.retreat 75 100 (by norm_num)
  obtain ⟨-, hx, hy, h200, hreach⟩ := calculateRetreatPoint_spec Math hM
    (sampleAgent AIState.retreat (75 : ℝ)) (sampleTarget 100)
    (Or.inl (by norm_num [sampleAgent, Enemy.new, sampleTarget]))
  rw [hd] at hx hy hreach
  refine ⟨?_, ?_, h200, ?_⟩
  · rw [hx]
    norm_num [sampleAgent, Enemy.new, sampleTarget]
  · rw [hy]
    norm_num [sampleAgent, Enemy.new, sampleTarget]
  · rw [hreach]
    norm_num

/-- The first `moveTowards` call of the sentry at its waypoint `(0, 100)`: the
bearing is `π / 2`, the error `π / 2` is above the budget, and the heading goes
from 0 to `3 * 0.016 = 0.048`. -/
theorem sentry_first_step (Math : JSMath ℝ) (hM : Math.IsReal) :
    (moveTowards Math (sentry : Enemy ℝ) ⟨0, 100⟩ []).angle = 0.048 := by
  obtain ⟨hp1, hp2⟩ := hM.pi_bounds
  have hfar : (10 : ℝ) ≤ getDistanceTo Math.sqrt (sentry : Enemy ℝ) ⟨0, 100⟩ := by
    rw [hM.2.1]
    simp only [getDistanceTo, sentry, Enemy.new, sub_zero]
    rw [show (0 : ℝ) ^ 2 + 100 ^ 2 = 100 ^ 2 from by norm_num, Real.sqrt_sq (by norm_num)]
    norm_num
  have hb : Math.atan2 ((⟨0, 100⟩ : Point ℝ).y - (sentry : Enemy ℝ).y)
      ((⟨0, 100⟩ : Point ℝ).x - (sentry : Enemy ℝ).x) - (sentry : Enemy ℝ).angle =
        Math.PI / 2 := by
    simp only [sentry, Enemy.new, sub_zero]
    exact hM.atan2_up 100 (by norm_num)
  have hn : normalizeAngle Math.PI Math.PI_pos (Math.PI / 2) = Math.PI / 2 :=
    normalizeAngle_of_mem Math.PI Math.PI_pos _ (by linarith) (by linarith)
  rw [(moveTowards_nil Math sentry ⟨0, 100⟩ hfar).1, rotateTowards_angle_of_not_lt, hb, hn]
  · have hs : Math.sign (Math.PI / 2) = 1 := by
      unfold JSMath.sign
      rw [if_pos (by linarith)]
    rw [hs]
    norm_num [sentry, Enemy.new]
  · rw [hb, hn, abs_of_pos (by linarith)]
    norm_num [sentry, Enemy.new]
    linarith

/-- C18 fails in a tick of 0.008 seconds: the sentry (`rotationSpeed = 3`,
heading 0, waypoint at bearing `π / 2`) turns by 0.048 in one `executePatrol`
call, twice the `rotationSpeed * dt = 0.024` of the claim. -/
theorem executePatrol_turn_exceeds_dt_budget :
    withRealMath fun Math =>
      (executePatrol Math (sentry : Enemy ℝ) 0.008 []).map (fun a => a.angle) = some 0.048 ∧
      (sentry : Enemy ℝ).angle = 0 ∧
      (sentry : Enemy ℝ).rotationSpeed * 0.008 < 0.048 := by
  apply withRealMath_intro
  intro Math hM
  have hidx : (sentry : Enemy ℝ).currentPatrolIndex <
      (sentry : Enemy ℝ).patrolPoints.length := by
    simp [sentry, Enemy.new]
  have hfar : ¬ getDistanceTo Math.sqrt (sentry : Enemy ℝ)
      ((sentry : Enemy ℝ).patrolPoints.get ⟨(sentry : Enemy ℝ).currentPatrolIndex, hidx⟩) <
        50 := by
    rw [hM.2.1]
    simp only [getDistanceTo, sentry, Enemy.new, List.get, sub_zero]
    rw [show (0 : ℝ) ^ 2 + 100 ^ 2 = 100 ^ 2 from by norm_num, Real.sqrt_sq (by norm_num)]
    norm_num
  refine ⟨?_, rfl, by norm_num [sentry, Enemy.new]⟩
  rw [executePatrol_far Math sentry 0.008 [] hidx hfar, Option.map_some']
  exact congrArg some (sentry_first_step Math hM)

/-- C18 as amended, at a concrete input: heading 0, target angle 1,
`rotationSpeed = 3`; the heading moves by the budget 0.048 and the error goes
from 1 to `1 - 0.048`. -/
theorem rotateTowards_budget_witness :
    withRealMath fun Math =>
      (rotateTowards Math (sampleAgent AIState.patrol (75 : ℝ)) 1).angle = 0.048 ∧
      |normalizeAngle Math.PI Math.PI_pos
        (1 - (rotateTowards Math (sampleAgent AIState.patrol (75 : ℝ)) 1).angle)| =
          1 - 0.048 := by
  apply withRealMath_intro
  intro Math hM
  obtain ⟨hp1, hp2⟩ := hM.pi_bounds
  have hn : normalizeAngle Math.PI Math.PI_pos
      (1 - (sampleAgent AIState.patrol (75 : ℝ)).angle) = 1 := by
    rw [show (1 : ℝ) - (sampleAgent AIState.patrol (75 : ℝ)).angle = 1 from by
      norm_num [sampleAgent, Enemy.new]]
    exact normalizeAngle_of_mem Math.PI Math.PI_pos 1 (by linarith) (by linarith)
  obtain ⟨hstep, herr⟩ := (rotateTowards_budget Math (sampleAgent AIState.patrol (75 : ℝ)) 1
    (by norm_num [sampleAgent, Enemy.new])).2.1
    (by rw [hn]; norm_num [sampleAgent, Enemy.new])
  have hs : Math.sign (1 : ℝ) = 1 := by
    unfold JSMath.sign
    rw [if_pos one_pos]
  rw [hn, hs] at hstep
  rw [hn] at herr
  refine ⟨?_, ?_⟩
  · rw [hstep]
    norm_num [sampleAgent, Enemy.new]
  · rw [herr]
    norm_num [sampleAgent, Enemy.new]

/-- C19 at a concrete input: the sample agent at the origin with heading 0 and
`rotationSpeed = 3`, the target point `(0, 100)` at bearing `π / 2`. The bound
is `floor((π / 2) / 0.048) + 1 = 33`, and after 33 `moveTowards` calls the
heading is `π / 2`. -/
theorem moveTowards_converges_witness :
    withRealMath fun Math =>
      ((fun a => moveTowards Math a ⟨0, 100⟩ [])^[33]
        (sampleAgent AIState.patrol (75 : ℝ))).angle = Math.PI / 2 := by
  apply withRealMath_intro
  intro Math hM
  obtain ⟨hp1, hp2⟩ := hM.pi_bounds
  have hfar : (10 : ℝ) ≤
      getDistanceTo Math.sqrt (sampleAgent AIState.patrol (75 : ℝ)) ⟨0, 100⟩ := by
    rw [hM.2.1]
    simp only [getDistanceTo, sampleAgent, Enemy.new, sub_zero]
    rw [show (0 : ℝ) ^ 2 + 100 ^ 2 = 100 ^ 2 from by norm_num, Real.sqrt_sq (by norm_num)]
    norm_num
  have hb : Math.atan2 ((⟨0, 100⟩ : Point ℝ).y - (sampleAgent AIState.patrol (75 : ℝ)).y)
      ((⟨0, 100⟩ : Point ℝ).x - (sampleAgent AIState.patrol (75 : ℝ)).x) = Math.PI / 2 := by
    simp only [sampleAgent, Enemy.new, sub_zero]
    exact hM.atan2_up 100 (by norm_num)
  have hn : normalizeAngle Math.PI Math.PI_pos
      (Math.PI / 2 - (sampleAgent AIState.patrol (75 : ℝ)).angle) = Math.PI / 2 := by
    rw [show Math.PI / 2 - (sampleAgent AIState.patrol (75 : ℝ)).angle = Math.PI / 2 from by
      norm_num [sampleAgent, Enemy.new]]
    exact normalizeAngle_of_mem Math.PI Math.PI_pos _ (by linarith) (by linarith)
  have h := moveTowards_converges Math (sampleAgent AIState.patrol (75 : ℝ)) ⟨0, 100⟩ 33
    (by norm_num [sampleAgent, Enemy.new]) hfar
    (by
      rw [hb, hn, abs_of_pos (by linarith)]
      have hrs : (sampleAgent AIState.patrol (75 : ℝ)).rotationSpeed * 0.016 = 0.048 := by
        norm_num [sampleAgent, Enemy.new]
      rw [hrs]
      have hlt : Math.PI / 2 / 0.048 < ((33 : ℕ) : ℝ) := by
        rw [div_lt_iff₀ (by norm_num)]
        norm_num
        linarith
      have := (Nat.floor_lt (div_nonneg (by linarith) (by norm_num))).mpr hlt
      omega)
  rw [h, hb]

/-- C20 fails after one `rotateTowards` call: the heading `π` and the target
angle `1 - π` both lie in `(-π, π]`, the error is 1, and the call leaves the
heading at `π + 0.048`, above `π`. -/
theorem rotateTowards_leaves_interval :
    withRealMath fun Math =>
      -Math.PI < ((sampleAgent AIState.patrol (75 : ℝ)).facing Math.PI 0).angle ∧
      ((sampleAgent AIState.patrol (75 : ℝ)).facing Math.PI 0).angle ≤ Math.PI ∧
      -Math.PI < 1 - Math.PI ∧ 1 - Math.PI ≤ Math.PI ∧
      (rotateTowards Math ((sampleAgent AIState.patrol (75 : ℝ)).facing Math.PI 0)
        (1 - Math.PI)).angle = Math.PI + 0.048 ∧
      ¬ (rotateTowards Math ((sampleAgent AIState.patrol (75 : ℝ)).facing Math.PI 0)
        (1 - Math.PI)).angle ≤ Math.PI := by
  apply withRealMath_intro
  intro Math hM
  obtain ⟨hp1, hp2⟩ := hM.pi_bounds
  have hn : normalizeAngle Math.PI Math.PI_pos
      (1 - Math.PI - ((sampleAgent AIState.patrol (75 : ℝ)).facing Math.PI 0).angle) = 1 := by
    apply normalizeAngle_eq_of_congr Math.PI Math.PI_pos _ 1 (-1) (by linarith) (by linarith)
    simp only [Enemy.facing]
    push_cast
    ring
  have hs : Math.sign (1 : ℝ) = 1 := by
    unfold JSMath.sign
    rw [if_pos one_pos]
  have hstep : (rotateTowards Math ((sampleAgent AIState.patrol (75 : ℝ)).facing Math.PI 0)
      (1 - Math.PI)).angle = Math.PI + 0.048 := by
    rw [rotateTowards_angle_of_not_lt, hn, hs]
    · norm_num [sampleAgent, Enemy.new, Enemy.facing]
    · rw [hn]
      norm_num [sampleAgent, Enemy.new, Enemy.facing]
  refine ⟨?_, ?_, by linarith, by linarith, hstep, ?_⟩
  · show -Math.PI < Math.PI
    linarith
  · exact le_rfl
  · rw [hstep]
    norm_num

end RealScenarios

section Health

variable {R : Type} [LinearOrderedField R]

/-- The health after `takeDamage` and after `heal`. -/
theorem health_after (e : Enemy R) (v : R) :
    (takeDamage e v).health = max 0 (e.health - v) ∧
    (takeDamage e v).maxHealth = e.maxHealth ∧
    (heal e v).health = min e.maxHealth (e.health + v) ∧
    (heal e v).maxHealth = e.maxHealth := by
  refine ⟨?_, ?_, rfl, rfl⟩
  · unfold takeDamage
    dsimp only
    split
    · next h => exact (max_eq_left h.le).symm
    · next h => exact (max_eq_right (not_lt.mp h)).symm
  · unfold takeDamage
    dsimp only
    split <;> rfl

/-- One `takeDamage` or `heal` call with a non-negative argument keeps `0 ≤
health ≤ maxHealth`. -/
theorem health_bounds_step (e : Enemy R) (v : R) (hv : 0 ≤ v) (h0 : 0 ≤ e.health)
    (h1 : e.health ≤ e.maxHealth) :
    (0 ≤ (takeDamage e v).health ∧ (takeDamage e v).health ≤ (takeDamage e v).maxHealth) ∧
    (0 ≤ (heal e v).health ∧ (heal e v).health ≤ (heal e v).maxHealth) := by
  obtain ⟨t1, t2, t3, t4⟩ := health_after e v
  rw [t1, t2, t3, t4]
  refine ⟨⟨le_max_left _ _, max_le (h0.trans h1) (by linarith)⟩,
    ⟨le_min (h0.trans h1) (by linarith), min_le_left _ _⟩⟩

/-- Every sequence of `takeDamage` and `heal` calls with non-negative arguments
keeps `0 ≤ health ≤ maxHealth`. -/
theorem health_bounds_run (calls : List (HealthCall R)) :
    ∀ e : Enemy R, 0 ≤ e.health → e.health ≤ e.maxHealth →
      (∀ c ∈ calls, match c with
        | HealthCall.takeDamage damage => 0 ≤ damage
        | HealthCall.heal amount => 0 ≤ amount) →
      0 ≤ (applyHealthCalls e calls).health ∧
        (applyHealthCalls e calls).health ≤ (applyHealthCalls e calls).maxHealth := by
  induction calls with
  | nil => intro e h0 h1 _; exact ⟨h0, h1⟩
  | cons c rest ih =>
    intro e h0 h1 hc
    have hrest := fun c' hc' => hc c' (List.mem_cons_of_mem _ hc')
    have hhead := hc c (List.mem_cons_self _ _)
    cases c with
    | takeDamage damage =>
      obtain ⟨⟨a, b⟩, -⟩ := health_bounds_step e damage hhead h0 h1
      exact ih _ a b hrest
    | heal amount =>
      obtain ⟨-, ⟨a, b⟩⟩ := health_bounds_step e amount hhead h0 h1
      exact ih _ a b hrest

/-- C25. A new enemy has `health = maxHealth = 75`. `takeDamage(d)` leaves
`health = max(0, health - d)` and `heal(a)` leaves `health = min(maxHealth,
health + a)`, neither changes `maxHealth`, and from `0 ≤ health ≤ maxHealth`
every sequence of `takeDamage` and `heal` calls with non-negative arguments ends
with `0 ≤ health ≤ maxHealth`. -/
theorem health_invariant (e : Enemy R) (calls : List (HealthCall R)) (x y angle v : R)
    (route : List (Point R)) :
    ((Enemy.new x y angle route).health = 75 ∧ (Enemy.new x y angle route).maxHealth = 75) ∧
    (takeDamage e v).health = max 0 (e.health - v) ∧
    (heal e v).health = min e.maxHealth (e.health + v) ∧
    (0 ≤ e.health → e.health ≤ e.maxHealth →
      (∀ c ∈ calls, match c with
        | HealthCall.takeDamage damage => 0 ≤ damage
        | HealthCall.heal amount => 0 ≤ amount) →
      0 ≤ (applyHealthCalls e calls).health ∧
        (applyHealthCalls e calls).health ≤ (applyHealthCalls e calls).maxHealth) :=
  ⟨⟨rfl, rfl⟩, (health_after e v).1, (health_after e v).2.2.1, health_bounds_run calls e⟩

end Health

section RetreatAbsorbing

variable {R : Type} [LinearOrderedField R]

/-- The state retreat is entered by the health test only. -/
theorem transition_enters_retreat (e : Enemy R) (d : R) (b : Bool)
    (hne : e.state ≠ AIState.retreat) (h : (transition e d b).state = AIState.retreat) :
    e.health < e.fleeHealthThreshold := by
  cases hs : e.state with
  | patrol =>
    rw [transition_patrol_state e d b hs] at h
    split_ifs at h
  | chase =>
    rw [transition_chase_state e d b hs] at h
    split_ifs at h with h1 h2 h3
    exact h3
  | attack =>
    rw [transition_attack_state e d b hs] at h
    split_ifs at h with h1 h2 h3
    exact h2
  | retreat => exact absurd hs hne

/-- From retreat with `health ≤ 1.5 * fleeHealthThreshold` the state after
`updateAI` is retreat. -/
theorem updateAI_stays_retreat (sqrt : R → R) (now : R) (e : Enemy R) (deltaTime : R)
    (player : Target R) (obstacles : List (Obstacle R)) (hs : e.state = AIState.retreat)
    (hh : e.health ≤ e.fleeHealthThreshold * 1.5) :
    (updateAI sqrt now e deltaTime player obstacles).state = AIState.retreat := by
  obtain ⟨ms, mh, mf, -, -⟩ :=
    updateMemory_fields e deltaTime player (canSeeTarget e player obstacles)
  rw [updateAI_state_eq, transition_retreat_state _ _ _ (ms.trans hs), mh, mf,
    if_neg (fun hc => absurd hc.1 (not_lt.mpr hh))]

/-- A run in retreat with health at most `1.5 * fleeHealthThreshold` and never
going up stays in retreat. -/
theorem healthRun_stays_retreat (sqrt : R → R) (ticks : List (R × Tick R)) :
    ∀ e : Enemy R, e.state = AIState.retreat →
      e.health ≤ e.fleeHealthThreshold * 1.5 →
      healthNeverUp e.health ticks = true →
      (healthRun sqrt e ticks).state = AIState.retreat := by
  induction ticks with
  | nil => intro e hs _ _; exact hs
  | cons t rest ih =>
    intro e hs hh hup
    simp only [healthNeverUp, Bool.and_eq_true, decide_eq_true_eq] at hup
    obtain ⟨hle, hrest⟩ := hup
    obtain ⟨kh, kf, -, -⟩ := updateAI_keeps sqrt t.2.now { e with health := t.1 }
      t.2.deltaTime t.2.player t.2.obstacles
    have hstep : (healthStep sqrt e t).state = AIState.retreat :=
      updateAI_stays_retreat sqrt t.2.now { e with health := t.1 } t.2.deltaTime t.2.player
        t.2.obstacles hs (le_trans hle hh)
    have hh' : (healthStep sqrt e t).health ≤ (healthStep sqrt e t).fleeHealthThreshold * 1.5 := by
      unfold healthStep
      rw [kh, kf]
      exact le_trans hle hh
    have hup' : healthNeverUp (healthStep sqrt e t).health rest = true := by
      unfold healthStep
      rw [kh]
      exact hrest
    exact ih _ hstep hh' hup'

/-- A run of health values that never goes up does not go up on a prefix. -/
theorem healthNeverUp_take (ticks : List (R × Tick R)) :
    ∀ (h : R) (n : Nat), healthNeverUp h ticks = true →
      healthNeverUp h (ticks.take n) = true := by
  induction ticks with
  | nil => intro h n hup; simpa using hup
  | cons t rest ih =>
    intro h n hup
    cases n with
    | zero => rfl
    | succ n =>
      simp only [List.take_succ_cons, healthNeverUp, Bool.and_eq_true] at hup ⊢
      exact ⟨hup.1, ih _ n hup.2⟩

/-- C29. With `fleeHealthThreshold ≥ 0`: `updateAI` takes an agent from another
state to retreat only when `health < fleeHealthThreshold`; from retreat with
`health ≤ 1.5 * fleeHealthThreshold` it keeps the state retreat, for every
distance, visibility and `deltaTime`; and on every run of `updateAI` calls that
starts in retreat with `health < fleeHealthThreshold` (as it is on entry) and on
which the health never goes up, the state is retreat after every tick. -/
theorem retreat_absorbing (sqrt : R → R) (now : R) (e : Enemy R) (deltaTime : R)
    (player : Target R) (obstacles : List (Obstacle R)) (ticks : List (R × Tick R)) (n : Nat)
    (hflee : 0 ≤ e.fleeHealthThreshold) :
    (e.state ≠ AIState.retreat →
      (updateAI sqrt now e deltaTime player obstacles).state = AIState.retreat →
      e.health < e.fleeHealthThreshold) ∧
    (e.state = AIState.retreat → e.health ≤ e.fleeHealthThreshold * 1.5 →
      (updateAI sqrt now e deltaTime player obstacles).state = AIState.retreat) ∧
    (e.state = AIState.retreat → e.health < e.fleeHealthThreshold →
      healthNeverUp e.health ticks = true →
      (healthRun sqrt e (ticks.take n)).state = AIState.retreat) := by
  refine ⟨fun hne h => ?_, updateAI_stays_retreat sqrt now e deltaTime player obstacles,
    fun hs hh hup => ?_⟩
  · obtain ⟨ms, mh, mf, -, -⟩ :=
      updateMemory_fields e deltaTime player (canSeeTarget e player obstacles)
    rw [updateAI_state_eq] at h
    have := transition_enters_retreat _ _ _ (by rw [ms]; exact hne) h
    rwa [mh, mf] at this
  · have h15 : e.health ≤ e.fleeHealthThreshold * 1.5 := by
      have : e.fleeHealthThreshold ≤ e.fleeHealthThreshold * 1.5 := by nlinarith
      linarith
    apply healthRun_stays_retreat sqrt _ e hs h15
    exact healthNeverUp_take ticks e.health n hup

end RetreatAbsorbing

section Stuck

variable {R : Type} [LinearOrderedField R]

/-- What `checkIfStuck` writes: the timer, the heading and `lastPosition`. -/
theorem checkIfStuck_fields (Math : JSMath R) (r : R) (e : Enemy R) (deltaTime : R) :
    (checkIfStuck Math r e deltaTime).stuckTime =
      (if (if getDistanceTo Math.sqrt e e.lastPosition < 5 then e.stuckTime + deltaTime
          else 0) > 2.0 then 0
        else if getDistanceTo Math.sqrt e e.lastPosition < 5 then e.stuckTime + deltaTime
          else 0) ∧
    (checkIfStuck Math r e deltaTime).angle =
      (if (if getDistanceTo Math.sqrt e e.lastPosition < 5 then e.stuckTime + deltaTime
          else 0) > 2.0 then e.angle + (r - 0.5) * Math.PI
        else e.angle) ∧
    (checkIfStuck Math r e deltaTime).lastPosition = ⟨e.x, e.y⟩ ∧
    (checkIfStuck Math r e deltaTime).x = e.x ∧
    (checkIfStuck Math r e deltaTime).y = e.y := by
  unfold checkIfStuck
  dsimp only
  by_cases h1 : getDistanceTo Math.sqrt e e.lastPosition < 5
  · rw [if_pos h1]
    by_cases h2 : e.stuckTime + deltaTime > 2.0
    · rw [if_pos h2]
      dsimp only
      rw [if_pos h1, if_pos h2, if_pos h2]
      exact ⟨rfl, rfl, rfl, rfl, rfl⟩
    · rw [if_neg h2]
      dsimp only
      rw [if_pos h1, if_neg h2, if_neg h2]
      exact ⟨rfl, rfl, rfl, rfl, rfl⟩
  · rw [if_neg h1]
    have h2 : ¬ (0 : R) > 2.0 := by norm_num
    rw [if_neg h2]
    dsimp only
    rw [if_neg h1, if_neg h2, if_neg h2]
    exact ⟨rfl, rfl, rfl, rfl, rfl⟩

/-- A tick with a displacement of 5 units or more resets the timer and does not
kick the heading. -/
theorem checkIfStuck_far (Math : JSMath R) (r : R) (e : Enemy R) (deltaTime : R)
    (h : ¬ getDistanceTo Math.sqrt e e.lastPosition < 5) :
    (checkIfStuck Math r e deltaTime).stuckTime = 0 ∧
    (checkIfStuck Math r e deltaTime).angle = e.angle := by
  obtain ⟨h1, h2, -⟩ := checkIfStuck_fields Math r e deltaTime
  have h3 : ¬ (0 : R) > 2.0 := by norm_num
  rw [h1, h2, if_neg h, if_neg h3, if_neg h3]
  exact ⟨rfl, rfl⟩

end Stuck

section GuardedWrites

variable {R : Type}

/-- A guarded write of `x` and the velocity, after writes of the position and
the velocity: the value of `x` it leaves. -/
theorem guarded_x_step (e : Enemy R) (c : R → Prop) [DecidablePred c] (f : R)
    (g : Enemy R → Point R) (e1 : Enemy R) (a b : R)
    (h : ∃ v, e1 = { e with x := a, y := b, velocity := v }) :
    ∃ v, (if c e1.x then { e1 with x := f, velocity := g e1 } else e1) =
      { e with x := (if c a then f else a), y := b, velocity := v } := by
  obtain ⟨v, rfl⟩ := h
  by_cases hc : c a
  · rw [if_pos hc, if_pos hc]
    exact ⟨_, rfl⟩
  · rw [if_neg hc, if_neg hc]
    exact ⟨v, rfl⟩

/-- A guarded write of `y` and the velocity, after writes of the position and
the velocity: the value of `y` it leaves. -/
theorem guarded_y_step (e : Enemy R) (c : R → Prop) [DecidablePred c] (f : R)
    (g : Enemy R → Point R) (e1 : Enemy R) (a b : R)
    (h : ∃ v, e1 = { e with x := a, y := b, velocity := v }) :
    ∃ v, (if c e1.y then { e1 with y := f, velocity := g e1 } else e1) =
      { e with x := a, y := (if c b then f else b), velocity := v } := by
  obtain ⟨v, rfl⟩ := h
  by_cases hc : c b
  · rw [if_pos hc, if_pos hc]
    exact ⟨_, rfl⟩
  · rw [if_neg hc, if_neg hc]
    exact ⟨v, rfl⟩

end GuardedWrites

section PlainFrames

variable {R : Type} [LinearOrderedField R]

/-- `shoot` writes the muzzle flash, the velocity and `lastShotTime` only. -/
theorem shoot_frame (Math : JSMath R) (now : R) (e : Enemy R) :
    (shoot Math now e).1 =
      { e with
        muzzleFlash := (shoot Math now e).1.muzzleFlash
        velocity := (shoot Math now e).1.velocity
        lastShotTime := (shoot Math now e).1.lastShotTime } := by
  unfold shoot
  dsimp only
  by_cases h : now / 1000 - e.lastShotTime < (if e.hasRapidFire then e.fireRate * 0.3
    else e.fireRate)
  · rw [if_pos h]
  · rw [if_neg h]

/-- `constrainToWorld` clamps `x` to `[30, worldWidth - 30]` and `y` to `[30,
worldHeight - 30]`, the lower bound first, and writes nothing else but the
velocity. -/
theorem constrainToWorld_some (game : World R) (e : Enemy R) :
    ∃ v, constrainToWorld (some game) e =
      { e with
        x := (if (if e.x < 30 then 30 else e.x) > game.worldWidth - 30 then game.worldWidth - 30
          else if e.x < 30 then 30 else e.x)
        y := (if (if e.y < 30 then 30 else e.y) > game.worldHeight - 30 then
            game.worldHeight - 30
          else if e.y < 30 then 30 else e.y)
        velocity := v } := by
  unfold constrainToWorld
  exact guarded_y_step e (fun t => t > game.worldHeight - 30)
    (game.worldHeight - 30) (fun a => ⟨a.velocity.x, -|a.velocity.y|⟩) _ _ _
    (guarded_y_step e (fun t => t < 30) 30
      (fun a => ⟨a.velocity.x, |a.velocity.y|⟩) _ _ _
      (guarded_x_step e (fun t => t > game.worldWidth - 30)
        (game.worldWidth - 30) (fun a => ⟨-|a.velocity.x|, a.velocity.y⟩) _ _ _
        (guarded_x_step e (fun t => t < 30) 30
          (fun a => ⟨|a.velocity.x|, a.velocity.y⟩) e e.x e.y ⟨e.velocity, rfl⟩)))

/-- `constrainToWorld` writes the position and the velocity only. -/
theorem constrainToWorld_frame (game : Option (World R)) (e : Enemy R) :
    constrainToWorld game e =
      { e with
        x := (constrainToWorld game e).x
        y := (constrainToWorld game e).y
        velocity := (constrainToWorld game e).velocity } := by
  cases game with
  | none => rfl
  | some game =>
    obtain ⟨v, h⟩ := constrainToWorld_some game e
    rw [h]

/-- `checkIfStuck` writes the heading, `stuckTime` and `lastPosition` only. -/
theorem checkIfStuck_frame (Math : JSMath R) (r : R) (e : Enemy R) (deltaTime : R) :
    checkIfStuck Math r e deltaTime =
      { e with
        angle := (checkIfStuck Math r e deltaTime).angle
        stuckTime := (checkIfStuck Math r e deltaTime).stuckTime
        lastPosition := (checkIfStuck Math r e deltaTime).lastPosition } := by
  unfold checkIfStuck
  dsimp only
  split_ifs <;> rfl

/-- The movement half of `update` writes the position, the velocity, the
heading, `stuckTime` and `lastPosition` only. -/
theorem moveAndCheck_frame (Math : JSMath R) (game : World R) (rStuck : R) (e : Enemy R)
    (deltaTime : R) :
    moveAndCheck Math game rStuck e deltaTime =
      { e with
        x := (moveAndCheck Math game rStuck e deltaTime).x
        y := (moveAndCheck Math game rStuck e deltaTime).y
        velocity := (moveAndCheck Math game rStuck e deltaTime).velocity
        angle := (moveAndCheck Math game rStuck e deltaTime).angle
        stuckTime := (moveAndCheck Math game rStuck e deltaTime).stuckTime
        lastPosition := (moveAndCheck Math game rStuck e deltaTime).lastPosition } := by
  unfold moveAndCheck
  rw [checkIfStuck_frame, constrainToWorld_frame]
  unfold updateMovement
  rfl

end PlainFrames

section Frames

variable {R : Type} [LinearOrderedField R] [FloorRing R]

/-- `rotateTowards` writes the heading only. -/
theorem rotateTowards_frame (Math : JSMath R) (e : Enemy R) (targetAngle : R) :
    rotateTowards Math e targetAngle =
      { e with angle := (rotateTowards Math e targetAngle).angle } := by
  unfold rotateTowards
  dsimp only
  split <;> rfl

/-- `moveTowards` writes the heading and the velocity only. -/
theorem moveTowards_frame (Math : JSMath R) (e : Enemy R) (target : Point R)
    (obstacles : List (Obstacle R)) :
    moveTowards Math e target obstacles =
      { e with
        angle := (moveTowards Math e target obstacles).angle
        velocity := (moveTowards Math e target obstacles).velocity } := by
  unfold moveTowards
  dsimp only
  by_cases h : getDistanceTo Math.sqrt e target < 10
  · rw [if_pos h]
  · rw [if_neg h]
    unfold accelerate
    generalize (match getObstacleAvoidanceVector Math e obstacles with
      | some obstacleAvoidance =>
        Math.atan2 (target.y - e.y) (target.x - e.x) + obstacleAvoidance * 0.5
      | none => Math.atan2 (target.y - e.y) (target.x - e.x)) = a
    rw [rotateTowards_frame]

/-- `aimAt` writes the turret angle only. -/
theorem aimAt_frame (Math : JSMath R) (r : R) (e : Enemy R) (target : Target R) :
    aimAt Math r e target = { e with turretAngle := (aimAt Math r e target).turretAngle } := by
  unfold aimAt
  dsimp only
  split <;> rfl

/-- `attemptShoot` writes the muzzle flash, the velocity and `lastShotTime`
only. -/
theorem attemptShoot_frame (Math : JSMath R) (nowAttempt nowShoot : R) (e : Enemy R)
    (target : Target R) :
    (attemptShoot Math nowAttempt nowShoot e target).1 =
      { e with
        muzzleFlash := (attemptShoot Math nowAttempt nowShoot e target).1.muzzleFlash
        velocity := (attemptShoot Math nowAttempt nowShoot e target).1.velocity
        lastShotTime := (attemptShoot Math nowAttempt nowShoot e target).1.lastShotTime } := by
  unfold attemptShoot
  dsimp only
  split
  · rfl
  · split
    · exact shoot_frame Math nowShoot e
    · rfl

/-- `executePatrol` writes the heading, the velocity and the waypoint index
only. -/
theorem executePatrol_frame (Math : JSMath R) (e e1 : Enemy R) (deltaTime : R)
    (obstacles : List (Obstacle R)) (h : executePatrol Math e deltaTime obstacles = some e1) :
    e1 = { e with
      angle := e1.angle
      velocity := e1.velocity
      currentPatrolIndex := e1.currentPatrolIndex } := by
  unfold executePatrol at h
  by_cases h0 : e.patrolPoints.length = 0
  · rw [if_pos h0] at h
    cases h
    rfl
  · rw [if_neg h0] at h
    cases hp : e.patrolPoints[e.currentPatrolIndex]? with
    | none => rw [hp] at h; cases h
    | some targetPoint =>
      rw [hp] at h
      dsimp only at h
      by_cases hd : getDistanceTo Math.sqrt e targetPoint < 50
      · rw [if_pos hd] at h
        cases h
        rfl
      · rw [if_neg hd] at h
        cases h
        rw [moveTowards_frame]

/-- `executePatrol` returns exactly when the route is empty or the waypoint
index is inside it. -/
theorem executePatrol_isSome (Math : JSMath R) (e : Enemy R) (deltaTime : R)
    (obstacles : List (Obstacle R)) :
    (executePatrol Math e deltaTime obstacles).isSome = true ↔
      (e.patrolPoints.length = 0 ∨ e.currentPatrolIndex < e.patrolPoints.length) := by
  unfold executePatrol
  by_cases h0 : e.patrolPoints.length = 0
  · rw [if_pos h0]
    exact ⟨fun _ => Or.inl h0, fun _ => rfl⟩
  · rw [if_neg h0]
    by_cases hi : e.currentPatrolIndex < e.patrolPoints.length
    · rw [List.getElem?_eq_getElem hi]
      dsimp only
      constructor
      · intro _
        exact Or.inr hi
      · intro _
        split <;> rfl
    · rw [List.getElem?_eq_none (not_lt.mp hi)]
      constructor
      · intro h
        cases h
      · rintro (h | h)
        · exact absurd h h0
        · exact absurd h hi

/-- `executeChase` writes the heading, the velocity and the turret angle
only. -/
theorem executeChase_frame (Math : JSMath R) (rAim : R) (e : Enemy R) (deltaTime : R)
    (player : Target R) (obstacles : List (Obstacle R)) :
    executeChase Math rAim e deltaTime player obstacles =
      { e with
        angle := (executeChase Math rAim e deltaTime player obstacles).angle
        velocity := (executeChase Math rAim e deltaTime player obstacles).velocity
        turretAngle := (executeChase Math rAim e deltaTime player obstacles).turretAngle } := by
  unfold executeChase
  dsimp only
  split
  · rw [aimAt_frame, moveTowards_frame]
  · rw [moveTowards_frame]

/-- The movement step of `executeAttack` writes the heading, the velocity and
`targetPosition` only. -/
theorem attackMove_frame (Math : JSMath R) (rStrafe : R) (e : Enemy R) (deltaTime : R)
    (player : Target R) (obstacles : List (Obstacle R)) (e1 : Enemy R)
    (h : e1 = if getDistanceTo Math.sqrt e player.pos < e.attackRange * 0.7 then
        moveTowards Math e (calculateRetreatPoint Math e player) obstacles
      else if getDistanceTo Math.sqrt e player.pos > e.attackRange then
        moveTowards Math e player.pos obstacles
      else executeStrafe Math rStrafe e deltaTime player) :
    e1 = { e with
      angle := e1.angle
      velocity := e1.velocity
      targetPosition := e1.targetPosition } := by
  subst h
  split
  · rw [moveTowards_frame]
  · split
    · rw [moveTowards_frame]
    · rfl

/-- `executeAttack` leaves alone every field but the heading, the velocity,
`targetPosition`, the turret angle, the muzzle flash and `lastShotTime`. -/
theorem executeAttack_frame (Math : JSMath R) (rStrafe rAim nowAttempt nowShoot : R)
    (e : Enemy R) (deltaTime : R) (player : Target R) (obstacles : List (Obstacle R)) :
    (executeAttack Math rStrafe rAim nowAttempt nowShoot e deltaTime player obstacles).1 =
      { e with
        angle := (executeAttack Math rStrafe rAim nowAttempt nowShoot e deltaTime player
          obstacles).1.angle
        velocity := (executeAttack Math rStrafe rAim nowAttempt nowShoot e deltaTime player
          obstacles).1.velocity
        targetPosition := (executeAttack Math rStrafe rAim nowAttempt nowShoot e deltaTime
          player obstacles).1.targetPosition
        turretAngle := (executeAttack Math rStrafe rAim nowAttempt nowShoot e deltaTime player
          obstacles).1.turretAngle
        muzzleFlash := (executeAttack Math rStrafe rAim nowAttempt nowShoot e deltaTime player
          obstacles).1.muzzleFlash
        lastShotTime := (executeAttack Math rStrafe rAim nowAttempt nowShoot e deltaTime player
          obstacles).1.lastShotTime } := by
  unfold executeAttack
  dsimp only
  have hm := attackMove_frame Math rStrafe e deltaTime player obstacles _ rfl
  generalize (if getDistanceTo Math.sqrt e player.pos < e.attackRange * 0.7 then
        moveTowards Math e (calculateRetreatPoint Math e player) obstacles
      else if getDistanceTo Math.sqrt e player.pos > e.attackRange then
        moveTowards Math e player.pos obstacles
      else executeStrafe Math rStrafe e deltaTime player) = e1 at hm ⊢
  split
  · rw [attemptShoot_frame, aimAt_frame]
    rw [hm]
  · dsimp only
    rw [hm]

/-- `executeRetreat` leaves alone every field but the heading, the velocity,
the turret angle, the muzzle flash and `lastShotTime`. -/
theorem executeRetreat_frame (Math : JSMath R) (rRetreat rAim nowAttempt nowShoot : R)
    (e : Enemy R) (deltaTime : R) (player : Target R) (obstacles : List (Obstacle R)) :
    (executeRetreat Math rRetreat rAim nowAttempt nowShoot e deltaTime player obstacles).1 =
      { e with
        angle := (executeRetreat Math rRetreat rAim nowAttempt nowShoot e deltaTime player
          obstacles).1.angle
        velocity := (executeRetreat Math rRetreat rAim nowAttempt nowShoot e deltaTime player
          obstacles).1.velocity
        turretAngle := (executeRetreat Math rRetreat rAim nowAttempt nowShoot e deltaTime player
          obstacles).1.turretAngle
        muzzleFlash := (executeRetreat Math rRetreat rAim nowAttempt nowShoot e deltaTime player
          obstacles).1.muzzleFlash
        lastShotTime := (executeRetreat Math rRetreat rAim nowAttempt nowShoot e deltaTime player
          obstacles).1.lastShotTime } := by
  unfold executeRetreat
  dsimp only
  split
  · rw [attemptShoot_frame, aimAt_frame, moveTowards_frame]
  · dsimp only
    rw [moveTowards_frame]

/-- `executeBehavior` leaves alone every field but the heading, the velocity,
`targetPosition`, the turret angle, the muzzle flash, `lastShotTime` and the
waypoint index. -/
theorem executeBehavior_frame (Math : JSMath R) (host : HostValues R) (e : Enemy R)
    (deltaTime : R) (player : Target R) (obstacles : List (Obstacle R)) (e1 : Enemy R)
    (projectile : Option (Projectile R))
    (h : executeBehavior Math host e deltaTime player obstacles = some (e1, projectile)) :
    e1 = { e with
      angle := e1.angle
      velocity := e1.velocity
      targetPosition := e1.targetPosition
      turretAngle := e1.turretAngle
      muzzleFlash := e1.muzzleFlash
      lastShotTime := e1.lastShotTime
      currentPatrolIndex := e1.currentPatrolIndex } := by
  unfold executeBehavior at h
  split at h
  · cases hp : executePatrol Math e deltaTime obstacles with
    | none => rw [hp] at h; cases h
    | some a =>
      rw [hp] at h
      cases h
      have hf : ∃ a v i, e1 = { e with angle := a, velocity := v, currentPatrolIndex := i } :=
        ⟨_, _, _, executePatrol_frame Math e e1 deltaTime obstacles hp⟩
      obtain ⟨a, v, i, rfl⟩ := hf
      rfl
  · cases h
    rw [executeChase_frame]
  · have hf := executeAttack_frame Math host.rStrafe host.rAim host.nowAttempt host.nowShoot e
      deltaTime player obstacles
    cases hr : executeAttack Math host.rStrafe host.rAim host.nowAttempt host.nowShoot e
      deltaTime player obstacles with
    | mk a b =>
      rw [hr] at h hf
      cases h
      dsimp only at hf
      have hg : ∃ a v p t m l, e1 =
          { e with
            angle := a
            velocity := v
            targetPosition := p
            turretAngle := t
            muzzleFlash := m
            lastShotTime := l } :=
        ⟨_, _, _, _, _, _, hf⟩
      obtain ⟨a, v, p, t, m, l, rfl⟩ := hg
      rfl
  · have hf := executeRetreat_frame Math host.rRetreat host.rAim host.nowAttempt host.nowShoot e
      deltaTime player obstacles
    cases hr : executeRetreat Math host.rRetreat host.rAim host.nowAttempt host.nowShoot e
      deltaTime player obstacles with
    | mk a b =>
      rw [hr] at h hf
      cases h
      dsimp only at hf
      have hg : ∃ a v t m l, e1 =
          { e with
            angle := a
            velocity := v
            turretAngle := t
            muzzleFlash := m
            lastShotTime := l } :=
        ⟨_, _, _, _, _, hf⟩
      obtain ⟨a, v, t, m, l, rfl⟩ := hg
      rfl

end Frames

section Movement

/-- The two branches of the speed limit of `updateMovement`, and the position
it writes. -/
theorem updateMovement_fields {R : Type} [LinearOrderedField R] (Math : JSMath R) (e : Enemy R)
    (deltaTime : R) :
    (updateMovement Math e deltaTime).velocity =
      (if Math.sqrt (e.velocity.x * e.friction * (e.velocity.x * e.friction) +
          e.velocity.y * e.friction * (e.velocity.y * e.friction)) > e.speed then
        ⟨e.velocity.x * e.friction /
            Math.sqrt (e.velocity.x * e.friction * (e.velocity.x * e.friction) +
              e.velocity.y * e.friction * (e.velocity.y * e.friction)) * e.speed,
          e.velocity.y * e.friction /
            Math.sqrt (e.velocity.x * e.friction * (e.velocity.x * e.friction) +
              e.velocity.y * e.friction * (e.velocity.y * e.friction)) * e.speed⟩
      else ⟨e.velocity.x * e.friction, e.velocity.y * e.friction⟩) ∧
    (updateMovement Math e deltaTime).x =
      e.x + (updateMovement Math e deltaTime).velocity.x * deltaTime ∧
    (updateMovement Math e deltaTime).y =
      e.y + (updateMovement Math e deltaTime).velocity.y * deltaTime :=
  ⟨rfl, rfl, rfl⟩

/-- After the speed limit the velocity is no longer than `speed`. -/
theorem updateMovement_speed_sq (Math : JSMath ℝ) (hM : Math.IsReal) (e : Enemy ℝ)
    (deltaTime : ℝ) (hspeed : 0 ≤ e.speed) :
    (updateMovement Math e deltaTime).velocity.x ^ 2 +
      (updateMovement Math e deltaTime).velocity.y ^ 2 ≤ e.speed ^ 2 := by
  rw [(updateMovement_fields Math e deltaTime).1, hM.2.1]
  generalize e.velocity.x * e.friction = vx
  generalize e.velocity.y * e.friction = vy
  have hnn : 0 ≤ vx * vx + vy * vy := add_nonneg (mul_self_nonneg _) (mul_self_nonneg _)
  have hsq : Real.sqrt (vx * vx + vy * vy) ^ 2 = vx * vx + vy * vy := Real.sq_sqrt hnn
  by_cases h : Real.sqrt (vx * vx + vy * vy) > e.speed
  · rw [if_pos h]
    have hpos : 0 < Real.sqrt (vx * vx + vy * vy) := lt_of_le_of_lt hspeed h
    dsimp only
    have : (vx / Real.sqrt (vx * vx + vy * vy) * e.speed) ^ 2 +
        (vy / Real.sqrt (vx * vx + vy * vy) * e.speed) ^ 2 =
        (vx * vx + vy * vy) / Real.sqrt (vx * vx + vy * vy) ^ 2 * e.speed ^ 2 := by
      field_simp
      ring
    have hs : 0 < vx * vx + vy * vy := by
      have := pow_pos hpos 2
      rwa [hsq] at this
    rw [this, hsq, div_self hs.ne', one_mul]
  · rw [if_neg h]
    dsimp only
    have hle : Real.sqrt (vx * vx + vy * vy) ≤ e.speed := not_lt.mp h
    have := pow_le_pow_left₀ (Real.sqrt_nonneg _) hle 2
    rw [hsq] at this
    linarith

/-- Clamping a coordinate to an interval that holds the old coordinate does not
take it further from the old coordinate. -/
theorem clamp_sq_le (x x1 lo hi : ℝ) (h0 : lo ≤ x) (h1 : x ≤ hi) :
    (x - (if (if x1 < lo then lo else x1) > hi then hi else if x1 < lo then lo else x1)) ^ 2 ≤
      (x - x1) ^ 2 := by
  apply sq_le_sq.mpr
  split_ifs <;> rw [abs_le] <;> constructor <;> cases abs_cases (x - x1) <;> linarith

/-- C27. `updateMovement` divides by `currentSpeed` only in the branch taken
when `currentSpeed > speed`, where, for `speed ≥ 0`, the divisor is strictly
positive; in the other branch the velocity is the one friction leaves. When
`currentSpeed` is zero the second branch is taken and the position is
unchanged. -/
theorem updateMovement_no_zero_division (Math : JSMath ℝ) (hM : Math.IsReal) (e : Enemy ℝ)
    (deltaTime : ℝ) (hspeed : 0 ≤ e.speed) :
    (Math.sqrt (e.velocity.x * e.friction * (e.velocity.x * e.friction) +
        e.velocity.y * e.friction * (e.velocity.y * e.friction)) > e.speed →
      0 < Math.sqrt (e.velocity.x * e.friction * (e.velocity.x * e.friction) +
        e.velocity.y * e.friction * (e.velocity.y * e.friction)) ∧
      (updateMovement Math e deltaTime).velocity =
        ⟨e.velocity.x * e.friction /
            Math.sqrt (e.velocity.x * e.friction * (e.velocity.x * e.friction) +
              e.velocity.y * e.friction * (e.velocity.y * e.friction)) * e.speed,
          e.velocity.y * e.friction /
            Math.sqrt (e.velocity.x * e.friction * (e.velocity.x * e.friction) +
              e.velocity.y * e.friction * (e.velocity.y * e.friction)) * e.speed⟩) ∧
    (¬ Math.sqrt (e.velocity.x * e.friction * (e.velocity.x * e.friction) +
        e.velocity.y * e.friction * (e.velocity.y * e.friction)) > e.speed →
      (updateMovement Math e deltaTime).velocity =
        ⟨e.velocity.x * e.friction, e.velocity.y * e.friction⟩) ∧
    (Math.sqrt (e.velocity.x * e.friction * (e.velocity.x * e.friction) +
        e.velocity.y * e.friction * (e.velocity.y * e.friction)) = 0 →
      (updateMovement Math e deltaTime).velocity =
        ⟨e.velocity.x * e.friction, e.velocity.y * e.friction⟩ ∧
      (updateMovement Math e deltaTime).x = e.x ∧
      (updateMovement Math e deltaTime).y = e.y) := by
  obtain ⟨hv, hx, hy⟩ := updateMovement_fields Math e deltaTime
  refine ⟨fun h => ⟨lt_of_le_of_lt hspeed h, ?_⟩, fun h => ?_, fun h => ?_⟩
  · rw [hv, if_pos h]
  · rw [hv, if_neg h]
  · have hno : ¬ Math.sqrt (e.velocity.x * e.friction * (e.velocity.x * e.friction) +
        e.velocity.y * e.friction * (e.velocity.y * e.friction)) > e.speed := by
      rw [h]
      exact not_lt.mpr hspeed
    have hvel : (updateMovement Math e deltaTime).velocity =
        ⟨e.velocity.x * e.friction, e.velocity.y * e.friction⟩ := by
      rw [hv, if_neg hno]
    rw [hM.2.1, Real.sqrt_eq_zero (add_nonneg (mul_self_nonneg _) (mul_self_nonneg _))] at h
    have h1 : e.velocity.x * e.friction = 0 := by
      nlinarith [mul_self_nonneg (e.velocity.x * e.friction),
        mul_self_nonneg (e.velocity.y * e.friction)]
    have h2 : e.velocity.y * e.friction = 0 := by
      nlinarith [mul_self_nonneg (e.velocity.x * e.friction),
        mul_self_nonneg (e.velocity.y * e.friction)]
    refine ⟨hvel, ?_, ?_⟩
    · rw [hx, hvel]
      dsimp only
      rw [h1, zero_mul, add_zero]
    · rw [hy, hvel]
      dsimp only
      rw [h2, zero_mul, add_zero]

/-- The distance from the position after `updateMovement` and `constrainToWorld`
to the position before, for an agent that starts inside the world bounds. -/
theorem constrained_move_le (Math : JSMath ℝ) (hM : Math.IsReal) (game : World ℝ)
    (e : Enemy ℝ) (deltaTime : ℝ) (hspeed : 0 ≤ e.speed) (hdt : 0 ≤ deltaTime)
    (hx0 : 30 ≤ e.x) (hx1 : e.x ≤ game.worldWidth - 30)
    (hy0 : 30 ≤ e.y) (hy1 : e.y ≤ game.worldHeight - 30) :
    getDistanceTo Math.sqrt (constrainToWorld (some game) (updateMovement Math e deltaTime))
      ⟨e.x, e.y⟩ ≤ e.speed * deltaTime := by
  obtain ⟨v, hc⟩ := constrainToWorld_some game (updateMovement Math e deltaTime)
  obtain ⟨-, hx, hy⟩ := updateMovement_fields Math e deltaTime
  have hsp := updateMovement_speed_sq Math hM e deltaTime hspeed
  rw [hc, hM.2.1]
  unfold getDistanceTo
  dsimp only
  have hcx := clamp_sq_le e.x (updateMovement Math e deltaTime).x 30 (game.worldWidth - 30)
    hx0 hx1
  have hcy := clamp_sq_le e.y (updateMovement Math e deltaTime).y 30 (game.worldHeight - 30)
    hy0 hy1
  have hmx : (e.x - (updateMovement Math e deltaTime).x) ^ 2 =
      (updateMovement Math e deltaTime).velocity.x ^ 2 * deltaTime ^ 2 := by
    rw [hx]
    ring
  have hmy : (e.y - (updateMovement Math e deltaTime).y) ^ 2 =
      (updateMovement Math e deltaTime).velocity.y ^ 2 * deltaTime ^ 2 := by
    rw [hy]
    ring
  have hsum : (e.x - (updateMovement Math e deltaTime).x) ^ 2 +
      (e.y - (updateMovement Math e deltaTime).y) ^ 2 ≤ (e.speed * deltaTime) ^ 2 := by
    rw [hmx, hmy, ← add_mul, mul_pow]
    exact mul_le_mul_of_nonneg_right hsp (sq_nonneg _)
  calc Real.sqrt _ ≤ Real.sqrt ((e.speed * deltaTime) ^ 2) :=
        Real.sqrt_le_sqrt (by linarith)
    _ = e.speed * deltaTime := Real.sqrt_sq (mul_nonneg hspeed hdt)

/-- The clamped coordinate lies in the interval. -/
theorem clamp_mem (x1 lo hi : ℝ) (h : lo ≤ hi) :
    lo ≤ (if (if x1 < lo then lo else x1) > hi then hi else if x1 < lo then lo else x1) ∧
    (if (if x1 < lo then lo else x1) > hi then hi else if x1 < lo then lo else x1) ≤ hi := by
  split_ifs <;> constructor <;> linarith

/-- An agent with `0 ≤ speed ≤ 120` enters the movement half of `update`, in a
tick of duration `0 ≤ dt ≤ 0.033`, inside the world bounds and with
`lastPosition` its position. Then `updateMovement` followed by
`constrainToWorld` moves it by at most `speed * dt ≤ 3.96 < 5` from
`lastPosition`, so `checkIfStuck` takes its first branch: `stuckTime` grows by
`dt`, and when the sum exceeds 2.0 the heading is kicked by `(r - 0.5) * π` and
`stuckTime` restarts at 0. The agent leaves inside the world bounds with
`lastPosition` its position and the same `speed`. -/
theorem moveAndCheck_stuck_branch (Math : JSMath ℝ) (hM : Math.IsReal) (game : World ℝ)
    (rStuck : ℝ) (e : Enemy ℝ) (deltaTime : ℝ)
    (hs0 : 0 ≤ e.speed) (hs1 : e.speed ≤ 120) (hd0 : 0 ≤ deltaTime) (hd1 : deltaTime ≤ 0.033)
    (hx0 : 30 ≤ e.x) (hx1 : e.x ≤ game.worldWidth - 30)
    (hy0 : 30 ≤ e.y) (hy1 : e.y ≤ game.worldHeight - 30)
    (hlast : e.lastPosition = ⟨e.x, e.y⟩) :
    (getDistanceTo Math.sqrt (constrainToWorld (some game) (updateMovement Math e deltaTime))
        e.lastPosition ≤ e.speed * deltaTime ∧
      e.speed * deltaTime ≤ 3.96 ∧ (3.96 : ℝ) < 5) ∧
    (moveAndCheck Math game rStuck e deltaTime).stuckTime =
      (if e.stuckTime + deltaTime > 2.0 then 0 else e.stuckTime + deltaTime) ∧
    (moveAndCheck Math game rStuck e deltaTime).angle =
      (if e.stuckTime + deltaTime > 2.0 then e.angle + (rStuck - 0.5) * Math.PI
        else e.angle) ∧
    (30 ≤ (moveAndCheck Math game rStuck e deltaTime).x ∧
      (moveAndCheck Math game rStuck e deltaTime).x ≤ game.worldWidth - 30 ∧
      30 ≤ (moveAndCheck Math game rStuck e deltaTime).y ∧
      (moveAndCheck Math game rStuck e deltaTime).y ≤ game.worldHeight - 30 ∧
      (moveAndCheck Math game rStuck e deltaTime).lastPosition =
        ⟨(moveAndCheck Math game rStuck e deltaTime).x,
          (moveAndCheck Math game rStuck e deltaTime).y⟩ ∧
      (moveAndCheck Math game rStuck e deltaTime).speed = e.speed) := by
  have hmove := constrained_move_le Math hM game e deltaTime hs0 hd0 hx0 hx1 hy0 hy1
  have hbound : e.speed * deltaTime ≤ 3.96 := by
    calc e.speed * deltaTime ≤ 120 * 0.033 := mul_le_mul hs1 hd1 hd0 (by norm_num)
      _ = 3.96 := by norm_num
  obtain ⟨v, hc⟩ := constrainToWorld_some game (updateMovement Math e deltaTime)
  have klast : (constrainToWorld (some game) (updateMovement Math e deltaTime)).lastPosition =
      e.lastPosition := by
    rw [hc]
    rfl
  have kstuck : (constrainToWorld (some game) (updateMovement Math e deltaTime)).stuckTime =
      e.stuckTime := by
    rw [hc]
    rfl
  have kangle : (constrainToWorld (some game) (updateMovement Math e deltaTime)).angle =
      e.angle := by
    rw [hc]
    rfl
  have kspeed : (constrainToWorld (some game) (updateMovement Math e deltaTime)).speed =
      e.speed := by
    rw [hc]
    rfl
  have hnear : getDistanceTo Math.sqrt
      (constrainToWorld (some game) (updateMovement Math e deltaTime))
      (constrainToWorld (some game) (updateMovement Math e deltaTime)).lastPosition < 5 := by
    rw [klast, hlast]
    linarith
  obtain ⟨f1, f2, f3, f4, f5⟩ := checkIfStuck_fields Math rStuck
    (constrainToWorld (some game) (updateMovement Math e deltaTime)) deltaTime
  rw [if_pos hnear, kstuck] at f1 f2
  rw [kangle] at f2
  have hxin := clamp_mem (updateMovement Math e deltaTime).x 30 (game.worldWidth - 30)
    (hx0.trans hx1)
  have hyin := clamp_mem (updateMovement Math e deltaTime).y 30 (game.worldHeight - 30)
    (hy0.trans hy1)
  have kx : (constrainToWorld (some game) (updateMovement Math e deltaTime)).x =
      (if (if (updateMovement Math e deltaTime).x < 30 then 30
          else (updateMovement Math e deltaTime).x) > game.worldWidth - 30 then
        game.worldWidth - 30
      else if (updateMovement Math e deltaTime).x < 30 then 30
        else (updateMovement Math e deltaTime).x) := by
    rw [hc]
  have ky : (constrainToWorld (some game) (updateMovement Math e deltaTime)).y =
      (if (if (updateMovement Math e deltaTime).y < 30 then 30
          else (updateMovement Math e deltaTime).y) > game.worldHeight - 30 then
        game.worldHeight - 30
      else if (updateMovement Math e deltaTime).y < 30 then 30
        else (updateMovement Math e deltaTime).y) := by
    rw [hc]
  refine ⟨⟨?_, hbound, by norm_num⟩, f1, f2, ?_, ?_, ?_, ?_, ?_, ?_⟩
  · rw [hlast]
    exact hmove
  · unfold moveAndCheck
    rw [f4, kx]
    exact hxin.1
  · unfold moveAndCheck
    rw [f4, kx]
    exact hxin.2
  · unfold moveAndCheck
    rw [f5, ky]
    exact hyin.1
  · unfold moveAndCheck
    rw [f5, ky]
    exact hyin.2
  · unfold moveAndCheck
    rw [f3, f4, f5]
  · unfold moveAndCheck
    rw [checkIfStuck_frame]
    exact kspeed

end Movement

section Tick

variable {R : Type} [LinearOrderedField R]

/-- The `switch` of `updateAI` either leaves the agent as it is or calls
`setState` with a state other than the current one. -/
theorem transition_cases (e : Enemy R) (d : R) (b : Bool) :
    transition e d b = e ∨ ∃ s, s ≠ e.state ∧ transition e d b = setState e s := by
  unfold transition
  split
  · split
    · exact Or.inr ⟨_, by simp [*], rfl⟩
    · exact Or.inl rfl
  · split
    · exact Or.inr ⟨_, by simp [*], rfl⟩
    · split
      · exact Or.inr ⟨_, by simp [*], rfl⟩
      · split
        · exact Or.inr ⟨_, by simp [*], rfl⟩
        · exact Or.inl rfl
  · split
    · exact Or.inr ⟨_, by simp [*], rfl⟩
    · split
      · exact Or.inr ⟨_, by simp [*], rfl⟩
      · split
        · exact Or.inr ⟨_, by simp [*], rfl⟩
        · exact Or.inl rfl
  · split
    · exact Or.inr ⟨_, by simp [*], rfl⟩
    · exact Or.inl rfl

/-- The memory update writes `lastPlayerPosition` and `lastReactionTime`
only. -/
theorem updateMemory_writes (e : Enemy R) (deltaTime : R) (player : Target R) (b : Bool) :
    ∃ p t, updateMemory e deltaTime player b =
      { e with lastPlayerPosition := p, lastReactionTime := t } := by
  unfold updateMemory
  cases b
  · exact ⟨e.lastPlayerPosition, _, rfl⟩
  · exact ⟨_, _, rfl⟩

/-- What `updateAI` does to the state-machine fields: either the state is kept,
and with it `stateTime`, `path` and `currentPathIndex`, or the state changes,
`stateTime` and `currentPathIndex` are 0 and `path` is empty. In both cases the
other fields but `lastPlayerPosition`, `lastReactionTime` and `lastStateChange`
are kept. -/
theorem updateAI_writes (sqrt : R → R) (now : R) (e : Enemy R) (deltaTime : R)
    (player : Target R) (obstacles : List (Obstacle R)) :
    (∃ p t, updateAI sqrt now e deltaTime player obstacles =
      { e with lastPlayerPosition := p, lastReactionTime := t }) ∨
    (∃ s p t, s ≠ e.state ∧ updateAI sqrt now e deltaTime player obstacles =
      { e with
        state := s
        stateTime := 0
        path := []
        currentPathIndex := 0
        lastPlayerPosition := p
        lastReactionTime := t
        lastStateChange := now }) := by
  unfold updateAI
  dsimp only
  obtain ⟨p, t, hm⟩ := updateMemory_writes e deltaTime player (canSeeTarget e player obstacles)
  rw [hm]
  rcases transition_cases ({ e with lastPlayerPosition := p, lastReactionTime := t })
    (getDistanceTo sqrt e player.pos) (canSeeTarget e player obstacles) with h | ⟨s, hs, h⟩
  · rw [h]
    left
    refine ⟨p, t, ?_⟩
    rw [if_neg (by simp)]
  · rw [h]
    right
    refine ⟨s, p, t, hs, ?_⟩
    rw [if_pos (by
      dsimp only [setState]
      exact fun hc => hs hc.symm)]
    rfl

/-- `updateEffects` writes the two flash timers only. -/
theorem updateEffects_writes (e : Enemy R) (deltaTime : R) :
    ∃ m d, updateEffects e deltaTime = { e with muzzleFlash := m, damageFlashTime := d } := by
  unfold updateEffects
  dsimp only
  split <;> split <;> exact ⟨_, _, rfl⟩

end Tick

section Update

variable {R : Type} [LinearOrderedField R] [FloorRing R]

/-- With a target, `update` is `updateEffects`, the two timer updates and
`updateAI`, then `executeBehavior`, then the movement half. -/
theorem update_some (Math : JSMath R) (game : World R) (host : HostValues R) (e : Enemy R)
    (deltaTime : R) (player : PlayerTank R) (obstacles : List (Obstacle R)) :
    update Math game host e deltaTime (some player) obstacles =
      (executeBehavior Math host
        (updateAI Math.sqrt host.nowStateChange
          { updateEffects e deltaTime with
            stateTime := (updateEffects e deltaTime).stateTime + deltaTime
            pathfindingCooldown := (updateEffects e deltaTime).pathfindingCooldown - deltaTime }
          deltaTime player.toTarget obstacles)
        deltaTime player.toTarget obstacles).map
        (fun r => (moveAndCheck Math game host.rStuck r.1 deltaTime, r.2)) := by
  unfold update
  dsimp only
  cases executeBehavior Math host
    (updateAI Math.sqrt host.nowStateChange
      { updateEffects e deltaTime with
        stateTime := (updateEffects e deltaTime).stateTime + deltaTime
        pathfindingCooldown := (updateEffects e deltaTime).pathfindingCooldown - deltaTime }
      deltaTime player.toTarget obstacles)
    deltaTime player.toTarget obstacles with
  | none => rfl
  | some r => rfl

/-- `executeBehavior` returns exactly when the state is not patrol, or the
route is empty, or the waypoint index is inside the route. -/
theorem executeBehavior_isSome (Math : JSMath R) (host : HostValues R) (e : Enemy R)
    (deltaTime : R) (player : Target R) (obstacles : List (Obstacle R))
    (h : e.patrolPoints.length = 0 ∨ e.currentPatrolIndex < e.patrolPoints.length) :
    (executeBehavior Math host e deltaTime player obstacles).isSome = true := by
  unfold executeBehavior
  split
  · have := (executePatrol_isSome Math e deltaTime obstacles).mpr h
    cases hp : executePatrol Math e deltaTime obstacles with
    | none => rw [hp] at this; cases this
    | some a => rfl
  · rfl
  · rfl
  · rfl

/-- The state-machine fields after `update` are the ones `updateAI` leaves, and
so are the position and the route; the behaviours and the movement half do not
write them. -/
theorem update_fsm (Math : JSMath R) (game : World R) (host : HostValues R) (e : Enemy R)
    (deltaTime : R) (player : PlayerTank R) (obstacles : List (Obstacle R)) (e1 : Enemy R)
    (projectile : Option (Projectile R))
    (h : update Math game host e deltaTime (some player) obstacles = some (e1, projectile)) :
    ∃ e3 : Enemy R,
      executeBehavior Math host
        (updateAI Math.sqrt host.nowStateChange
          { updateEffects e deltaTime with
            stateTime := (updateEffects e deltaTime).stateTime + deltaTime
            pathfindingCooldown := (updateEffects e deltaTime).pathfindingCooldown - deltaTime }
          deltaTime player.toTarget obstacles)
        deltaTime player.toTarget obstacles = some (e3, projectile) ∧
      e1 = moveAndCheck Math game host.rStuck e3 deltaTime := by
  rw [update_some] at h
  cases hb : executeBehavior Math host
    (updateAI Math.sqrt host.nowStateChange
      { updateEffects e deltaTime with
        stateTime := (updateEffects e deltaTime).stateTime + deltaTime
        pathfindingCooldown := (updateEffects e deltaTime).pathfindingCooldown - deltaTime }
      deltaTime player.toTarget obstacles)
    deltaTime player.toTarget obstacles with
  | none => rw [hb] at h; cases h
  | some r =>
    rw [hb] at h
    obtain ⟨e3, q⟩ := r
    simp only [Option.map_some', Option.some.injEq, Prod.mk.injEq] at h
    exact ⟨e3, by rw [h.2], h.1.symm⟩

/-- The behaviours and the movement half of `update` leave the state-machine
fields as they find them. -/
theorem behaviour_keeps_fsm (Math : JSMath R) (game : World R) (host : HostValues R)
    (a e3 : Enemy R) (deltaTime : R) (player : Target R) (obstacles : List (Obstacle R))
    (projectile : Option (Projectile R))
    (h : executeBehavior Math host a deltaTime player obstacles = some (e3, projectile)) :
    (moveAndCheck Math game host.rStuck e3 deltaTime).state = a.state ∧
    (moveAndCheck Math game host.rStuck e3 deltaTime).stateTime = a.stateTime ∧
    (moveAndCheck Math game host.rStuck e3 deltaTime).path = a.path ∧
    (moveAndCheck Math game host.rStuck e3 deltaTime).currentPathIndex = a.currentPathIndex ∧
    (moveAndCheck Math game host.rStuck e3 deltaTime).lastReactionTime = a.lastReactionTime ∧
    (moveAndCheck Math game host.rStuck e3 deltaTime).lastPlayerPosition =
      a.lastPlayerPosition := by
  have hf : ∃ g v p t m l i, e3 =
      { a with
        angle := g
        velocity := v
        targetPosition := p
        turretAngle := t
        muzzleFlash := m
        lastShotTime := l
        currentPatrolIndex := i } :=
    ⟨_, _, _, _, _, _, _, executeBehavior_frame Math host a deltaTime player obstacles e3
      projectile h⟩
  obtain ⟨g, v, p, t, m, l, i, rfl⟩ := hf
  rw [moveAndCheck_frame]
  exact ⟨rfl, rfl, rfl, rfl, rfl, rfl⟩

/-- C22. With a target, `update` returns whenever the patrol route is empty or
the waypoint index is inside it, and in its result: if the state is not the one
at the start of the tick, `stateTime` is 0, `path` is empty and
`currentPathIndex` is 0; if the state is the same, `stateTime` is its old value
plus `deltaTime` and `path` and `currentPathIndex` are unchanged. -/
theorem update_state_change (Math : JSMath R) (game : World R) (host : HostValues R)
    (e : Enemy R) (deltaTime : R) (player : PlayerTank R) (obstacles : List (Obstacle R)) :
    ((e.patrolPoints.length = 0 ∨ e.currentPatrolIndex < e.patrolPoints.length) →
      (update Math game host e deltaTime (some player) obstacles).isSome = true) ∧
    ∀ (e1 : Enemy R) (projectile : Option (Projectile R)),
      update Math game host e deltaTime (some player) obstacles = some (e1, projectile) →
      (e1.state ≠ e.state → e1.stateTime = 0 ∧ e1.path = [] ∧ e1.currentPathIndex = 0) ∧
      (e1.state = e.state → e1.stateTime = e.stateTime + deltaTime ∧ e1.path = e.path ∧
        e1.currentPathIndex = e.currentPathIndex) := by
  obtain ⟨m, d, hm⟩ := updateEffects_writes e deltaTime
  constructor
  · intro hroute
    rw [update_some, Option.isSome_map']
    apply executeBehavior_isSome
    rw [hm]
    rcases updateAI_writes Math.sqrt host.nowStateChange
      { e with
        muzzleFlash := m
        damageFlashTime := d
        stateTime := e.stateTime + deltaTime
        pathfindingCooldown := e.pathfindingCooldown - deltaTime }
      deltaTime player.toTarget obstacles with ⟨p, t, hu⟩ | ⟨s, p, t, -, hu⟩
    · rw [hu]
      exact hroute
    · rw [hu]
      exact hroute
  · intro e1 projectile h
    obtain ⟨e3, hb, rfl⟩ := update_fsm Math game host e deltaTime player obstacles e1
      projectile h
    obtain ⟨k1, k2, k3, k4, -, -⟩ := behaviour_keeps_fsm Math game host _ e3 deltaTime
      player.toTarget obstacles projectile hb
    rw [k1, k2, k3, k4, hm]
    rcases updateAI_writes Math.sqrt host.nowStateChange
      { e with
        muzzleFlash := m
        damageFlashTime := d
        stateTime := e.stateTime + deltaTime
        pathfindingCooldown := e.pathfindingCooldown - deltaTime }
      deltaTime player.toTarget obstacles with ⟨p, t, hu⟩ | ⟨s, p, t, hs, hu⟩
    · rw [hu]
      exact ⟨fun hc => absurd rfl hc, fun _ => ⟨rfl, rfl, rfl⟩⟩
    · rw [hu]
      exact ⟨fun _ => ⟨rfl, rfl, rfl⟩, fun hc => absurd hc hs⟩

end Update

section Perceive

variable {R : Type} [LinearOrderedField R]

/-- What `updateEffects`, the timer updates and `updateAI` leave of the
position: nothing changes it before the behaviours run. -/
theorem perceive_keeps_pos (sqrt : R → R) (now : R) (e : Enemy R) (deltaTime : R)
    (player : Target R) (obstacles : List (Obstacle R)) :
    (updateAI sqrt now
      { updateEffects e deltaTime with
        stateTime := (updateEffects e deltaTime).stateTime + deltaTime
        pathfindingCooldown := (updateEffects e deltaTime).pathfindingCooldown - deltaTime }
      deltaTime player obstacles).x = e.x ∧
    (updateAI sqrt now
      { updateEffects e deltaTime with
        stateTime := (updateEffects e deltaTime).stateTime + deltaTime
        pathfindingCooldown := (updateEffects e deltaTime).pathfindingCooldown - deltaTime }
      deltaTime player obstacles).y = e.y := by
  obtain ⟨m, d, hm⟩ := updateEffects_writes e deltaTime
  rw [hm]
  rcases updateAI_writes sqrt now
    { e with
      muzzleFlash := m
      damageFlashTime := d
      stateTime := e.stateTime + deltaTime
      pathfindingCooldown := e.pathfindingCooldown - deltaTime }
    deltaTime player obstacles with ⟨p, t, hu⟩ | ⟨s, p, t, -, hu⟩
  · rw [hu]
    exact ⟨rfl, rfl⟩
  · rw [hu]
    exact ⟨rfl, rfl⟩

end Perceive

section FireIntent

variable {R : Type} [LinearOrderedField R] [FloorRing R]

/-- A projectile leaves `executeAttack` only when the target is visible from
where the agent stands. -/
theorem executeAttack_fires (Math : JSMath R) (rStrafe rAim nowAttempt nowShoot : R)
    (e : Enemy R) (deltaTime : R) (player : Target R) (obstacles : List (Obstacle R))
    (h : (executeAttack Math rStrafe rAim nowAttempt nowShoot e deltaTime player
      obstacles).2.isSome = true) :
    canSeeTarget e player obstacles = true := by
  unfold executeAttack at h
  dsimp only at h
  have hm := attackMove_frame Math rStrafe e deltaTime player obstacles _ rfl
  generalize (if getDistanceTo Math.sqrt e player.pos < e.attackRange * 0.7 then
        moveTowards Math e (calculateRetreatPoint Math e player) obstacles
      else if getDistanceTo Math.sqrt e player.pos > e.attackRange then
        moveTowards Math e player.pos obstacles
      else executeStrafe Math rStrafe e deltaTime player) = e1 at hm h
  have hx : e1.x = e.x := by rw [hm]
  have hy : e1.y = e.y := by rw [hm]
  rw [← canSeeTarget_congr e e1 hx hy]
  by_cases hs : canSeeTarget e1 player obstacles = true
  · exact hs
  · rw [if_neg hs] at h
    cases h

/-- A projectile leaves `executeRetreat` only when the target is visible from
where the agent stands and the draw is below 0.3. -/
theorem executeRetreat_fires (Math : JSMath R) (rRetreat rAim nowAttempt nowShoot : R)
    (e : Enemy R) (deltaTime : R) (player : Target R) (obstacles : List (Obstacle R))
    (h : (executeRetreat Math rRetreat rAim nowAttempt nowShoot e deltaTime player
      obstacles).2.isSome = true) :
    canSeeTarget e player obstacles = true ∧ rRetreat < 0.3 := by
  unfold executeRetreat at h
  dsimp only at h
  have hx : (moveTowards Math e (calculateRetreatPoint Math e player) obstacles).x = e.x := by
    rw [moveTowards_frame]
  have hy : (moveTowards Math e (calculateRetreatPoint Math e player) obstacles).y = e.y := by
    rw [moveTowards_frame]
  rw [← canSeeTarget_congr e _ hx hy]
  by_cases hs : canSeeTarget (moveTowards Math e (calculateRetreatPoint Math e player)
      obstacles) player obstacles = true ∧ rRetreat < 0.3
  · exact hs
  · rw [if_neg hs] at h
    cases h

/-- A projectile leaves `executeBehavior` only in state attack or retreat, with
the target visible from where the agent stands, and in retreat with the draw
below 0.3. -/
theorem executeBehavior_fires (Math : JSMath R) (host : HostValues R) (e : Enemy R)
    (deltaTime : R) (player : Target R) (obstacles : List (Obstacle R)) (e1 : Enemy R)
    (projectile : Projectile R)
    (h : executeBehavior Math host e deltaTime player obstacles = some (e1, some projectile)) :
    (e.state = AIState.attack ∨ e.state = AIState.retreat) ∧
    canSeeTarget e player obstacles = true ∧
    (e.state = AIState.retreat → host.rRetreat < 0.3) := by
  unfold executeBehavior at h
  split at h
  · cases hp : executePatrol Math e deltaTime obstacles with
    | none => rw [hp] at h; cases h
    | some a => rw [hp] at h; cases h
  · cases h
  · rename_i hst
    have h2 : (executeAttack Math host.rStrafe host.rAim host.nowAttempt host.nowShoot e
        deltaTime player obstacles).2.isSome = true := by
      rw [Option.some.inj h]
      rfl
    exact ⟨Or.inl hst, executeAttack_fires Math _ _ _ _ e deltaTime player obstacles h2,
      fun hc => by rw [hst] at hc; cases hc⟩
  · rename_i hst
    have h2 : (executeRetreat Math host.rRetreat host.rAim host.nowAttempt host.nowShoot e
        deltaTime player obstacles).2.isSome = true := by
      rw [Option.some.inj h]
      rfl
    obtain ⟨hs, hr⟩ := executeRetreat_fires Math _ _ _ _ e deltaTime player obstacles h2
    exact ⟨Or.inr hst, hs, fun _ => hr⟩

/-- C30. When `update` emits a projectile, the state after the transition of
this tick, which is the state of the result, is attack or retreat, the target
is visible from the position the agent has in this tick (`canSeeTarget` is
true), and in state retreat the draw is below 0.3. When the state after the
transition is patrol or chase no projectile is emitted. -/
theorem update_fires_only_at_seen (Math : JSMath R) (game : World R) (host : HostValues R)
    (e : Enemy R) (deltaTime : R) (player : PlayerTank R) (obstacles : List (Obstacle R))
    (e1 : Enemy R) (fired : Option (Projectile R))
    (h : update Math game host e deltaTime (some player) obstacles = some (e1, fired)) :
    e1.state = (updateAI Math.sqrt host.nowStateChange
      { updateEffects e deltaTime with
        stateTime := (updateEffects e deltaTime).stateTime + deltaTime
        pathfindingCooldown := (updateEffects e deltaTime).pathfindingCooldown - deltaTime }
      deltaTime player.toTarget obstacles).state ∧
    (fired.isSome = true →
      (e1.state = AIState.attack ∨ e1.state = AIState.retreat) ∧
      canSeeTarget e player.toTarget obstacles = true ∧
      (e1.state = AIState.retreat → host.rRetreat < 0.3)) ∧
    (e1.state = AIState.patrol ∨ e1.state = AIState.chase → fired = none) := by
  obtain ⟨e3, hb, rfl⟩ := update_fsm Math game host e deltaTime player obstacles e1 fired h
  obtain ⟨k1, -⟩ := behaviour_keeps_fsm Math game host _ e3 deltaTime player.toTarget obstacles
    fired hb
  obtain ⟨px, py⟩ := perceive_keeps_pos Math.sqrt host.nowStateChange e deltaTime
    player.toTarget obstacles
  have hfire : fired.isSome = true →
      ((moveAndCheck Math game host.rStuck e3 deltaTime).state = AIState.attack ∨
        (moveAndCheck Math game host.rStuck e3 deltaTime).state = AIState.retreat) ∧
      canSeeTarget e player.toTarget obstacles = true ∧
      ((moveAndCheck Math game host.rStuck e3 deltaTime).state = AIState.retreat →
        host.rRetreat < 0.3) := by
    intro hf
    obtain ⟨projectile, rfl⟩ := Option.isSome_iff_exists.mp hf
    obtain ⟨f1, f2, f3⟩ := executeBehavior_fires Math host _ deltaTime player.toTarget
      obstacles e3 projectile hb
    rw [canSeeTarget_congr e _ px py] at f2
    rw [k1]
    exact ⟨f1, f2, f3⟩
  refine ⟨k1, hfire, fun hq => ?_⟩
  cases hfd : fired with
  | none => rfl
  | some projectile =>
    rw [hfd] at hfire
    obtain ⟨f1, -, -⟩ := hfire rfl
    rcases hq with hq | hq <;> rcases f1 with f1 | f1 <;> rw [hq] at f1 <;> cases f1

end FireIntent

section Clock

variable {R : Type} [LinearOrderedField R]

/-- The clock reading of `updateAI` goes to `lastStateChange` and nowhere
else. -/
theorem updateAI_clock (sqrt : R → R) (now now1 : R) (e : Enemy R) (deltaTime : R)
    (player : Target R) (obstacles : List (Obstacle R)) :
    (updateAI sqrt now e deltaTime player obstacles).state =
      (updateAI sqrt now1 e deltaTime player obstacles).state ∧
    (updateAI sqrt now e deltaTime player obstacles).stateTime =
      (updateAI sqrt now1 e deltaTime player obstacles).stateTime ∧
    (updateAI sqrt now e deltaTime player obstacles).path =
      (updateAI sqrt now1 e deltaTime player obstacles).path ∧
    (updateAI sqrt now e deltaTime player obstacles).currentPathIndex =
      (updateAI sqrt now1 e deltaTime player obstacles).currentPathIndex ∧
    (updateAI sqrt now e deltaTime player obstacles).lastReactionTime =
      (updateAI sqrt now1 e deltaTime player obstacles).lastReactionTime ∧
    (updateAI sqrt now e deltaTime player obstacles).lastPlayerPosition =
      (updateAI sqrt now1 e deltaTime player obstacles).lastPlayerPosition ∧
    (updateAI sqrt now e deltaTime player obstacles).patrolPoints =
      (updateAI sqrt now1 e deltaTime player obstacles).patrolPoints ∧
    (updateAI sqrt now e deltaTime player obstacles).currentPatrolIndex =
      (updateAI sqrt now1 e deltaTime player obstacles).currentPatrolIndex := by
  unfold updateAI
  dsimp only
  split <;> exact ⟨rfl, rfl, rfl, rfl, rfl, rfl, rfl, rfl⟩

end Clock

section ClockUpdate

variable {R : Type} [LinearOrderedField R] [FloorRing R]

/-- `executeBehavior` returns exactly when the state is not patrol, or the
route is empty, or the waypoint index is inside the route. -/
theorem executeBehavior_isSome_iff (Math : JSMath R) (host : HostValues R) (e : Enemy R)
    (deltaTime : R) (player : Target R) (obstacles : List (Obstacle R)) :
    (executeBehavior Math host e deltaTime player obstacles).isSome = true ↔
      (e.state ≠ AIState.patrol ∨ e.patrolPoints.length = 0 ∨
        e.currentPatrolIndex < e.patrolPoints.length) := by
  unfold executeBehavior
  split
  · rename_i hst
    rw [← executePatrol_isSome Math e deltaTime obstacles]
    cases hp : executePatrol Math e deltaTime obstacles with
    | none =>
      constructor
      · intro h
        cases h
      · rintro (h | h)
        · exact absurd hst h
        · cases h
    | some a => exact ⟨fun _ => Or.inr rfl, fun _ => rfl⟩
  · rename_i hst
    exact ⟨fun _ => Or.inl (by rw [hst]; decide), fun _ => rfl⟩
  · rename_i hst
    exact ⟨fun _ => Or.inl (by rw [hst]; decide), fun _ => rfl⟩
  · rename_i hst
    exact ⟨fun _ => Or.inl (by rw [hst]; decide), fun _ => rfl⟩

/-- C24, as the code has it. The state-machine part of the result of `update`
(the state, `stateTime`, `path`, `currentPathIndex`, `lastReactionTime` and
`lastPlayerPosition`, and whether `update` returns at all) is the same for any
two hosts, whatever their clock readings and draws: it is a function of the
agent, `deltaTime`, the target and the obstacles. The fire intent is not part
of it: `attemptShoot` and `shoot` compare `Date.now()` with `lastShotTime`. -/
theorem update_fsm_clock_free (Math : JSMath R) (game : World R) (host host1 : HostValues R)
    (e : Enemy R) (deltaTime : R) (player : PlayerTank R) (obstacles : List (Obstacle R)) :
    (update Math game host e deltaTime (some player) obstacles).map
        (fun r => (r.1.state, r.1.stateTime, r.1.path, r.1.currentPathIndex,
          r.1.lastReactionTime, r.1.lastPlayerPosition)) =
      (update Math game host1 e deltaTime (some player) obstacles).map
        (fun r => (r.1.state, r.1.stateTime, r.1.path, r.1.currentPathIndex,
          r.1.lastReactionTime, r.1.lastPlayerPosition)) := by
  obtain ⟨c1, c2, c3, c4, c5, c6, c7, c8⟩ := updateAI_clock Math.sqrt host.nowStateChange
    host1.nowStateChange
    { updateEffects e deltaTime with
      stateTime := (updateEffects e deltaTime).stateTime + deltaTime
      pathfindingCooldown := (updateEffects e deltaTime).pathfindingCooldown - deltaTime }
    deltaTime player.toTarget obstacles
  have hs := executeBehavior_isSome_iff Math host
    (updateAI Math.sqrt host.nowStateChange
      { updateEffects e deltaTime with
        stateTime := (updateEffects e deltaTime).stateTime + deltaTime
        pathfindingCooldown := (updateEffects e deltaTime).pathfindingCooldown - deltaTime }
      deltaTime player.toTarget obstacles) deltaTime player.toTarget obstacles
  have hs1 := executeBehavior_isSome_iff Math host1
    (updateAI Math.sqrt host1.nowStateChange
      { updateEffects e deltaTime with
        stateTime := (updateEffects e deltaTime).stateTime + deltaTime
        pathfindingCooldown := (updateEffects e deltaTime).pathfindingCooldown - deltaTime }
      deltaTime player.toTarget obstacles) deltaTime player.toTarget obstacles
  rw [c1, c7, c8] at hs
  rw [update_some, update_some]
  cases hb : executeBehavior Math host
    (updateAI Math.sqrt host.nowStateChange
      { updateEffects e deltaTime with
        stateTime := (updateEffects e deltaTime).stateTime + deltaTime
        pathfindingCooldown := (updateEffects e deltaTime).pathfindingCooldown - deltaTime }
      deltaTime player.toTarget obstacles) deltaTime player.toTarget obstacles with
  | none =>
    cases hb1 : executeBehavior Math host1
      (updateAI Math.sqrt host1.nowStateChange
        { updateEffects e deltaTime with
          stateTime := (updateEffects e deltaTime).stateTime + deltaTime
          pathfindingCooldown := (updateEffects e deltaTime).pathfindingCooldown - deltaTime }
        deltaTime player.toTarget obstacles) deltaTime player.toTarget obstacles with
    | none => rfl
    | some r1 =>
      rw [hb] at hs
      rw [hb1] at hs1
      have := hs.mpr (hs1.mp rfl)
      cases this
  | some r =>
    cases hb1 : executeBehavior Math host1
      (updateAI Math.sqrt host1.nowStateChange
        { updateEffects e deltaTime with
          stateTime := (updateEffects e deltaTime).stateTime + deltaTime
          pathfindingCooldown := (updateEffects e deltaTime).pathfindingCooldown - deltaTime }
        deltaTime player.toTarget obstacles) deltaTime player.toTarget obstacles with
    | none =>
      rw [hb] at hs
      rw [hb1] at hs1
      have := hs1.mpr (hs.mp rfl)
      cases this
    | some r1 =>
      obtain ⟨a, q⟩ := r
      obtain ⟨a1, q1⟩ := r1
      obtain ⟨k1, k2, k3, k4, k5, k6⟩ := behaviour_keeps_fsm Math game host _ a deltaTime
        player.toTarget obstacles q hb
      obtain ⟨l1, l2, l3, l4, l5, l6⟩ := behaviour_keeps_fsm Math game host1 _ a1 deltaTime
        player.toTarget obstacles q1 hb1
      simp only [Option.map_some']
      rw [k1, k2, k3, k4, k5, k6, l1, l2, l3, l4, l5, l6, c1, c2, c3, c4, c5, c6]

/-- C23, as the code has it. Without a target (`null`), `update` runs
`updateEffects` and returns: no projectile, no fault, and position, heading,
turret angle and velocity are the ones before the call. A destroyed target is
not recognised: `update` never reads the health of the target, so its result is
the same for a target with any other health. -/
theorem update_without_target (Math : JSMath R) (game : World R) (host : HostValues R)
    (e : Enemy R) (deltaTime : R) (obstacles : List (Obstacle R)) :
    update Math game host e deltaTime none obstacles = some (updateEffects e deltaTime, none) ∧
    ((updateEffects e deltaTime).x = e.x ∧ (updateEffects e deltaTime).y = e.y ∧
      (updateEffects e deltaTime).angle = e.angle ∧
      (updateEffects e deltaTime).turretAngle = e.turretAngle ∧
      (updateEffects e deltaTime).velocity = e.velocity) ∧
    ∀ (player : PlayerTank R) (health : R),
      update Math game host e deltaTime (some { player with health := health }) obstacles =
        update Math game host e deltaTime (some player) obstacles := by
  refine ⟨rfl, ?_, fun player health => rfl⟩
  obtain ⟨m, d, hm⟩ := updateEffects_writes e deltaTime
  rw [hm]
  exact ⟨rfl, rfl, rfl, rfl, rfl⟩

end ClockUpdate

section Anchor

variable {R : Type} [LinearOrderedField R]

/-- What `updateEffects`, the timer updates and `updateAI` leave of the speed
limit and of the fields `checkIfStuck` reads: nothing changes them before the
behaviours run. -/
theorem perceive_keeps_anchor (sqrt : R → R) (now : R) (e : Enemy R) (deltaTime : R)
    (player : Target R) (obstacles : List (Obstacle R)) :
    (updateAI sqrt now
      { updateEffects e deltaTime with
        stateTime := (updateEffects e deltaTime).stateTime + deltaTime
        pathfindingCooldown := (updateEffects e deltaTime).pathfindingCooldown - deltaTime }
      deltaTime player obstacles).speed = e.speed ∧
    (updateAI sqrt now
      { updateEffects e deltaTime with
        stateTime := (updateEffects e deltaTime).stateTime + deltaTime
        pathfindingCooldown := (updateEffects e deltaTime).pathfindingCooldown - deltaTime }
      deltaTime player obstacles).lastPosition = e.lastPosition ∧
    (updateAI sqrt now
      { updateEffects e deltaTime with
        stateTime := (updateEffects e deltaTime).stateTime + deltaTime
        pathfindingCooldown := (updateEffects e deltaTime).pathfindingCooldown - deltaTime }
      deltaTime player obstacles).stuckTime = e.stuckTime := by
  obtain ⟨m, d, hm⟩ := updateEffects_writes e deltaTime
  rw [hm]
  rcases updateAI_writes sqrt now
    { e with
      muzzleFlash := m
      damageFlashTime := d
      stateTime := e.stateTime + deltaTime
      pathfindingCooldown := e.pathfindingCooldown - deltaTime }
    deltaTime player obstacles with ⟨p, t, hu⟩ | ⟨s, p, t, -, hu⟩
  · rw [hu]
    exact ⟨rfl, rfl, rfl⟩
  · rw [hu]
    exact ⟨rfl, rfl, rfl⟩

end Anchor

section StuckEveryTick

/-- The behaviours leave the position, the speed limit, `lastPosition` and
`stuckTime` as they find them. -/
theorem behaviour_keeps_anchor {R : Type} [LinearOrderedField R] [FloorRing R]
    (Math : JSMath R) (host : HostValues R) (a e3 : Enemy R) (deltaTime : R)
    (player : Target R) (obstacles : List (Obstacle R)) (projectile : Option (Projectile R))
    (h : executeBehavior Math host a deltaTime player obstacles = some (e3, projectile)) :
    e3.x = a.x ∧ e3.y = a.y ∧ e3.speed = a.speed ∧ e3.lastPosition = a.lastPosition ∧
    e3.stuckTime = a.stuckTime := by
  have hf : ∃ g v p t m l i, e3 =
      { a with
        angle := g
        velocity := v
        targetPosition := p
        turretAngle := t
        muzzleFlash := m
        lastShotTime := l
        currentPatrolIndex := i } :=
    ⟨_, _, _, _, _, _, _, executeBehavior_frame Math host a deltaTime player obstacles e3
      projectile h⟩
  obtain ⟨g, v, p, t, m, l, i, rfl⟩ := hf
  exact ⟨rfl, rfl, rfl, rfl, rfl⟩

/-- C28. An agent with `0 ≤ speed ≤ 120` starts a tick of duration `0 ≤ dt ≤
0.033` inside the world bounds, with `lastPosition` its position (as the
constructor and every `checkIfStuck` leave it). Then `updateMovement` followed
by `constrainToWorld` moves it by at most `speed * dt ≤ 3.96 < 5` from
`lastPosition`, so `checkIfStuck` takes its first branch: `stuckTime` grows by
`dt`, and when the sum exceeds 2.0 the heading is kicked by `(r - 0.5) * π` and
`stuckTime` restarts at 0. The same holds for the whole tick: in the result of
`update`, whatever the behaviours did, `stuckTime` has grown by `dt` or
restarted at 0 with the heading the behaviours left kicked, and the agent is
inside the world bounds with `lastPosition` its position and the same `speed`,
so the next tick starts as this one did. -/
theorem moveAndCheck_always_stuck (Math : JSMath ℝ) (hM : Math.IsReal) (game : World ℝ)
    (e : Enemy ℝ) (deltaTime : ℝ)
    (hs0 : 0 ≤ e.speed) (hs1 : e.speed ≤ 120) (hd0 : 0 ≤ deltaTime) (hd1 : deltaTime ≤ 0.033)
    (hx0 : 30 ≤ e.x) (hx1 : e.x ≤ game.worldWidth - 30)
    (hy0 : 30 ≤ e.y) (hy1 : e.y ≤ game.worldHeight - 30)
    (hlast : e.lastPosition = ⟨e.x, e.y⟩) :
    (∀ rStuck : ℝ,
      (getDistanceTo Math.sqrt (constrainToWorld (some game) (updateMovement Math e deltaTime))
          e.lastPosition ≤ e.speed * deltaTime ∧
        e.speed * deltaTime ≤ 3.96 ∧ (3.96 : ℝ) < 5) ∧
      (moveAndCheck Math game rStuck e deltaTime).stuckTime =
        (if e.stuckTime + deltaTime > 2.0 then 0 else e.stuckTime + deltaTime) ∧
      (moveAndCheck Math game rStuck e deltaTime).angle =
        (if e.stuckTime + deltaTime > 2.0 then e.angle + (rStuck - 0.5) * Math.PI
          else e.angle)) ∧
    (∀ (host : HostValues ℝ) (player : PlayerTank ℝ) (obstacles : List (Obstacle ℝ))
      (e1 : Enemy ℝ) (fired : Option (Projectile ℝ)),
      update Math game host e deltaTime (some player) obstacles = some (e1, fired) →
      e1.stuckTime = (if e.stuckTime + deltaTime > 2.0 then 0 else e.stuckTime + deltaTime) ∧
      (∃ e3 : Enemy ℝ,
        e1.angle = (if e.stuckTime + deltaTime > 2.0 then
            e3.angle + (host.rStuck - 0.5) * Math.PI
          else e3.angle) ∧
        getDistanceTo Math.sqrt
          (constrainToWorld (some game) (updateMovement Math e3 deltaTime)) ⟨e.x, e.y⟩ ≤
            e.speed * deltaTime) ∧
      30 ≤ e1.x ∧ e1.x ≤ game.worldWidth - 30 ∧ 30 ≤ e1.y ∧ e1.y ≤ game.worldHeight - 30 ∧
      e1.lastPosition = ⟨e1.x, e1.y⟩ ∧ e1.speed = e.speed) := by
  constructor
  · intro rStuck
    obtain ⟨h1, h2, h3, -⟩ := moveAndCheck_stuck_branch Math hM game rStuck e deltaTime hs0 hs1
      hd0 hd1 hx0 hx1 hy0 hy1 hlast
    exact ⟨h1, h2, h3⟩
  · intro host player obstacles e1 fired h
    obtain ⟨e3, hb, rfl⟩ := update_fsm Math game host e deltaTime player obstacles e1 fired h
    obtain ⟨b1, b2, b3, b4, b5⟩ := behaviour_keeps_anchor Math host _ e3 deltaTime
      player.toTarget obstacles fired hb
    obtain ⟨p1, p2⟩ := perceive_keeps_pos Math.sqrt host.nowStateChange e deltaTime
      player.toTarget obstacles
    obtain ⟨p3, p4, p5⟩ := perceive_keeps_anchor Math.sqrt host.nowStateChange e deltaTime
      player.toTarget obstacles
    rw [p1] at b1
    rw [p2] at b2
    rw [p3] at b3
    rw [p4] at b4
    rw [p5] at b5
    obtain ⟨h1, h2, h3, h4, h5, h6, h7, h8, h9⟩ := moveAndCheck_stuck_branch Math hM game
      host.rStuck e3 deltaTime (by rw [b3]; exact hs0) (by rw [b3]; exact hs1) hd0 hd1
      (by rw [b1]; exact hx0) (by rw [b1]; exact hx1) (by rw [b2]; exact hy0)
      (by rw [b2]; exact hy1) (by rw [b4, b1, b2]; exact hlast)
    rw [b5] at h2 h3
    rw [b4, hlast, b3] at h1
    exact ⟨h2, ⟨e3, h3, h1.1⟩, h4, h5, h6, h7, h8, h9.trans b3⟩

end StuckEveryTick

section Avoidance

variable {R : Type} [LinearOrderedField R] [FloorRing R]

/-- One round of the loop of `getObstacleAvoidanceVector`. -/
theorem getObstacleAvoidanceVector_cons (Math : JSMath R) (e : Enemy R) (o : Obstacle R)
    (rest : List (Obstacle R)) :
    getObstacleAvoidanceVector Math e (o :: rest) =
      if inAvoidanceCone Math e o then some (if avoidanceOffset Math e o > 0 then -1 else 1)
      else getObstacleAvoidanceVector Math e rest := by
  unfold inAvoidanceCone avoidanceOffset
  rw [getObstacleAvoidanceVector]
  dsimp only
  by_cases h1 : getDistanceTo Math.sqrt e ⟨o.x, o.y⟩ < 80
  · rw [if_pos h1]
    by_cases h2 : |normalizeAngle Math.PI Math.PI_pos
        (Math.atan2 (o.y - e.y) (o.x - e.x) - e.angle)| < Math.PI / 4
    · rw [if_pos h2, if_pos (decide_eq_true ⟨h1, h2⟩)]
    · rw [if_neg h2, if_neg (fun hc => h2 (of_decide_eq_true hc).2)]
  · rw [if_neg h1, if_neg (fun hc => h1 (of_decide_eq_true hc).1)]

/-- Without an obstacle in the cone the loop returns `null`. -/
theorem getObstacleAvoidanceVector_none (Math : JSMath R) (e : Enemy R)
    (obstacles : List (Obstacle R)) (h : ∀ o ∈ obstacles, inAvoidanceCone Math e o = false) :
    getObstacleAvoidanceVector Math e obstacles = none := by
  induction obstacles with
  | nil => rfl
  | cons o rest ih =>
    rw [getObstacleAvoidanceVector_cons, if_neg (by rw [h o (List.mem_cons_self _ _)]; decide)]
    exact ih (fun p hp => h p (List.mem_cons_of_mem _ hp))

/-- The loop returns at the first obstacle of the list that is in the cone. -/
theorem getObstacleAvoidanceVector_first (Math : JSMath R) (e : Enemy R)
    (pre : List (Obstacle R)) (o : Obstacle R) (post : List (Obstacle R))
    (hpre : ∀ p ∈ pre, inAvoidanceCone Math e p = false) (ho : inAvoidanceCone Math e o = true) :
    getObstacleAvoidanceVector Math e (pre ++ o :: post) =
      some (if avoidanceOffset Math e o > 0 then -1 else 1) := by
  induction pre with
  | nil => rw [List.nil_append, getObstacleAvoidanceVector_cons, if_pos ho]
  | cons p rest ih =>
    rw [List.cons_append, getObstacleAvoidanceVector_cons,
      if_neg (by rw [hpre p (List.mem_cons_self _ _)]; decide)]
    exact ih (fun q hq => hpre q (List.mem_cons_of_mem _ hq))

/-- C26, as the code has it. `moveTowards` biases the bearing by the first
obstacle, in the order of the obstacle list, that is in the cone (less than 80
from the agent, offset from the heading below `π / 4` in magnitude), whether or
not another obstacle in the cone is nearer: the target angle is the bearing less
0.5 when that offset is positive and the bearing plus 0.5 otherwise. With no
obstacle in the cone the result is the one for an empty obstacle list. -/
theorem moveTowards_avoids_first (Math : JSMath R) (e : Enemy R) (target : Point R)
    (obstacles : List (Obstacle R)) :
    ((∀ o ∈ obstacles, inAvoidanceCone Math e o = false) →
      getObstacleAvoidanceVector Math e obstacles = none ∧
      moveTowards Math e target obstacles = moveTowards Math e target []) ∧
    (∀ (pre : List (Obstacle R)) (o : Obstacle R) (post : List (Obstacle R)),
      obstacles = pre ++ o :: post → (∀ p ∈ pre, inAvoidanceCone Math e p = false) →
      inAvoidanceCone Math e o = true →
      getObstacleAvoidanceVector Math e obstacles =
        some (if avoidanceOffset Math e o > 0 then -1 else 1) ∧
      moveTowards Math e target obstacles =
        if getDistanceTo Math.sqrt e target < 10 then e
        else accelerate Math (rotateTowards Math e
          (if avoidanceOffset Math e o > 0 then
            Math.atan2 (target.y - e.y) (target.x - e.x) - 0.5
          else Math.atan2 (target.y - e.y) (target.x - e.x) + 0.5))) := by
  constructor
  · intro h
    have hn := getObstacleAvoidanceVector_none Math e obstacles h
    refine ⟨hn, ?_⟩
    unfold moveTowards
    rw [hn]
    rfl
  · intro pre o post hsplit hpre ho
    have hf := getObstacleAvoidanceVector_first Math e pre o post hpre ho
    rw [← hsplit] at hf
    refine ⟨hf, ?_⟩
    unfold moveTowards
    rw [hf]
    dsimp only
    by_cases hd : getDistanceTo Math.sqrt e target < 10
    · rw [if_pos hd, if_pos hd]
    · rw [if_neg hd, if_neg hd]
      by_cases hp : avoidanceOffset Math e o > 0
      · rw [if_pos hp, if_pos hp]
        congr 2
        ring
      · rw [if_neg hp, if_neg hp]
        congr 2
        ring

end Avoidance

section SampleFire

/-- The fire intent of `aimAt` followed by `attemptShoot` for an agent at the
origin with turret angle 0, `lastShotTime = 0`, `fireRate = 0.8` and accuracy
0.8, against the target at rest at `(150, 0)`, aim draw 0.5 and both clock
readings `now`: a projectile exactly when `0.8 ≤ now / 1000`. -/
theorem attemptShoot_sample_intent (Math : JSMath ℝ) (hM : Math.IsReal) (s : Enemy ℝ)
    (now : ℝ) (hx : s.x = 0) (hy : s.y = 0) (hta : s.turretAngle = 0)
    (hls : s.lastShotTime = 0) (hfr : s.fireRate = 0.8) (hrf : s.hasRapidFire = false)
    (hacc : s.accuracy = 0.8) (hpred : s.predictiveAiming = true)
    (htrs : s.turretRotationSpeed = 4) :
    (0.8 ≤ now / 1000 →
      (attemptShoot Math now now (aimAt Math 0.5 s (sampleTarget 150))
        (sampleTarget 150)).2.isSome = true) ∧
    (now / 1000 < 0.8 →
      (attemptShoot Math now now (aimAt Math 0.5 s (sampleTarget 150))
        (sampleTarget 150)).2 = none) := by
  obtain ⟨hp1, hp2⟩ := hM.pi_bounds
  have hn0 : normalizeAngle Math.PI Math.PI_pos 0 = 0 :=
    normalizeAngle_of_mem Math.PI Math.PI_pos 0 (by linarith) (by linarith)
  have hb : Math.atan2 ((sampleTarget (150 : ℝ)).y - s.y) ((sampleTarget (150 : ℝ)).x - s.x) =
      0 := by
    rw [hx, hy]
    simp only [sampleTarget, sub_zero]
    rw [hM.atan2_zero, if_pos (by norm_num)]
  have haim : aimAngle Math 0.5 s (sampleTarget 150) = 0 := by
    unfold aimAngle aimInaccuracy
    rw [hpred, hx, hy, hacc]
    simp only [if_true, sampleTarget, zero_mul, add_zero, sub_zero]
    rw [hM.atan2_zero, if_pos (by norm_num)]
    norm_num
  have hat : aimAt Math 0.5 s (sampleTarget 150) = { s with turretAngle := 0 } := by
    unfold aimAt
    dsimp only
    rw [haim, hta, htrs, sub_zero, hn0, abs_zero, if_pos (by norm_num)]
  generalize hA : ({ s with turretAngle := 0 } : Enemy ℝ) = a at hat
  have ax : a.x = 0 := by rw [← hA]; exact hx
  have ay : a.y = 0 := by rw [← hA]; exact hy
  have ata : a.turretAngle = 0 := by rw [← hA]
  have als : a.lastShotTime = 0 := by rw [← hA]; exact hls
  have afr : a.fireRate = 0.8 := by rw [← hA]; exact hfr
  have arf : a.hasRapidFire = false := by rw [← hA]; exact hrf
  obtain ⟨hcool, -, hshoot⟩ := attemptShoot_eq Math now now a (sampleTarget 150)
  rw [als, afr, sub_zero] at hcool hshoot
  rw [ax, ay, ata] at hshoot
  rw [hx, hy] at hb
  rw [hb, sub_zero, hn0, abs_zero] at hshoot
  rw [hat]
  constructor
  · intro h
    rw [hshoot h (by linarith)]
    refine ((shoot_spec Math now _).1 ?_).1
    rw [arf, als, afr, sub_zero]
    simpa using h
  · intro h
    rw [hcool h]

/-- In the strafe band and without obstacles, the fire intent of
`executeAttack` is the one of `aimAt` followed by `attemptShoot` on the agent
`executeStrafe` leaves. -/
theorem executeAttack_band_intent {R : Type} [LinearOrderedField R] [FloorRing R]
    (Math : JSMath R) (rStrafe rAim nowAttempt nowShoot : R) (e : Enemy R) (deltaTime : R)
    (player : Target R)
    (h1 : ¬ getDistanceTo Math.sqrt e player.pos < e.attackRange * 0.7)
    (h2 : ¬ getDistanceTo Math.sqrt e player.pos > e.attackRange) :
    executeAttack Math rStrafe rAim nowAttempt nowShoot e deltaTime player [] =
      attemptShoot Math nowAttempt nowShoot
        (aimAt Math rAim (executeStrafe Math rStrafe e deltaTime player) player) player := by
  unfold executeAttack
  dsimp only
  rw [if_neg h1, if_neg h2, canSeeTarget_nil, if_pos rfl]

/-- In state attack `executeBehavior` is `executeAttack`. -/
theorem executeBehavior_attack {R : Type} [LinearOrderedField R] [FloorRing R]
    (Math : JSMath R) (host : HostValues R) (e : Enemy R) (deltaTime : R) (player : Target R)
    (obstacles : List (Obstacle R)) (h : e.state = AIState.attack) :
    executeBehavior Math host e deltaTime player obstacles =
      some (executeAttack Math host.rStrafe host.rAim host.nowAttempt host.nowShoot e deltaTime
        player obstacles) := by
  unfold executeBehavior
  rw [h]

/-- The fire intent of one `update` of the sample agent in state attack, full
health, at the origin, against a target at rest at `(150, 0)` of any health,
without obstacles, every draw 0.5 and every clock reading `now`: a projectile
exactly when `0.8 ≤ now / 1000`. -/
theorem update_sample_intent (Math : JSMath ℝ) (hM : Math.IsReal) (health now : ℝ) :
    (0.8 ≤ now / 1000 →
      ∃ e1 projectile, update Math sampleWorld (sampleHost now)
        (sampleAgent AIState.attack 75) 0.016 (some (samplePlayer 150 health)) [] =
          some (e1, some projectile)) ∧
    (now / 1000 < 0.8 →
      ∃ e1, update Math sampleWorld (sampleHost now)
        (sampleAgent AIState.attack 75) 0.016 (some (samplePlayer 150 health)) [] =
          some (e1, none)) := by
  rw [update_some]
  obtain ⟨m, d, hm⟩ := updateEffects_writes (sampleAgent AIState.attack (75 : ℝ)) 0.016
  rw [hm]
  have hst := updateAI_state_of_attack Math.sqrt (sampleHost now).nowStateChange
    { sampleAgent AIState.attack (75 : ℝ) with
      muzzleFlash := m
      damageFlashTime := d
      stateTime := (sampleAgent AIState.attack (75 : ℝ)).stateTime + 0.016
      pathfindingCooldown := (sampleAgent AIState.attack (75 : ℝ)).pathfindingCooldown - 0.016 }
    0.016 (samplePlayer 150 health).toTarget [] rfl
  have hdist : ∀ a : Enemy ℝ, a.x = 0 → a.y = 0 →
      getDistanceTo Math.sqrt a (sampleTarget 150).pos = 150 := by
    intro a ax ay
    rw [(bearing_congr Math (sampleAgent AIState.attack (75 : ℝ)) a (sampleTarget 150).pos
      ax ay).1]
    exact hM.distance_sample AIState.attack 75 150 (by norm_num)
  have hd0 := hdist
    { sampleAgent AIState.attack (75 : ℝ) with
      muzzleFlash := m
      damageFlashTime := d
      stateTime := (sampleAgent AIState.attack (75 : ℝ)).stateTime + 0.016
      pathfindingCooldown := (sampleAgent AIState.attack (75 : ℝ)).pathfindingCooldown - 0.016 }
    rfl rfl
  have htt : (samplePlayer (150 : ℝ) health).toTarget = sampleTarget 150 := rfl
  rw [htt] at hst ⊢
  rw [hd0, canSeeTarget_nil] at hst
  have hstate : (updateAI Math.sqrt (sampleHost now).nowStateChange
    { sampleAgent AIState.attack (75 : ℝ) with
      muzzleFlash := m
      damageFlashTime := d
      stateTime := (sampleAgent AIState.attack (75 : ℝ)).stateTime + 0.016
      pathfindingCooldown := (sampleAgent AIState.attack (75 : ℝ)).pathfindingCooldown - 0.016 }
    0.016 (sampleTarget 150) []).state = AIState.attack := by
    rw [hst]
    norm_num [sampleAgent, Enemy.new]
  have hE : ∃ p t, updateAI Math.sqrt (sampleHost now).nowStateChange
      { sampleAgent AIState.attack (75 : ℝ) with
        muzzleFlash := m
        damageFlashTime := d
        stateTime := (sampleAgent AIState.attack (75 : ℝ)).stateTime + 0.016
        pathfindingCooldown :=
          (sampleAgent AIState.attack (75 : ℝ)).pathfindingCooldown - 0.016 }
      0.016 (sampleTarget 150) [] =
      { sampleAgent AIState.attack (75 : ℝ) with
        muzzleFlash := m
        damageFlashTime := d
        stateTime := (sampleAgent AIState.attack (75 : ℝ)).stateTime + 0.016
        pathfindingCooldown := (sampleAgent AIState.attack (75 : ℝ)).pathfindingCooldown - 0.016
        lastPlayerPosition := p
        lastReactionTime := t } := by
    rcases updateAI_writes Math.sqrt (sampleHost now).nowStateChange
      { sampleAgent AIState.attack (75 : ℝ) with
        muzzleFlash := m
        damageFlashTime := d
        stateTime := (sampleAgent AIState.attack (75 : ℝ)).stateTime + 0.016
        pathfindingCooldown :=
          (sampleAgent AIState.attack (75 : ℝ)).pathfindingCooldown - 0.016 }
      0.016 (sampleTarget 150) [] with ⟨p, t, hu⟩ | ⟨s, p, t, hs, hu⟩
    · exact ⟨p, t, hu⟩
    · rw [hu] at hstate
      exact absurd hstate hs
  obtain ⟨p, t, hu⟩ := hE
  rw [hu] at hstate ⊢
  rw [executeBehavior_attack Math (sampleHost now) _ 0.016 (sampleTarget 150) [] hstate,
    executeAttack_band_intent Math _ _ _ _ _ 0.016 (sampleTarget 150)
      (by
        rw [hdist _ rfl rfl]
        norm_num [sampleAgent, Enemy.new])
      (by
        rw [hdist _ rfl rfl]
        norm_num [sampleAgent, Enemy.new])]
  obtain ⟨hfire, hhold⟩ := attemptShoot_sample_intent Math hM
    (executeStrafe Math (sampleHost now).rStrafe
      { sampleAgent AIState.attack (75 : ℝ) with
        muzzleFlash := m
        damageFlashTime := d
        stateTime := (sampleAgent AIState.attack (75 : ℝ)).stateTime + 0.016
        pathfindingCooldown := (sampleAgent AIState.attack (75 : ℝ)).pathfindingCooldown - 0.016
        lastPlayerPosition := p
        lastReactionTime := t }
      0.016 (sampleTarget 150)) now rfl rfl rfl rfl
    (by norm_num [executeStrafe, sampleAgent, Enemy.new]) rfl
    (by norm_num [executeStrafe, sampleAgent, Enemy.new]) rfl
    (by norm_num [executeStrafe, sampleAgent, Enemy.new])
  constructor
  · intro h
    obtain ⟨projectile, hp⟩ := Option.isSome_iff_exists.mp (hfire h)
    rw [Option.map_some']
    exact ⟨_, projectile, congrArg some (Prod.ext rfl hp)⟩
  · intro h
    rw [Option.map_some']
    exact ⟨_, congrArg some (Prod.ext rfl (hhold h))⟩

end SampleFire

section Accumulate

variable {R : Type}

/-- A timer added up over a list split in two. -/
theorem accumulate_append (add : R → R → R) (a b : List R) :
    ∀ t : R, accumulate add t (a ++ b) = accumulate add (accumulate add t a) b := by
  induction a with
  | nil => intro t; rfl
  | cons d rest ih => intro t; exact ih _

end Accumulate

section HostAdd

variable {R : Type} [LinearOrderedField R]

/-- With the host addition, `updateAI` reads `deltaTime` only through the sum
it stores: it is `updateAI` at the duration that makes the exact sum equal to
the sum the host returns. -/
theorem updateAIWith_eq (add : R → R → R) (sqrt : R → R) (now : R) (e : Enemy R)
    (deltaTime : R) (player : Target R) (obstacles : List (Obstacle R)) :
    updateAIWith add sqrt now e deltaTime player obstacles =
      updateAI sqrt now e (add e.lastReactionTime deltaTime - e.lastReactionTime) player
        obstacles := by
  have hm : ∀ b : Bool, updateMemoryWith add e deltaTime player b =
      updateMemory e (add e.lastReactionTime deltaTime - e.lastReactionTime) player b := by
    intro b
    unfold updateMemoryWith updateMemory
    cases b
    · simp only [Bool.false_eq_true, if_false]
      rw [show e.lastReactionTime + (add e.lastReactionTime deltaTime - e.lastReactionTime) =
        add e.lastReactionTime deltaTime from by ring]
    · rfl
  unfold updateAIWith updateAI
  dsimp only
  rw [hm]

/-- With the exact sum for the host addition, `updateAIWith` is `updateAI`. -/
theorem updateAIWith_exact (sqrt : R → R) (now : R) (e : Enemy R) (deltaTime : R)
    (player : Target R) (obstacles : List (Obstacle R)) :
    updateAIWith (fun a b => a + b) sqrt now e deltaTime player obstacles =
      updateAI sqrt now e deltaTime player obstacles := by
  rw [updateAIWith_eq]
  show updateAI sqrt now e (e.lastReactionTime + deltaTime - e.lastReactionTime) player
    obstacles = _
  rw [show e.lastReactionTime + deltaTime - e.lastReactionTime = deltaTime from by ring]

/-- With the host addition, `checkIfStuck` reads `deltaTime` only through the
sum it stores. -/
theorem checkIfStuckWith_eq (add : R → R → R) (Math : JSMath R) (r : R) (e : Enemy R)
    (deltaTime : R) :
    checkIfStuckWith add Math r e deltaTime =
      checkIfStuck Math r e (add e.stuckTime deltaTime - e.stuckTime) := by
  unfold checkIfStuckWith checkIfStuck
  rw [show e.stuckTime + (add e.stuckTime deltaTime - e.stuckTime) =
    add e.stuckTime deltaTime from by ring]

/-- With the exact sum for the host addition, `checkIfStuckWith` is
`checkIfStuck`. -/
theorem checkIfStuckWith_exact (Math : JSMath R) (r : R) (e : Enemy R) (deltaTime : R) :
    checkIfStuckWith (fun a b => a + b) Math r e deltaTime =
      checkIfStuck Math r e deltaTime := by
  rw [checkIfStuckWith_eq]
  show checkIfStuck Math r e (e.stuckTime + deltaTime - e.stuckTime) = _
  rw [show e.stuckTime + deltaTime - e.stuckTime = deltaTime from by ring]

/-- With the exact sum for the host addition, a timer holds the sum of the
durations. -/
theorem accumulate_exact (l : List R) :
    ∀ t : R, accumulate (fun a b => a + b) t l = t + l.sum := by
  induction l with
  | nil => intro t; simp [accumulate]
  | cons d rest ih =>
    intro t
    simp only [accumulate, List.sum_cons]
    rw [ih]
    ring

end HostAdd

section ForgettingRuns

variable {R : Type} [LinearOrderedField R]

/-- Without sight of the target a call stores the host sum in the timer, keeps
health, threshold and position, keeps state patrol, and from state chase with
`health ≥ fleeHealthThreshold` leaves patrol when the stored timer exceeds 3.0
and chase otherwise. -/
theorem updateAIWith_unseen (add : R → R → R) (sqrt : R → R) (now : R) (e : Enemy R)
    (deltaTime : R) (player : Target R) (obstacles : List (Obstacle R))
    (hv : canSeeTarget e player obstacles = false) :
    (updateAIWith add sqrt now e deltaTime player obstacles).lastReactionTime =
      add e.lastReactionTime deltaTime ∧
    (updateAIWith add sqrt now e deltaTime player obstacles).health = e.health ∧
    (updateAIWith add sqrt now e deltaTime player obstacles).fleeHealthThreshold =
      e.fleeHealthThreshold ∧
    (updateAIWith add sqrt now e deltaTime player obstacles).x = e.x ∧
    (updateAIWith add sqrt now e deltaTime player obstacles).y = e.y ∧
    (e.state = AIState.patrol →
      (updateAIWith add sqrt now e deltaTime player obstacles).state = AIState.patrol) ∧
    (e.state = AIState.chase → e.fleeHealthThreshold ≤ e.health →
      (updateAIWith add sqrt now e deltaTime player obstacles).state =
        if add e.lastReactionTime deltaTime > 3.0 then AIState.patrol else AIState.chase) := by
  rw [updateAIWith_eq]
  obtain ⟨k1, k2, k3, k4⟩ := updateAI_keeps sqrt now e
    (add e.lastReactionTime deltaTime - e.lastReactionTime) player obstacles
  obtain ⟨hm, -⟩ := updateAI_memory_eq sqrt now e
    (add e.lastReactionTime deltaTime - e.lastReactionTime) player obstacles
  rw [updateMemory_lastReactionTime, hv] at hm
  simp only [Bool.false_eq_true, if_false] at hm
  have hsum : e.lastReactionTime + (add e.lastReactionTime deltaTime - e.lastReactionTime) =
      add e.lastReactionTime deltaTime := by ring
  rw [hsum] at hm
  refine ⟨hm, k1, k2, k3, k4, fun hp => ?_, fun hc hh => ?_⟩
  · rw [updateAI_state_of_patrol sqrt now e _ player obstacles hp, hv]
    simp
  · rw [updateAI_state_of_chase sqrt now e _ player obstacles hc, hv, hsum]
    by_cases hgt : add e.lastReactionTime deltaTime > 3.0
    · simp [hgt]
    · simp [hgt, not_lt.mpr hh]

/-- The hypothesis of `neverSeen` passes to every prefix of the run. -/
theorem neverSeen_take (add : R → R → R) (sqrt : R → R) (ticks : List (Tick R)) :
    ∀ (e : Enemy R) (n : Nat), neverSeen add sqrt e ticks = true →
      neverSeen add sqrt e (ticks.take n) = true := by
  induction ticks with
  | nil => intro e n h; simpa using h
  | cons t rest ih =>
    intro e n h
    cases n with
    | zero => simp [neverSeen]
    | succ n =>
      simp only [List.take_succ_cons, neverSeen, Bool.and_eq_true] at h ⊢
      exact ⟨h.1, ih _ n h.2⟩

/-- The run without sight of the target, from any point of it: the timer is
the one the host additions leave; from patrol the state stays patrol; from chase
with the timer at most 3.0 the state ends in chase or patrol, and in chase
exactly when the timer was at most 3.0 after every tick. -/
theorem runAI_unseen (add : R → R → R) (sqrt : R → R) (ticks : List (Tick R)) :
    ∀ e : Enemy R, e.fleeHealthThreshold ≤ e.health → neverSeen add sqrt e ticks = true →
      (runAI add sqrt e ticks).lastReactionTime =
        accumulate add e.lastReactionTime (ticks.map Tick.deltaTime) ∧
      (e.state = AIState.patrol → (runAI add sqrt e ticks).state = AIState.patrol) ∧
      (e.state = AIState.chase → e.lastReactionTime ≤ 3.0 →
        ((runAI add sqrt e ticks).state = AIState.chase ∨
          (runAI add sqrt e ticks).state = AIState.patrol) ∧
        ((runAI add sqrt e ticks).state = AIState.chase ↔
          ∀ m : Nat,
            accumulate add e.lastReactionTime ((ticks.take m).map Tick.deltaTime) ≤ 3.0)) := by
  induction ticks with
  | nil =>
    intro e _ _
    refine ⟨rfl, fun h => h, fun hc hle => ⟨Or.inl hc, fun _ m => ?_, fun _ => hc⟩⟩
    simpa [accumulate] using hle
  | cons t rest ih =>
    intro e hh hv
    simp only [neverSeen, Bool.and_eq_true, Bool.not_eq_true'] at hv
    obtain ⟨hv1, hv2⟩ := hv
    obtain ⟨u1, u2, u3, -, -, u6, u7⟩ := updateAIWith_unseen add sqrt t.now e t.deltaTime
      t.player t.obstacles hv1
    obtain ⟨i1, i2, i3⟩ := ih (updateAIWith add sqrt t.now e t.deltaTime t.player t.obstacles)
      (by rw [u2, u3]; exact hh) hv2
    rw [u1] at i1 i3
    refine ⟨i1, fun hp => i2 (u6 hp), fun hc hle => ?_⟩
    have hstate := u7 hc hh
    by_cases hgt : add e.lastReactionTime t.deltaTime > 3.0
    · rw [if_pos hgt] at hstate
      have hpat := i2 hstate
      refine ⟨Or.inr hpat, fun hch => ?_, fun hall => ?_⟩
      · rw [show runAI add sqrt e (t :: rest) = runAI add sqrt
          (updateAIWith add sqrt t.now e t.deltaTime t.player t.obstacles) rest from rfl,
          hpat] at hch
        cases hch
      · have := hall 1
        simp only [List.take_succ_cons, List.take_zero, List.map_cons, List.map_nil,
          accumulate] at this
        exact absurd hgt (not_lt.mpr this)
    · rw [if_neg hgt] at hstate
      obtain ⟨j1, j2⟩ := i3 hstate (not_lt.mp hgt)
      refine ⟨j1, fun hch => ?_, fun hall => ?_⟩
      · intro m
        cases m with
        | zero => simpa [accumulate] using hle
        | succ k =>
          simp only [List.take_succ_cons, List.map_cons, accumulate]
          exact j2.mp hch k
      · refine j2.mpr fun k => ?_
        have := hall (k + 1)
        simpa only [List.take_succ_cons, List.map_cons, accumulate] using this

/-- The two loops of `canSeeTarget` read the agent through its position only:
a target hidden from the starting position at every tick is never seen along
the run. -/
theorem neverSeen_of_hidden (add : R → R → R) (sqrt : R → R) (ticks : List (Tick R)) :
    ∀ e : Enemy R, (∀ t ∈ ticks, canSeeTarget e t.player t.obstacles = false) →
      neverSeen add sqrt e ticks = true := by
  induction ticks with
  | nil => intro e _; rfl
  | cons t rest ih =>
    intro e h
    obtain ⟨-, -, -, kx, ky, -, -⟩ := updateAIWith_unseen add sqrt t.now e t.deltaTime t.player
      t.obstacles (h t (List.mem_cons_self _ _))
    simp only [neverSeen, Bool.and_eq_true, Bool.not_eq_true']
    refine ⟨h t (List.mem_cons_self _ _), ih _ fun t' ht' => ?_⟩
    rw [canSeeTarget_congr e _ kx ky]
    exact h t' (List.mem_cons_of_mem _ ht')

end ForgettingRuns

section ForgettingTimer

variable {R : Type} [LinearOrderedField R]

/-- A timer that no tick of a run lowers is, after a shorter prefix of the run,
at most what it is after a longer one. -/
theorem accumulate_take_le (add : R → R → R) (l : List R) (t : R) (n : Nat)
    (hmono : ∀ m < n, accumulate add t (l.take m) ≤ accumulate add t (l.take (m + 1)))
    (m : Nat) (hmn : m ≤ n) :
    accumulate add t (l.take m) ≤ accumulate add t (l.take n) := by
  induction n with
  | zero =>
    rw [Nat.le_zero.mp hmn]
  | succ k ih =>
    rcases Nat.lt_or_ge m (k + 1) with hlt | hge
    · exact le_trans (ih (fun i hi => hmono i (Nat.lt_succ_of_lt hi)) (Nat.lt_succ_iff.mp hlt))
        (hmono k (Nat.lt_succ_self k))
    · rw [le_antisymm hmn hge]

/-- C9, as the code has it. An agent in state chase with `lastReactionTime = 0`
and `health ≥ fleeHealthThreshold` goes through `updateAI` ticks in none of
which the target is visible; `add` is the addition the host performs at
`lastReactionTime += deltaTime` (enemy.js 99), `accumulate add 0` of the
durations of the first `m` ticks the value these additions have left in
`lastReactionTime` after `m` ticks. After every number `n` of ticks
`lastReactionTime` is that value; the state is chase exactly when the value was
at most 3.0 after each of the first `n` ticks, and patrol exactly when it
exceeded 3.0 after one of them: the state turns patrol on the first tick at
which the accumulated value exceeds 3.0 and stays patrol. On a run in which no
tick lowers the accumulated value, the state after `n` ticks is decided by the
value after the `n`-th. -/
theorem chase_forgets (add : R → R → R) (sqrt : R → R) (e : Enemy R) (ticks : List (Tick R))
    (n : Nat) (hstate : e.state = AIState.chase) (hzero : e.lastReactionTime = 0)
    (hhealth : e.fleeHealthThreshold ≤ e.health)
    (hunseen : neverSeen add sqrt e ticks = true) :
    (runAI add sqrt e (ticks.take n)).lastReactionTime =
      accumulate add 0 ((ticks.take n).map Tick.deltaTime) ∧
    ((runAI add sqrt e (ticks.take n)).state = AIState.chase ↔
      ∀ m ≤ n, accumulate add 0 ((ticks.take m).map Tick.deltaTime) ≤ 3.0) ∧
    ((runAI add sqrt e (ticks.take n)).state = AIState.patrol ↔
      ∃ m ≤ n, 3.0 < accumulate add 0 ((ticks.take m).map Tick.deltaTime)) ∧
    ((∀ m < n, accumulate add 0 ((ticks.take m).map Tick.deltaTime) ≤
        accumulate add 0 ((ticks.take (m + 1)).map Tick.deltaTime)) →
      (runAI add sqrt e (ticks.take n)).state =
        if accumulate add 0 ((ticks.take n).map Tick.deltaTime) ≤ 3.0 then AIState.chase
        else AIState.patrol) := by
  obtain ⟨h1, -, h3⟩ := runAI_unseen add sqrt (ticks.take n) e hhealth
    (neverSeen_take add sqrt ticks e n hunseen)
  obtain ⟨hor, hiff⟩ := h3 hstate (by rw [hzero]; norm_num)
  rw [hzero] at h1 hiff
  have hall :
      (∀ m : Nat, accumulate add 0 (((ticks.take n).take m).map Tick.deltaTime) ≤ 3.0) ↔
      ∀ m ≤ n, accumulate add 0 ((ticks.take m).map Tick.deltaTime) ≤ 3.0 := by
    constructor
    · intro h m hm
      have := h m
      rwa [List.take_take, min_eq_left hm] at this
    · intro h m
      rw [List.take_take]
      exact h _ (min_le_right m n)
  have hchase := hiff.trans hall
  have hpatrol : (runAI add sqrt e (ticks.take n)).state = AIState.patrol ↔
      ∃ m ≤ n, 3.0 < accumulate add 0 ((ticks.take m).map Tick.deltaTime) := by
    constructor
    · intro hp
      by_contra hno
      push_neg at hno
      have := hchase.mpr hno
      rw [hp] at this
      cases this
    · rintro ⟨m, hm, hgt⟩
      rcases hor with hc | hp
      · exact absurd (hchase.mp hc m hm) (not_le.mpr hgt)
      · exact hp
  refine ⟨h1, hchase, hpatrol, fun hmono => ?_⟩
  by_cases hle : accumulate add 0 ((ticks.take n).map Tick.deltaTime) ≤ 3.0
  · rw [if_pos hle]
    refine hchase.mpr fun m hm => le_trans ?_ hle
    rw [List.map_take, List.map_take]
    refine accumulate_take_le add (ticks.map Tick.deltaTime) 0 n (fun i hi => ?_) m hm
    have := hmono i hi
    rwa [List.map_take, List.map_take] at this
  · rw [if_neg hle]
    exact hpatrol.mpr ⟨n, le_rfl, not_le.mp hle⟩

end ForgettingTimer

section StuckRuns

variable {R : Type} [LinearOrderedField R]

/-- A tick with a displacement of 5 units or more resets the timer and does not
kick the heading. -/
theorem checkIfStuckWith_far (add : R → R → R) (Math : JSMath R) (r : R) (e : Enemy R)
    (deltaTime : R) (h : ¬ getDistanceTo Math.sqrt e e.lastPosition < 5) :
    (checkIfStuckWith add Math r e deltaTime).stuckTime = 0 ∧
    (checkIfStuckWith add Math r e deltaTime).angle = e.angle := by
  rw [checkIfStuckWith_eq]
  exact checkIfStuck_far Math r e _ h

/-- The timer, the heading and `lastPosition` after a step of a run at which
the agent is near `lastPosition`. -/
theorem stuckStep_near (add : R → R → R) (Math : JSMath R) (e : Enemy R) (t : StuckTick R)
    (h : getDistanceTo Math.sqrt { e with x := t.x, y := t.y } e.lastPosition < 5) :
    (stuckStep add Math e t).stuckTime =
      (if add e.stuckTime t.deltaTime > 2.0 then 0 else add e.stuckTime t.deltaTime) ∧
    (stuckStep add Math e t).angle =
      (if add e.stuckTime t.deltaTime > 2.0 then e.angle + (t.r - 0.5) * Math.PI
        else e.angle) ∧
    (stuckStep add Math e t).lastPosition = ⟨t.x, t.y⟩ := by
  unfold stuckStep
  rw [checkIfStuckWith_eq]
  obtain ⟨h1, h2, h3, -, -⟩ := checkIfStuck_fields Math t.r { e with x := t.x, y := t.y }
    (add ({ e with x := t.x, y := t.y } : Enemy R).stuckTime t.deltaTime -
      ({ e with x := t.x, y := t.y } : Enemy R).stuckTime)
  rw [h1, h2, h3]
  dsimp only
  rw [if_pos h, show e.stuckTime + (add e.stuckTime t.deltaTime - e.stuckTime) =
    add e.stuckTime t.deltaTime from by ring]
  exact ⟨rfl, rfl, rfl⟩

/-- A run splits at any point. -/
theorem stuckRun_append (add : R → R → R) (Math : JSMath R) (a b : List (StuckTick R)) :
    ∀ e : Enemy R,
      stuckRun add Math e (a ++ b) = stuckRun add Math (stuckRun add Math e a) b := by
  induction a with
  | nil => intro e; rfl
  | cons t rest ih => intro e; exact ih _

/-- The hypothesis of `alwaysNear` splits at any point of the run. -/
theorem alwaysNear_append (add : R → R → R) (Math : JSMath R) (a b : List (StuckTick R)) :
    ∀ e : Enemy R, alwaysNear add Math e (a ++ b) = true ↔
      (alwaysNear add Math e a = true ∧
        alwaysNear add Math (stuckRun add Math e a) b = true) := by
  induction a with
  | nil =>
    intro e
    exact ⟨fun h => ⟨rfl, h⟩, fun h => h.2⟩
  | cons t rest ih =>
    intro e
    have h := ih (stuckStep add Math e t)
    simp only [List.cons_append, alwaysNear, Bool.and_eq_true, stuckRun]
    exact ⟨fun hc => ⟨⟨hc.1, (h.mp hc.2).1⟩, (h.mp hc.2).2⟩,
      fun hc => ⟨hc.1.1, h.mpr ⟨hc.1.2, hc.2⟩⟩⟩

/-- While the timer the host additions accumulate is at most 2.0 after every
tick, a run near `lastPosition` leaves the heading alone and the timer holds the
accumulated value. -/
theorem stuckRun_quiet (add : R → R → R) (Math : JSMath R) (ticks : List (StuckTick R)) :
    ∀ e : Enemy R, alwaysNear add Math e ticks = true →
      (∀ m : Nat,
        accumulate add e.stuckTime ((ticks.take m).map StuckTick.deltaTime) ≤ 2.0) →
      (stuckRun add Math e ticks).angle = e.angle ∧
      (stuckRun add Math e ticks).stuckTime =
        accumulate add e.stuckTime (ticks.map StuckTick.deltaTime) := by
  induction ticks with
  | nil => intro e _ _; exact ⟨rfl, rfl⟩
  | cons t rest ih =>
    intro e hnear hle
    simp only [alwaysNear, Bool.and_eq_true, decide_eq_true_eq] at hnear
    have hno : ¬ add e.stuckTime t.deltaTime > 2.0 := by
      have := hle 1
      simp only [List.take_succ_cons, List.take_zero, List.map_cons, List.map_nil,
        accumulate] at this
      exact not_lt.mpr this
    obtain ⟨s1, s2, -⟩ := stuckStep_near add Math e t hnear.1
    rw [if_neg hno] at s1 s2
    obtain ⟨i1, i2⟩ := ih (stuckStep add Math e t) hnear.2 (by
      intro m
      rw [s1]
      have := hle (m + 1)
      simpa only [List.take_succ_cons, List.map_cons, accumulate] using this)
    simp only [stuckRun, List.map_cons, accumulate]
    rw [i1, i2, s1, s2]
    exact ⟨rfl, rfl⟩

/-- C21, as the code has it. A run of `checkIfStuck` ticks starts with
`stuckTime = 0`; at each tick the agent is less than 5 units from `lastPosition`;
`add` is the addition the host performs at `stuckTime += deltaTime`. The value
these additions accumulate is at most 2.0 after each of the ticks `ticks`, and
above 2.0 after the next tick `t`. Then after each of the first ticks the heading
is untouched and `stuckTime` is the accumulated value; the tick `t` kicks the
heading by `(r - 0.5) * π`, of magnitude at most `π / 2` for `r` in `[0, 1)`, and
leaves `stuckTime = 0`, from where the accumulation starts again. A tick with a
displacement of 5 or more resets `stuckTime` to 0 and does not kick the
heading. -/
theorem checkIfStuck_first_kick (add : R → R → R) (Math : JSMath R) (e : Enemy R)
    (ticks : List (StuckTick R)) (t : StuckTick R) (n : Nat) (hzero : e.stuckTime = 0)
    (hnear : alwaysNear add Math e (ticks ++ [t]) = true)
    (hle : ∀ m : Nat, accumulate add 0 ((ticks.take m).map StuckTick.deltaTime) ≤ 2.0)
    (hgt : add (accumulate add 0 (ticks.map StuckTick.deltaTime)) t.deltaTime > 2.0) :
    ((stuckRun add Math e (ticks.take n)).angle = e.angle ∧
      (stuckRun add Math e (ticks.take n)).stuckTime =
        accumulate add 0 ((ticks.take n).map StuckTick.deltaTime)) ∧
    (stuckRun add Math e (ticks ++ [t])).angle = e.angle + (t.r - 0.5) * Math.PI ∧
    (stuckRun add Math e (ticks ++ [t])).stuckTime = 0 ∧
    (0 ≤ t.r → t.r < 1 → |(t.r - 0.5) * Math.PI| ≤ Math.PI / 2) ∧
    (∀ (r deltaTime : R) (a : Enemy R), ¬ getDistanceTo Math.sqrt a a.lastPosition < 5 →
      (checkIfStuckWith add Math r a deltaTime).stuckTime = 0 ∧
      (checkIfStuckWith add Math r a deltaTime).angle = a.angle) := by
  obtain ⟨hn1, hn2⟩ := (alwaysNear_append add Math ticks [t] e).mp hnear
  obtain ⟨q1, q2⟩ := stuckRun_quiet add Math ticks e hn1 (by rw [hzero]; exact hle)
  have hfirst : alwaysNear add Math e (ticks.take n) = true := by
    have := (alwaysNear_append add Math (ticks.take n) (ticks.drop n) e).mp
      (by rw [List.take_append_drop]; exact hn1)
    exact this.1
  obtain ⟨p1, p2⟩ := stuckRun_quiet add Math (ticks.take n) e hfirst (by
    intro m
    rw [hzero, List.take_take]
    exact hle _)
  rw [hzero] at p2 q2
  simp only [alwaysNear, Bool.and_eq_true, decide_eq_true_eq, and_true] at hn2
  obtain ⟨s1, s2, -⟩ := stuckStep_near add Math (stuckRun add Math e ticks) t hn2
  rw [q2, if_pos hgt] at s1
  rw [q2, if_pos hgt, q1] at s2
  refine ⟨⟨p1, p2⟩, ?_, ?_, ?_,
    fun r deltaTime a => checkIfStuckWith_far add Math r a deltaTime⟩
  · rw [stuckRun_append]
    exact s2
  · rw [stuckRun_append]
    exact s1
  · intro h0 h1
    rw [abs_mul, abs_of_pos Math.PI_pos]
    have : |t.r - 0.5| ≤ 1 / 2 := by
      rw [abs_le]
      constructor <;> norm_num <;> linarith
    calc |t.r - 0.5| * Math.PI ≤ 1 / 2 * Math.PI :=
          mul_le_mul_of_nonneg_right this Math.PI_pos.le
      _ = Math.PI / 2 := by ring

/-- The heading changes of a run split at any point. -/
theorem headingChanges_append (add : R → R → R) (Math : JSMath R) (a b : List (StuckTick R)) :
    ∀ e : Enemy R, headingChanges add Math e (a ++ b) =
      headingChanges add Math e a ++ headingChanges add Math (stuckRun add Math e a) b := by
  induction a with
  | nil => intro e; rfl
  | cons t rest ih =>
    intro e
    show decide ((stuckStep add Math e t).angle ≠ e.angle) ::
      headingChanges add Math (stuckStep add Math e t) (rest ++ b) = _
    rw [ih]
    rfl

/-- While the timer the host additions accumulate is at most 2.0 after every
tick, no tick of a run near `lastPosition` changes the heading. -/
theorem headingChanges_quiet (add : R → R → R) (Math : JSMath R) (ticks : List (StuckTick R)) :
    ∀ e : Enemy R, alwaysNear add Math e ticks = true →
      (∀ m : Nat,
        accumulate add e.stuckTime ((ticks.take m).map StuckTick.deltaTime) ≤ 2.0) →
      headingChanges add Math e ticks = List.replicate ticks.length false := by
  induction ticks with
  | nil => intro e _ _; rfl
  | cons t rest ih =>
    intro e hnear hle
    simp only [alwaysNear, Bool.and_eq_true, decide_eq_true_eq] at hnear
    have hno : ¬ add e.stuckTime t.deltaTime > 2.0 := by
      have := hle 1
      simp only [List.take_succ_cons, List.take_zero, List.map_cons, List.map_nil,
        accumulate] at this
      exact not_lt.mpr this
    obtain ⟨s1, s2, -⟩ := stuckStep_near add Math e t hnear.1
    rw [if_neg hno] at s1 s2
    have i1 := ih (stuckStep add Math e t) hnear.2 (by
      intro m
      rw [s1]
      have := hle (m + 1)
      simpa only [List.take_succ_cons, List.map_cons, accumulate] using this)
    simp only [headingChanges, List.length_cons, List.replicate_succ]
    rw [i1, s2]
    simp

end StuckRuns

section Double

variable {R : Type} [LinearOrderedField R] [FloorRing R]

/-- The value of `roundDouble`: when `x` lies in the binade of `e` and `y` is a
multiple of the spacing `2 ^ (e - 52)` less than half a spacing from `x`, the
rounding of `x` is `y`. -/
theorem roundDouble_eq (x y : R) (e m : ℤ) (h1 : (2 : R) ^ e ≤ |x|)
    (h2 : |x| < (2 : R) ^ (e + 1)) (hy : y = (m : R) * (2 : R) ^ (e - 52))
    (hnear : |x - y| < (2 : R) ^ (e - 53)) : roundDouble x = y := by
  have hpos : (0 : R) < |x| := lt_of_lt_of_le (zpow_pos (by norm_num) e) h1
  have hx : x ≠ 0 := abs_pos.mp hpos
  have hlog : Int.log 2 |x| = e := by
    have ha : e ≤ Int.log 2 |x| := (Int.zpow_le_iff_le_log (by norm_num) hpos).mp (by
      simpa using h1)
    have hb : Int.log 2 |x| < e + 1 := (Int.lt_zpow_iff_log_lt (by norm_num) hpos).mp (by
      simpa using h2)
    omega
  have hs : (0 : R) < (2 : R) ^ (e - 52) := zpow_pos (by norm_num) _
  have hhalf : (2 : R) ^ (e - 53) = (2 : R) ^ (e - 52) / 2 := by
    rw [show e - 53 = e - 52 - 1 from by ring, zpow_sub_one₀ (by norm_num)]
    ring
  have hq : |x / (2 : R) ^ (e - 52) - (m : R)| < 1 / 2 := by
    have : x / (2 : R) ^ (e - 52) - (m : R) = (x - y) / (2 : R) ^ (e - 52) := by
      rw [hy]
      field_simp
      ring
    rw [this, abs_div, abs_of_pos hs, div_lt_iff₀ hs]
    calc |x - y| < (2 : R) ^ (e - 53) := hnear
      _ = 1 / 2 * (2 : R) ^ (e - 52) := by rw [hhalf]; ring
  obtain ⟨hlo, hhi⟩ := abs_lt.mp hq
  unfold roundDouble
  rw [if_neg hx, hlog]
  dsimp only
  rw [hy]
  congr 1
  by_cases hge : (m : R) ≤ x / (2 : R) ^ (e - 52)
  · have hf : ⌊x / (2 : R) ^ (e - 52)⌋ = m := by
      rw [Int.floor_eq_iff]
      constructor
      · exact hge
      · linarith
    rw [hf, if_pos (by linarith)]
  · have hf : ⌊x / (2 : R) ^ (e - 52)⌋ = m - 1 := by
      rw [Int.floor_eq_iff]
      push_cast
      constructor
      · linarith
      · linarith [not_le.mp hge]
    rw [hf]
    push_cast
    rw [if_neg (by linarith), if_pos (by linarith)]
    ring

/-- The value of `addDouble` at a positive sum: when the exact sum lies in the
binade of `e` and `y` is a multiple of the spacing `2 ^ (e - 52)` less than
half a spacing from it, the host sum is `y`. -/
theorem addDouble_eq (a b y : R) (e m : ℤ) (h1 : (2 : R) ^ e ≤ a + b)
    (h2 : a + b < (2 : R) ^ (e + 1)) (hy : y = (m : R) * (2 : R) ^ (e - 52))
    (hlo : y - (2 : R) ^ (e - 53) < a + b) (hhi : a + b < y + (2 : R) ^ (e - 53)) :
    addDouble a b = y := by
  have hpos : (0 : R) < a + b := lt_of_lt_of_le (zpow_pos (by norm_num) e) h1
  refine roundDouble_eq (a + b) y e m ?_ ?_ hy ?_
  · rwa [abs_of_pos hpos]
  · rwa [abs_of_pos hpos]
  · rw [abs_lt]
    constructor <;> linarith

/-- The value of `roundDouble` half-way between two doubles: when `x` lies in
the binade of `e` and is `f + 1 / 2` spacings, the rounding of `x` is the even
one of `f` and `f + 1` spacings. -/
theorem roundDouble_tie (x y : R) (e f m : ℤ) (h1 : (2 : R) ^ e ≤ |x|)
    (h2 : |x| < (2 : R) ^ (e + 1)) (hx : x = ((f : R) + 1 / 2) * (2 : R) ^ (e - 52))
    (hm : m = if f % 2 = 0 then f else f + 1) (hy : y = (m : R) * (2 : R) ^ (e - 52)) :
    roundDouble x = y := by
  have hpos : (0 : R) < |x| := lt_of_lt_of_le (zpow_pos (by norm_num) e) h1
  have hx0 : x ≠ 0 := abs_pos.mp hpos
  have hlog : Int.log 2 |x| = e := by
    have ha : e ≤ Int.log 2 |x| := (Int.zpow_le_iff_le_log (by norm_num) hpos).mp (by
      simpa using h1)
    have hb : Int.log 2 |x| < e + 1 := (Int.lt_zpow_iff_log_lt (by norm_num) hpos).mp (by
      simpa using h2)
    omega
  have hs : (0 : R) < (2 : R) ^ (e - 52) := zpow_pos (by norm_num) _
  have hq : x / (2 : R) ^ (e - 52) = (f : R) + 1 / 2 := by
    rw [hx]
    field_simp
    ring
  have hf : ⌊x / (2 : R) ^ (e - 52)⌋ = f := by
    rw [Int.floor_eq_iff, hq]
    constructor <;> linarith
  unfold roundDouble
  rw [if_neg hx0, hlog]
  dsimp only
  rw [hf, hq, hy, hm, if_neg (by norm_num), if_neg (by norm_num)]

/-- The value of `addDouble` at a positive sum half-way between two
doubles. -/
theorem addDouble_tie (a b y : R) (e f m : ℤ) (h1 : (2 : R) ^ e ≤ a + b)
    (h2 : a + b < (2 : R) ^ (e + 1))
    (hx : a + b = ((f : R) + 1 / 2) * (2 : R) ^ (e - 52))
    (hm : m = if f % 2 = 0 then f else f + 1) (hy : y = (m : R) * (2 : R) ^ (e - 52)) :
    addDouble a b = y := by
  have hpos : (0 : R) < a + b := lt_of_lt_of_le (zpow_pos (by norm_num) e) h1
  refine roundDouble_tie (a + b) y e f m ?_ ?_ hx hm hy
  · rwa [abs_of_pos hpos]
  · rwa [abs_of_pos hpos]

end Double

section DoubleScenario

/-- The number `frameTime` is the double that the literal `0.12` denotes. -/
theorem frameTime_nearest : roundDouble (0.12 : ℝ) = frameTime := by
  apply roundDouble_eq _ _ (-4) 8646911284551352
  · rw [abs_of_pos (by norm_num)]
    norm_num
  · rw [abs_of_pos (by norm_num)]
    norm_num
  · norm_num [frameTime]
  · rw [abs_lt]
    constructor <;> norm_num [frameTime]

/-- Twenty-five host additions of `frameTime` from 0, each rounded to a double,
leave `3 + 2 ^ (-49)`, which is above 3, while the value after twenty-four is
below 3 and the exact sum of the twenty-five durations is `3 - 2 ^ (-53)`. -/
theorem accumulate_frames :
    accumulate addDouble 0 (List.replicate 24 (frameTime : ℝ)) =
      (207525870829232576 : ℝ) / 2 ^ 56 ∧
    accumulate addDouble 0 (List.replicate 25 (frameTime : ℝ)) =
      (216172782113783936 : ℝ) / 2 ^ 56 ∧
    (List.replicate 25 (frameTime : ℝ)).sum = 27021597764222975 / 2 ^ 53 := by
  have hd : (frameTime : ℝ) = (8646911284551352 : ℝ) / 2 ^ 56 := by
    norm_num [frameTime]
  have h1 : addDouble (0) ((8646911284551352 : ℝ) / 2 ^ 56) =
      (8646911284551352 : ℝ) / 2 ^ 56 := by
    apply addDouble_eq _ _ _ (-4) 8646911284551352 <;> norm_num
  have h2 : addDouble ((8646911284551352 : ℝ) / 2 ^ 56) ((8646911284551352 : ℝ) / 2 ^ 56) =
      (17293822569102704 : ℝ) / 2 ^ 56 := by
    apply addDouble_eq _ _ _ (-3) 8646911284551352 <;> norm_num
  have h3 : addDouble ((17293822569102704 : ℝ) / 2 ^ 56) ((8646911284551352 : ℝ) / 2 ^ 56) =
      (25940733853654056 : ℝ) / 2 ^ 56 := by
    apply addDouble_eq _ _ _ (-2) 6485183463413514 <;> norm_num
  have h4 : addDouble ((25940733853654056 : ℝ) / 2 ^ 56) ((8646911284551352 : ℝ) / 2 ^ 56) =
      (34587645138205408 : ℝ) / 2 ^ 56 := by
    apply addDouble_eq _ _ _ (-2) 8646911284551352 <;> norm_num
  have h5 : addDouble ((34587645138205408 : ℝ) / 2 ^ 56) ((8646911284551352 : ℝ) / 2 ^ 56) =
      (43234556422756760 : ℝ) / 2 ^ 56 := by
    apply addDouble_eq _ _ _ (-1) 5404319552844595 <;> norm_num
  have h6 : addDouble ((43234556422756760 : ℝ) / 2 ^ 56) ((8646911284551352 : ℝ) / 2 ^ 56) =
      (51881467707308112 : ℝ) / 2 ^ 56 := by
    apply addDouble_eq _ _ _ (-1) 6485183463413514 <;> norm_num
  have h7 : addDouble ((51881467707308112 : ℝ) / 2 ^ 56) ((8646911284551352 : ℝ) / 2 ^ 56) =
      (60528378991859464 : ℝ) / 2 ^ 56 := by
    apply addDouble_eq _ _ _ (-1) 7566047373982433 <;> norm_num
  have h8 : addDouble ((60528378991859464 : ℝ) / 2 ^ 56) ((8646911284551352 : ℝ) / 2 ^ 56) =
      (69175290276410816 : ℝ) / 2 ^ 56 := by
    apply addDouble_eq _ _ _ (-1) 8646911284551352 <;> norm_num
  have h9 : addDouble ((69175290276410816 : ℝ) / 2 ^ 56) ((8646911284551352 : ℝ) / 2 ^ 56) =
      (77822201560962176 : ℝ) / 2 ^ 56 := by
    apply addDouble_tie _ _ _ (0) 4863887597560135 4863887597560136 <;> norm_num
  have h10 : addDouble ((77822201560962176 : ℝ) / 2 ^ 56) ((8646911284551352 : ℝ) / 2 ^ 56) =
      (86469112845513536 : ℝ) / 2 ^ 56 := by
    apply addDouble_tie _ _ _ (0) 5404319552844595 5404319552844596 <;> norm_num
  have h11 : addDouble ((86469112845513536 : ℝ) / 2 ^ 56) ((8646911284551352 : ℝ) / 2 ^ 56) =
      (95116024130064896 : ℝ) / 2 ^ 56 := by
    apply addDouble_tie _ _ _ (0) 5944751508129055 5944751508129056 <;> norm_num
  have h12 : addDouble ((95116024130064896 : ℝ) / 2 ^ 56) ((8646911284551352 : ℝ) / 2 ^ 56) =
      (103762935414616256 : ℝ) / 2 ^ 56 := by
    apply addDouble_tie _ _ _ (0) 6485183463413515 6485183463413516 <;> norm_num
  have h13 : addDouble ((103762935414616256 : ℝ) / 2 ^ 56) ((8646911284551352 : ℝ) / 2 ^ 56) =
      (112409846699167616 : ℝ) / 2 ^ 56 := by
    apply addDouble_tie _ _ _ (0) 7025615418697975 7025615418697976 <;> norm_num
  have h14 : addDouble ((112409846699167616 : ℝ) / 2 ^ 56) ((8646911284551352 : ℝ) / 2 ^ 56) =
      (121056757983718976 : ℝ) / 2 ^ 56 := by
    apply addDouble_tie _ _ _ (0) 7566047373982435 7566047373982436 <;> norm_num
  have h15 : addDouble ((121056757983718976 : ℝ) / 2 ^ 56) ((8646911284551352 : ℝ) / 2 ^ 56) =
      (129703669268270336 : ℝ) / 2 ^ 56 := by
    apply addDouble_tie _ _ _ (0) 8106479329266895 8106479329266896 <;> norm_num
  have h16 : addDouble ((129703669268270336 : ℝ) / 2 ^ 56) ((8646911284551352 : ℝ) / 2 ^ 56) =
      (138350580552821696 : ℝ) / 2 ^ 56 := by
    apply addDouble_tie _ _ _ (0) 8646911284551355 8646911284551356 <;> norm_num
  have h17 : addDouble ((138350580552821696 : ℝ) / 2 ^ 56) ((8646911284551352 : ℝ) / 2 ^ 56) =
      (146997491837373056 : ℝ) / 2 ^ 56 := by
    apply addDouble_eq _ _ _ (1) 4593671619917908 <;> norm_num
  have h18 : addDouble ((146997491837373056 : ℝ) / 2 ^ 56) ((8646911284551352 : ℝ) / 2 ^ 56) =
      (155644403121924416 : ℝ) / 2 ^ 56 := by
    apply addDouble_eq _ _ _ (1) 4863887597560138 <;> norm_num
  have h19 : addDouble ((155644403121924416 : ℝ) / 2 ^ 56) ((8646911284551352 : ℝ) / 2 ^ 56) =
      (164291314406475776 : ℝ) / 2 ^ 56 := by
    apply addDouble_eq _ _ _ (1) 5134103575202368 <;> norm_num
  have h20 : addDouble ((164291314406475776 : ℝ) / 2 ^ 56) ((8646911284551352 : ℝ) / 2 ^ 56) =
      (172938225691027136 : ℝ) / 2 ^ 56 := by
    apply addDouble_eq _ _ _ (1) 5404319552844598 <;> norm_num
  have h21 : addDouble ((172938225691027136 : ℝ) / 2 ^ 56) ((8646911284551352 : ℝ) / 2 ^ 56) =
      (181585136975578496 : ℝ) / 2 ^ 56 := by
    apply addDouble_eq _ _ _ (1) 5674535530486828 <;> norm_num
  have h22 : addDouble ((181585136975578496 : ℝ) / 2 ^ 56) ((8646911284551352 : ℝ) / 2 ^ 56) =
      (190232048260129856 : ℝ) / 2 ^ 56 := by
    apply addDouble_eq _ _ _ (1) 5944751508129058 <;> norm_num
  have h23 : addDouble ((190232048260129856 : ℝ) / 2 ^ 56) ((8646911284551352 : ℝ) / 2 ^ 56) =
      (198878959544681216 : ℝ) / 2 ^ 56 := by
    apply addDouble_eq _ _ _ (1) 6214967485771288 <;> norm_num
  have h24 : addDouble ((198878959544681216 : ℝ) / 2 ^ 56) ((8646911284551352 : ℝ) / 2 ^ 56) =
      (207525870829232576 : ℝ) / 2 ^ 56 := by
    apply addDouble_eq _ _ _ (1) 6485183463413518 <;> norm_num
  have h25 : addDouble ((207525870829232576 : ℝ) / 2 ^ 56) ((8646911284551352 : ℝ) / 2 ^ 56) =
      (216172782113783936 : ℝ) / 2 ^ 56 := by
    apply addDouble_eq _ _ _ (1) 6755399441055748 <;> norm_num
  refine ⟨?_, ?_, ?_⟩
  · simp only [List.replicate, accumulate]
    rw [hd, h1, h2, h3, h4, h5, h6, h7, h8, h9, h10, h11, h12, h13, h14, h15, h16, h17, h18, h19,
      h20, h21, h22, h23, h24]
  · simp only [List.replicate, accumulate]
    rw [hd, h1, h2, h3, h4, h5, h6, h7, h8, h9, h10, h11, h12, h13, h14, h15, h16, h17, h18, h19,
      h20, h21, h22, h23, h24, h25]
  · rw [List.sum_replicate]
    norm_num [frameTime]

end DoubleScenario

section ForgettingScenario

/-- The host sums of the run of one-second ticks: `0 + 1`, `1 + 1`, `2 + 1` and
`3 + 0.125` are doubles, so the host addition returns them exactly. -/
theorem addDouble_seconds :
    addDouble (0 : ℝ) 1 = 1 ∧ addDouble (1 : ℝ) 1 = 2 ∧ addDouble (2 : ℝ) 1 = 3 ∧
    addDouble (3 : ℝ) 0.125 = 3.125 := by
  refine ⟨?_, ?_, ?_, ?_⟩
  · apply addDouble_eq _ _ _ 0 (2 ^ 52) <;> norm_num
  · apply addDouble_eq _ _ _ 1 (2 ^ 52) <;> norm_num
  · apply addDouble_eq _ _ _ 1 (3 * 2 ^ 51) <;> norm_num
  · apply addDouble_eq _ _ _ 1 (25 * 2 ^ 48) <;> norm_num

/-- A run of ticks with the target behind `sampleWall` never shows the target
to the sample agent. -/
theorem neverSeen_hiddenTicks (add : ℝ → ℝ → ℝ) (st : AIState) (h : ℝ)
    (durations : List ℝ) :
    neverSeen add Real.sqrt (sampleAgent st h) (durations.map hiddenTick) = true := by
  apply neverSeen_of_hidden
  intro t ht
  obtain ⟨d, -, rfl⟩ := List.mem_map.mp ht
  exact sampleWall_hides _ _

/-- C9 fails when the cumulative dt is the sum of the tick durations: the agent
in state chase with `lastReactionTime = 0` and health 75 (threshold 20) goes
through twenty-five ticks of `frameTime`, the double that `0.12` denotes, with
the target hidden. The durations sum to `3 - 2 ^ (-53)`, which is at most 3.0,
but the twenty-five additions of `lastReactionTime += deltaTime`, each rounded
to a double, leave `3 + 2 ^ (-49)`: the state after the twenty-fifth tick is
patrol, not chase. -/
theorem chase_forgets_before_three :
    (sampleAgent AIState.chase (75 : ℝ)).state = AIState.chase ∧
    (sampleAgent AIState.chase (75 : ℝ)).lastReactionTime = 0 ∧
    (sampleAgent AIState.chase (75 : ℝ)).fleeHealthThreshold ≤
      (sampleAgent AIState.chase (75 : ℝ)).health ∧
    (∀ t ∈ (List.replicate 25 (frameTime : ℝ)).map hiddenTick, 0 < t.deltaTime) ∧
    neverSeen addDouble Real.sqrt (sampleAgent AIState.chase (75 : ℝ))
      ((List.replicate 25 (frameTime : ℝ)).map hiddenTick) = true ∧
    (((List.replicate 25 (frameTime : ℝ)).map hiddenTick).map Tick.deltaTime).sum ≤ 3.0 ∧
    (runAI addDouble Real.sqrt (sampleAgent AIState.chase (75 : ℝ))
      ((List.replicate 25 (frameTime : ℝ)).map hiddenTick)).lastReactionTime =
        216172782113783936 / 2 ^ 56 ∧
    (runAI addDouble Real.sqrt (sampleAgent AIState.chase (75 : ℝ))
      ((List.replicate 25 (frameTime : ℝ)).map hiddenTick)).state = AIState.patrol := by
  have hmap : ((List.replicate 25 (frameTime : ℝ)).map hiddenTick).map Tick.deltaTime =
      List.replicate 25 (frameTime : ℝ) := rfl
  have hun := neverSeen_hiddenTicks addDouble AIState.chase 75 (List.replicate 25 frameTime)
  obtain ⟨-, h25, hsum⟩ := accumulate_frames
  obtain ⟨h1, -, h3⟩ := runAI_unseen addDouble Real.sqrt
    ((List.replicate 25 (frameTime : ℝ)).map hiddenTick) (sampleAgent AIState.chase 75)
    (by norm_num [sampleAgent, Enemy.new]) hun
  obtain ⟨hor, hiff⟩ := h3 rfl (by norm_num [sampleAgent, Enemy.new])
  rw [hmap, show (sampleAgent AIState.chase (75 : ℝ)).lastReactionTime = 0 from rfl, h25] at h1
  refine ⟨rfl, rfl, by norm_num [sampleAgent, Enemy.new], ?_, hun, ?_, h1, ?_⟩
  · intro t ht
    obtain ⟨d, hd, rfl⟩ := List.mem_map.mp ht
    rw [List.eq_of_mem_replicate hd]
    norm_num [hiddenTick, frameTime]
  · rw [hmap, hsum]
    norm_num
  · rcases hor with hc | hp
    · have hle := hiff.mp hc 25
      rw [show List.take 25 ((List.replicate 25 (frameTime : ℝ)).map hiddenTick) =
        (List.replicate 25 (frameTime : ℝ)).map hiddenTick from rfl, hmap,
        show (sampleAgent AIState.chase (75 : ℝ)).lastReactionTime = 0 from rfl, h25] at hle
      norm_num at hle
    · exact hp

/-- C9 as amended, at a concrete run with the host addition of doubles: ticks of
1, 1, 1 and 0.125 seconds with the target hidden behind a wall. The additions
leave 1, 2, 3 and 3.125 in `lastReactionTime`: after the first three ticks the
state is chase, after the fourth it is patrol. -/
theorem chase_forgets_witness :
    (sampleAgent AIState.chase (75 : ℝ)).state = AIState.chase ∧
    (sampleAgent AIState.chase (75 : ℝ)).lastReactionTime = 0 ∧
    (sampleAgent AIState.chase (75 : ℝ)).fleeHealthThreshold ≤
      (sampleAgent AIState.chase (75 : ℝ)).health ∧
    neverSeen addDouble Real.sqrt (sampleAgent AIState.chase (75 : ℝ))
      ([1, 1, 1, 0.125].map hiddenTick) = true ∧
    (runAI addDouble Real.sqrt (sampleAgent AIState.chase (75 : ℝ))
      ([1, 1, 1].map hiddenTick)).state = AIState.chase ∧
    (runAI addDouble Real.sqrt (sampleAgent AIState.chase (75 : ℝ))
      ([1, 1, 1].map hiddenTick)).lastReactionTime = 3 ∧
    (runAI addDouble Real.sqrt (sampleAgent AIState.chase (75 : ℝ))
      ([1, 1, 1, 0.125].map hiddenTick)).state = AIState.patrol ∧
    (runAI addDouble Real.sqrt (sampleAgent AIState.chase (75 : ℝ))
      ([1, 1, 1, 0.125].map hiddenTick)).lastReactionTime = 3.125 := by
  obtain ⟨a1, a2, a3, a4⟩ := addDouble_seconds
  have hun := neverSeen_hiddenTicks addDouble AIState.chase 75 [1, 1, 1, 0.125]
  have hhealth : (sampleAgent AIState.chase (75 : ℝ)).fleeHealthThreshold ≤
      (sampleAgent AIState.chase (75 : ℝ)).health := by
    norm_num [sampleAgent, Enemy.new]
  have acc0 : accumulate addDouble (0 : ℝ) [] = 0 := rfl
  have acc1 : accumulate addDouble (0 : ℝ) [1] = 1 := by
    simp only [accumulate]
    rw [a1]
  have acc2 : accumulate addDouble (0 : ℝ) [1, 1] = 2 := by
    simp only [accumulate]
    rw [a1, a2]
  have acc3 : accumulate addDouble (0 : ℝ) [1, 1, 1] = 3 := by
    simp only [accumulate]
    rw [a1, a2, a3]
  have acc4 : accumulate addDouble (0 : ℝ) [1, 1, 1, 0.125] = 3.125 := by
    simp only [accumulate]
    rw [a1, a2, a3, a4]
  obtain ⟨t3, c3, -, -⟩ := chase_forgets addDouble Real.sqrt
    (sampleAgent AIState.chase (75 : ℝ))
    ([1, 1, 1, 0.125].map hiddenTick) 3 rfl rfl hhealth hun
  obtain ⟨t4, -, p4, -⟩ := chase_forgets addDouble Real.sqrt
    (sampleAgent AIState.chase (75 : ℝ))
    ([1, 1, 1, 0.125].map hiddenTick) 4 rfl rfl hhealth hun
  refine ⟨rfl, rfl, hhealth, hun, ?_, ?_, ?_, ?_⟩
  · refine c3.mpr fun m hm => ?_
    interval_cases m
    · exact le_of_eq_of_le acc0 (by norm_num)
    · exact le_of_eq_of_le acc1 (by norm_num)
    · exact le_of_eq_of_le acc2 (by norm_num)
    · exact le_of_eq_of_le acc3 (by norm_num)
  · exact t3.trans acc3
  · exact p4.mpr ⟨4, le_rfl, lt_of_lt_of_eq (by norm_num) acc4.symm⟩
  · exact t4.trans acc4

end ForgettingScenario

section StuckScenario

/-- One tick at the origin for an agent whose `lastPosition` is the origin. -/
theorem origin_step (add : ℝ → ℝ → ℝ) (Math : JSMath ℝ) (hM : Math.IsReal)
    (e : Enemy ℝ) (t : StuckTick ℝ) (hx : t.x = 0) (hy : t.y = 0) (hl : e.lastPosition = ⟨0, 0⟩) :
    getDistanceTo Math.sqrt { e with x := t.x, y := t.y } e.lastPosition < 5 ∧
    (stuckStep add Math e t).lastPosition = ⟨0, 0⟩ ∧
    (stuckStep add Math e t).stuckTime =
      (if add e.stuckTime t.deltaTime > 2.0 then 0 else add e.stuckTime t.deltaTime) ∧
    (stuckStep add Math e t).angle =
      (if add e.stuckTime t.deltaTime > 2.0 then e.angle + (t.r - 0.5) * Math.PI
        else e.angle) := by
  have hnear : getDistanceTo Math.sqrt { e with x := t.x, y := t.y } e.lastPosition < 5 := by
    rw [hl, hM.2.1, hx, hy]
    simp [getDistanceTo]
  obtain ⟨h1, h2, h3⟩ := stuckStep_near add Math e t hnear
  rw [hx, hy] at h3
  exact ⟨hnear, h3, h1, h2⟩

/-- A run of ticks at the origin keeps an agent whose `lastPosition` is the
origin near `lastPosition`. -/
theorem alwaysNear_origin (add : ℝ → ℝ → ℝ) (Math : JSMath ℝ) (hM : Math.IsReal)
    (ticks : List (StuckTick ℝ)) :
    ∀ e : Enemy ℝ, (∀ t ∈ ticks, t.x = 0 ∧ t.y = 0) → e.lastPosition = ⟨0, 0⟩ →
      alwaysNear add Math e ticks = true := by
  induction ticks with
  | nil => intro e _ _; rfl
  | cons t rest ih =>
    intro e h hl
    obtain ⟨n1, l1, -, -⟩ := origin_step add Math hM e t (h t (List.mem_cons_self _ _)).1
      (h t (List.mem_cons_self _ _)).2 hl
    simp only [alwaysNear, Bool.and_eq_true, decide_eq_true_eq]
    exact ⟨n1, ih _ (fun s hs => h s (List.mem_cons_of_mem _ hs)) l1⟩

/-- Three `stillTick`s from `stuckTime = 0` with the host addition of doubles:
the timer holds 1, 2 and then 3, so the heading is kicked at the third tick and
the timer is back at 0. -/
theorem still_three (Math : JSMath ℝ) (hM : Math.IsReal) (e : Enemy ℝ)
    (hl : e.lastPosition = ⟨0, 0⟩) (h0 : e.stuckTime = 0) :
    headingChanges addDouble Math e [stillTick, stillTick, stillTick] = [false, false, true] ∧
    (stuckRun addDouble Math e [stillTick, stillTick, stillTick]).lastPosition = ⟨0, 0⟩ ∧
    (stuckRun addDouble Math e [stillTick, stillTick, stillTick]).stuckTime = 0 := by
  obtain ⟨d1, d2, d3, -⟩ := addDouble_seconds
  obtain ⟨-, l1, t1, a1⟩ := origin_step addDouble Math hM e stillTick rfl rfl hl
  obtain ⟨-, l2, t2, a2⟩ := origin_step addDouble Math hM (stuckStep addDouble Math e stillTick)
    stillTick rfl rfl l1
  obtain ⟨-, l3, t3, a3⟩ := origin_step addDouble Math hM
    (stuckStep addDouble Math (stuckStep addDouble Math e stillTick) stillTick)
    stillTick rfl rfl l2
  have hdt : (stillTick : StuckTick ℝ).deltaTime = 1 := rfl
  rw [hdt] at t1 a1 t2 a2 t3 a3
  rw [h0, d1, if_neg (by norm_num)] at t1 a1
  rw [t1, d2, if_neg (by norm_num)] at t2 a2
  rw [t2, d3, if_pos (by norm_num)] at t3 a3
  have hpi := Math.PI_pos
  refine ⟨?_, l3, t3⟩
  simp only [headingChanges]
  rw [a1, a3, a2, a1]
  simp only [List.cons.injEq, decide_eq_false_iff_not, decide_eq_true_eq, ne_eq, not_not,
    and_true, true_and]
  intro hc
  have hr : (stillTick : StuckTick ℝ).r = 0 := rfl
  rw [hr] at hc
  linarith

/-- C21 fails on a run of six ticks of one second each at zero displacement
that starts with `stuckTime = 0`: the heading is altered on two ticks, the third
and the sixth, not on exactly one. The sums 1, 2 and 3 are doubles, so the host
addition returns them exactly. -/
theorem checkIfStuck_kicks_twice :
    withRealMath fun Math =>
      (sampleAgent AIState.patrol (75 : ℝ)).stuckTime = 0 ∧
      alwaysNear addDouble Math (sampleAgent AIState.patrol (75 : ℝ))
        ([stillTick, stillTick, stillTick] ++ [stillTick, stillTick, stillTick]) = true ∧
      headingChanges addDouble Math (sampleAgent AIState.patrol (75 : ℝ))
        ([stillTick, stillTick, stillTick] ++ [stillTick, stillTick, stillTick]) =
          [false, false, true, false, false, true] := by
  apply withRealMath_intro
  intro Math hM
  obtain ⟨c1, l1, t1⟩ := still_three Math hM (sampleAgent AIState.patrol (75 : ℝ)) rfl rfl
  obtain ⟨c2, -, -⟩ := still_three Math hM
    (stuckRun addDouble Math (sampleAgent AIState.patrol (75 : ℝ))
      [stillTick, stillTick, stillTick])
    l1 t1
  refine ⟨rfl, alwaysNear_origin addDouble Math hM _ _ ?_ rfl, ?_⟩
  · intro t ht
    simp only [List.cons_append, List.nil_append, List.mem_cons, List.mem_singleton,
      List.not_mem_nil, or_false, or_self] at ht
    rw [ht]
    exact ⟨rfl, rfl⟩
  · rw [headingChanges_append, c1, c2]
    rfl

/-- C21 as amended, at a concrete input with the host addition of doubles: three
ticks of one second each at zero displacement from `stuckTime = 0`. The timer
holds 1 and 2 after the first two ticks; the third makes it 3, which kicks the
heading by `(0 - 0.5) * π` and leaves `stuckTime = 0`. -/
theorem checkIfStuck_first_kick_witness :
    withRealMath fun Math =>
      (sampleAgent AIState.patrol (75 : ℝ)).stuckTime = 0 ∧
      alwaysNear addDouble Math (sampleAgent AIState.patrol (75 : ℝ))
        ([stillTick, stillTick] ++ [stillTick]) = true ∧
      (stuckRun addDouble Math (sampleAgent AIState.patrol (75 : ℝ))
        [stillTick, stillTick]).stuckTime = 2 ∧
      (stuckRun addDouble Math (sampleAgent AIState.patrol (75 : ℝ))
        ([stillTick, stillTick] ++ [stillTick])).angle =
          (sampleAgent AIState.patrol (75 : ℝ)).angle +
            ((stillTick : StuckTick ℝ).r - 0.5) * Math.PI ∧
      (stuckRun addDouble Math (sampleAgent AIState.patrol (75 : ℝ))
        ([stillTick, stillTick] ++ [stillTick])).stuckTime = 0 := by
  apply withRealMath_intro
  intro Math hM
  obtain ⟨d1, d2, d3, -⟩ := addDouble_seconds
  have hnear : alwaysNear addDouble Math (sampleAgent AIState.patrol (75 : ℝ))
      ([stillTick, stillTick] ++ [stillTick]) = true := by
    refine alwaysNear_origin addDouble Math hM _ _ ?_ rfl
    intro t ht
    simp only [List.cons_append, List.nil_append, List.mem_cons, List.mem_singleton,
      List.not_mem_nil, or_false, or_self] at ht
    rw [ht]
    exact ⟨rfl, rfl⟩
  have acc2 : accumulate addDouble (0 : ℝ)
      (([stillTick, stillTick] : List (StuckTick ℝ)).map StuckTick.deltaTime) = 2 := by
    simp only [List.map, accumulate, stillTick]
    rw [d1, d2]
  obtain ⟨⟨-, hquiet⟩, hangle, htime, -⟩ := checkIfStuck_first_kick addDouble Math
    (sampleAgent AIState.patrol (75 : ℝ)) [stillTick, stillTick] stillTick 2 rfl hnear
    (by
      intro m
      rcases m with _ | _ | m
      · simp only [List.take, List.map, accumulate]
        norm_num
      · simp only [List.take, List.map, accumulate, stillTick]
        rw [d1]
        norm_num
      · simp only [List.take, List.map, accumulate, stillTick]
        rw [d1, d2]
        norm_num [accumulate])
    (by
      rw [acc2]
      show addDouble (2 : ℝ) 1 > 2.0
      rw [d3]
      norm_num)
  exact ⟨rfl, hnear, hquiet.trans acc2, hangle, htime⟩

/-- The number `fifthSecond` is the double that the literal `0.2` denotes. -/
theorem fifthSecond_nearest : roundDouble (0.2 : ℝ) = fifthSecond := by
  apply roundDouble_eq _ _ (-3) 7205759403792794
  · rw [abs_of_pos (by norm_num)]
    norm_num
  · rw [abs_of_pos (by norm_num)]
    norm_num
  · norm_num [fifthSecond]
  · rw [abs_lt]
    constructor <;> norm_num [fifthSecond]

/-- The timer after up to eleven host additions of `fifthSecond` from 0, each
rounded to a double: after ten it is `2 - 2 ^ (-52)`, at most 2.0, while the
ten durations sum to more than 2.0; after eleven it is above 2.0. -/
theorem accumulate_fifths :
    (∀ m : Nat,
      accumulate addDouble 0 ((List.replicate 10 (fifthSecond : ℝ)).take m) ≤ 2.0) ∧
    accumulate addDouble 0 (List.replicate 10 (fifthSecond : ℝ)) =
      (36028797018963964 : ℝ) / 2 ^ 54 ∧
    addDouble ((36028797018963964 : ℝ) / 2 ^ 54) fifthSecond > 2.0 ∧
    (2.0 : ℝ) < (List.replicate 10 (fifthSecond : ℝ)).sum := by
  have hd : (fifthSecond : ℝ) = (3602879701896397 : ℝ) / 2 ^ 54 := by
    norm_num [fifthSecond]
  have h1 : addDouble (0) ((3602879701896397 : ℝ) / 2 ^ 54) =
      (3602879701896397 : ℝ) / 2 ^ 54 := by
    apply addDouble_eq _ _ _ (-3) 7205759403792794 <;> norm_num
  have h2 : addDouble ((3602879701896397 : ℝ) / 2 ^ 54) ((3602879701896397 : ℝ) / 2 ^ 54) =
      (7205759403792794 : ℝ) / 2 ^ 54 := by
    apply addDouble_eq _ _ _ (-2) 7205759403792794 <;> norm_num
  have h3 : addDouble ((7205759403792794 : ℝ) / 2 ^ 54) ((3602879701896397 : ℝ) / 2 ^ 54) =
      (10808639105689192 : ℝ) / 2 ^ 54 := by
    apply addDouble_tie _ _ _ (-1) 5404319552844595 5404319552844596 <;> norm_num
  have h4 : addDouble ((10808639105689192 : ℝ) / 2 ^ 54) ((3602879701896397 : ℝ) / 2 ^ 54) =
      (14411518807585588 : ℝ) / 2 ^ 54 := by
    apply addDouble_tie _ _ _ (-1) 7205759403792794 7205759403792794 <;> norm_num
  have h5 : addDouble ((14411518807585588 : ℝ) / 2 ^ 54) ((3602879701896397 : ℝ) / 2 ^ 54) =
      (18014398509481984 : ℝ) / 2 ^ 54 := by
    apply addDouble_eq _ _ _ (0) 4503599627370496 <;> norm_num
  have h6 : addDouble ((18014398509481984 : ℝ) / 2 ^ 54) ((3602879701896397 : ℝ) / 2 ^ 54) =
      (21617278211378380 : ℝ) / 2 ^ 54 := by
    apply addDouble_eq _ _ _ (0) 5404319552844595 <;> norm_num
  have h7 : addDouble ((21617278211378380 : ℝ) / 2 ^ 54) ((3602879701896397 : ℝ) / 2 ^ 54) =
      (25220157913274776 : ℝ) / 2 ^ 54 := by
    apply addDouble_eq _ _ _ (0) 6305039478318694 <;> norm_num
  have h8 : addDouble ((25220157913274776 : ℝ) / 2 ^ 54) ((3602879701896397 : ℝ) / 2 ^ 54) =
      (28823037615171172 : ℝ) / 2 ^ 54 := by
    apply addDouble_eq _ _ _ (0) 7205759403792793 <;> norm_num
  have h9 : addDouble ((28823037615171172 : ℝ) / 2 ^ 54) ((3602879701896397 : ℝ) / 2 ^ 54) =
      (32425917317067568 : ℝ) / 2 ^ 54 := by
    apply addDouble_eq _ _ _ (0) 8106479329266892 <;> norm_num
  have h10 : addDouble ((32425917317067568 : ℝ) / 2 ^ 54) ((3602879701896397 : ℝ) / 2 ^ 54) =
      (36028797018963964 : ℝ) / 2 ^ 54 := by
    apply addDouble_eq _ _ _ (0) 9007199254740991 <;> norm_num
  have h11 : addDouble ((36028797018963964 : ℝ) / 2 ^ 54) ((3602879701896397 : ℝ) / 2 ^ 54) =
      (39631676720860360 : ℝ) / 2 ^ 54 := by
    apply addDouble_eq _ _ _ (1) 4953959590107545 <;> norm_num
  refine ⟨?_, ?_, ?_, ?_⟩
  · intro m
    have hcases : m = 0 ∨ m = 1 ∨ m = 2 ∨ m = 3 ∨ m = 4 ∨ m = 5 ∨ m = 6 ∨ m = 7 ∨ m = 8 ∨
        m = 9 ∨ 10 ≤ m := by
      omega
    rcases hcases with rfl | rfl | rfl | rfl | rfl | rfl | rfl | rfl | rfl | rfl | h
    · show accumulate addDouble 0 ([] : List ℝ) ≤ 2.0
      simp only [accumulate]
      norm_num
    · show accumulate addDouble 0 (List.replicate 1 (fifthSecond : ℝ)) ≤ 2.0
      simp only [List.replicate, accumulate]
      rw [hd, h1]
      norm_num
    · show accumulate addDouble 0 (List.replicate 2 (fifthSecond : ℝ)) ≤ 2.0
      simp only [List.replicate, accumulate]
      rw [hd, h1, h2]
      norm_num
    · show accumulate addDouble 0 (List.replicate 3 (fifthSecond : ℝ)) ≤ 2.0
      simp only [List.replicate, accumulate]
      rw [hd, h1, h2, h3]
      norm_num
    · show accumulate addDouble 0 (List.replicate 4 (fifthSecond : ℝ)) ≤ 2.0
      simp only [List.replicate, accumulate]
      rw [hd, h1, h2, h3, h4]
      norm_num
    · show accumulate addDouble 0 (List.replicate 5 (fifthSecond : ℝ)) ≤ 2.0
      simp only [List.replicate, accumulate]
      rw [hd, h1, h2, h3, h4, h5]
      norm_num
    · show accumulate addDouble 0 (List.replicate 6 (fifthSecond : ℝ)) ≤ 2.0
      simp only [List.replicate, accumulate]
      rw [hd, h1, h2, h3, h4, h5, h6]
      norm_num
    · show accumulate addDouble 0 (List.replicate 7 (fifthSecond : ℝ)) ≤ 2.0
      simp only [List.replicate, accumulate]
      rw [hd, h1, h2, h3, h4, h5, h6, h7]
      norm_num
    · show accumulate addDouble 0 (List.replicate 8 (fifthSecond : ℝ)) ≤ 2.0
      simp only [List.replicate, accumulate]
      rw [hd, h1, h2, h3, h4, h5, h6, h7, h8]
      norm_num
    · show accumulate addDouble 0 (List.replicate 9 (fifthSecond : ℝ)) ≤ 2.0
      simp only [List.replicate, accumulate]
      rw [hd, h1, h2, h3, h4, h5, h6, h7, h8, h9]
      norm_num
    · rw [List.take_replicate, min_eq_right h]
      simp only [List.replicate, accumulate]
      rw [hd, h1, h2, h3, h4, h5, h6, h7, h8, h9, h10]
      norm_num
  · simp only [List.replicate, accumulate]
    rw [hd, h1, h2, h3, h4, h5, h6, h7, h8, h9, h10]
  · rw [hd, h11]
    norm_num
  · rw [List.sum_replicate]
    norm_num [fifthSecond]

/-- The kick waits for the timer of the code, not for the sum of the durations:
over eleven `shortTick`s at zero displacement from `stuckTime = 0`, the
durations of the first ten sum to more than 2.0, but the heading is untouched
after ten ticks, where `stuckTime` is `2 - 2 ^ (-52)`, and is kicked at the
eleventh. -/
theorem checkIfStuck_kick_at_eleventh :
    withRealMath fun Math =>
      (2.0 : ℝ) <
        ((List.replicate 10 (shortTick : StuckTick ℝ)).map StuckTick.deltaTime).sum ∧
      headingChanges addDouble Math (sampleAgent AIState.patrol (75 : ℝ))
        (List.replicate 10 shortTick ++ [shortTick]) =
          List.replicate 10 false ++ [true] := by
  apply withRealMath_intro
  intro Math hM
  obtain ⟨hle, h10, hgt, hsum⟩ := accumulate_fifths
  have hmap : (List.replicate 10 (shortTick : StuckTick ℝ)).map StuckTick.deltaTime =
      List.replicate 10 (fifthSecond : ℝ) := rfl
  have horigin : ∀ n : Nat, ∀ t ∈ List.replicate n (shortTick : StuckTick ℝ),
      t.x = 0 ∧ t.y = 0 := by
    intro n t ht
    rw [List.eq_of_mem_replicate ht]
    exact ⟨rfl, rfl⟩
  have hnear : alwaysNear addDouble Math (sampleAgent AIState.patrol (75 : ℝ))
      (List.replicate 10 shortTick ++ [shortTick]) = true := by
    refine alwaysNear_origin addDouble Math hM _ _ (fun t ht => ?_) rfl
    rw [show List.replicate 10 (shortTick : StuckTick ℝ) ++ [shortTick] =
      List.replicate 11 shortTick from rfl] at ht
    exact horigin 11 t ht
  obtain ⟨hn1, hn2⟩ := (alwaysNear_append addDouble Math _ _ _).mp hnear
  have hle2 : ∀ m : Nat, accumulate addDouble (sampleAgent AIState.patrol (75 : ℝ)).stuckTime
      (((List.replicate 10 (shortTick : StuckTick ℝ)).take m).map StuckTick.deltaTime) ≤
        2.0 := by
    intro m
    rw [List.map_take, hmap]
    exact hle m
  obtain ⟨q1, q2⟩ := stuckRun_quiet addDouble Math _ _ hn1 hle2
  rw [hmap, show (sampleAgent AIState.patrol (75 : ℝ)).stuckTime = 0 from rfl, h10] at q2
  simp only [alwaysNear, Bool.and_eq_true, decide_eq_true_eq, and_true] at hn2
  obtain ⟨-, s2, -⟩ := stuckStep_near addDouble Math _ shortTick hn2
  rw [q2, show (shortTick : StuckTick ℝ).deltaTime = fifthSecond from rfl, if_pos hgt] at s2
  refine ⟨by rw [hmap]; exact hsum, ?_⟩
  rw [headingChanges_append, headingChanges_quiet addDouble Math _ _ hn1 hle2]
  simp only [headingChanges, List.length_replicate]
  rw [s2]
  have hpi := Math.PI_pos
  simp only [List.append_cancel_left_eq, List.cons.injEq, decide_eq_true_eq, ne_eq, and_true]
  rw [show (shortTick : StuckTick ℝ).r = 0 from rfl]
  intro hc
  linarith

end StuckScenario

section MovementScenario

/-- C27 at a concrete input: a fresh enemy at rest; the current speed is 0, the
normalization is skipped and the position stays `(0, 0)`. -/
theorem updateMovement_no_zero_division_witness :
    withRealMath fun Math =>
      (0 : ℝ) ≤ (scout : Enemy ℝ).speed ∧
      (updateMovement Math (scout : Enemy ℝ) 0.016).x = 0 ∧
      (updateMovement Math (scout : Enemy ℝ) 0.016).y = 0 := by
  apply withRealMath_intro
  intro Math hM
  have hspeed : (0 : ℝ) ≤ (scout : Enemy ℝ).speed := by norm_num [scout, Enemy.new]
  obtain ⟨-, -, hzero⟩ := updateMovement_no_zero_division Math hM scout 0.016 hspeed
  obtain ⟨-, hx, hy⟩ := hzero (by
    rw [hM.2.1]
    simp [scout, Enemy.new])
  exact ⟨hspeed, hx, hy⟩

/-- C28 at a concrete input: the cruiser moves at full speed, from `x = 100` to
`x = 100 + 120 * 0.033`, in a tick of 0.033 s that takes its stuck timer from
1.99 over 2.0; the timer restarts at 0 and the heading is kicked by `(0.75 -
0.5) * π`. -/
theorem moveAndCheck_always_stuck_witness :
    withRealMath fun Math =>
      (updateMovement Math (cruiser : Enemy ℝ) 0.033).x = 100 + 120 * 0.033 ∧
      (moveAndCheck Math sampleWorld 0.75 (cruiser : Enemy ℝ) 0.033).stuckTime = 0 ∧
      (moveAndCheck Math sampleWorld 0.75 (cruiser : Enemy ℝ) 0.033).angle =
        (cruiser : Enemy ℝ).angle + (0.75 - 0.5) * Math.PI := by
  apply withRealMath_intro
  intro Math hM
  obtain ⟨hbranch, -⟩ := moveAndCheck_always_stuck Math hM sampleWorld
    (cruiser : Enemy ℝ) 0.033
    (by norm_num [cruiser, Enemy.new]) (by norm_num [cruiser, Enemy.new])
    (by norm_num) (by norm_num)
    (by norm_num [cruiser, Enemy.new]) (by norm_num [cruiser, Enemy.new, sampleWorld])
    (by norm_num [cruiser, Enemy.new]) (by norm_num [cruiser, Enemy.new, sampleWorld])
    rfl
  obtain ⟨-, hst, hang⟩ := hbranch 0.75
  have hover : (cruiser : Enemy ℝ).stuckTime + 0.033 > 2.0 := by
    norm_num [cruiser, Enemy.new]
  rw [if_pos hover] at hst hang
  refine ⟨?_, hst, hang⟩
  obtain ⟨hv, hx, -⟩ := updateMovement_fields Math (cruiser : Enemy ℝ) 0.033
  have hs : Math.sqrt ((cruiser : Enemy ℝ).velocity.x * (cruiser : Enemy ℝ).friction *
      ((cruiser : Enemy ℝ).velocity.x * (cruiser : Enemy ℝ).friction) +
      (cruiser : Enemy ℝ).velocity.y * (cruiser : Enemy ℝ).friction *
      ((cruiser : Enemy ℝ).velocity.y * (cruiser : Enemy ℝ).friction)) = 170 := by
    rw [hM.2.1]
    have : (cruiser : Enemy ℝ).velocity.x * (cruiser : Enemy ℝ).friction *
      ((cruiser : Enemy ℝ).velocity.x * (cruiser : Enemy ℝ).friction) +
      (cruiser : Enemy ℝ).velocity.y * (cruiser : Enemy ℝ).friction *
      ((cruiser : Enemy ℝ).velocity.y * (cruiser : Enemy ℝ).friction) = 170 ^ 2 := by
      norm_num [cruiser, Enemy.new]
    rw [this, Real.sqrt_sq (by norm_num)]
  rw [hs, if_pos (by norm_num [cruiser, Enemy.new])] at hv
  rw [hx, hv]
  norm_num [cruiser, Enemy.new]

end MovementScenario

section RetreatScenario

/-- C29 at a concrete input: the sample agent in retreat with health 10 (below
the threshold 20), the target hidden; over two ticks with health 10 and then 5
the state stays retreat. -/
theorem retreat_absorbing_witness :
    withRealMath fun Math =>
      (0 : ℝ) ≤ (sampleAgent AIState.retreat (10 : ℝ)).fleeHealthThreshold ∧
      (healthRun Math.sqrt (sampleAgent AIState.retreat (10 : ℝ))
        ([((10 : ℝ), hiddenTick 0.016), ((5 : ℝ), hiddenTick 0.016)].take 2)).state =
          AIState.retreat := by
  apply withRealMath_intro
  intro Math _
  have hflee : (0 : ℝ) ≤ (sampleAgent AIState.retreat (10 : ℝ)).fleeHealthThreshold := by
    norm_num [sampleAgent, Enemy.new]
  obtain ⟨-, -, hrun⟩ := retreat_absorbing Math.sqrt 0 (sampleAgent AIState.retreat (10 : ℝ))
    0.016 (sampleTarget 100) []
    [((10 : ℝ), hiddenTick 0.016), ((5 : ℝ), hiddenTick 0.016)] 2 hflee
  refine ⟨hflee, hrun rfl (by norm_num [sampleAgent, Enemy.new]) ?_⟩
  simp only [healthNeverUp, Bool.and_eq_true, decide_eq_true_eq, and_true]
  constructor <;> norm_num [sampleAgent, Enemy.new]

end RetreatScenario

section UpdateScenario

/-- C23 fails for a destroyed target: the sample agent in state attack, the
target at `(150, 0)` with health 0, the cooldown long elapsed; `update` aims and
emits a projectile. -/
theorem update_fires_at_destroyed_target :
    withRealMath fun Math =>
      (samplePlayer (150 : ℝ) 0).health = 0 ∧
      ∃ e1 projectile, update Math sampleWorld (sampleHost 5000)
        (sampleAgent AIState.attack 75) 0.016 (some (samplePlayer 150 0)) [] =
          some (e1, some projectile) := by
  apply withRealMath_intro
  intro Math hM
  exact ⟨rfl, (update_sample_intent Math hM 0 5000).1 (by norm_num)⟩

/-- C24 fails: two executions of `update` from the same agent state, with the
same `deltaTime`, target, obstacles and draws, differ in the fire intent when
the clock reads 5000 ms in one and 0 ms in the other. -/
theorem update_fire_intent_reads_clock :
    withRealMath fun Math =>
      (∃ e1 projectile, update Math sampleWorld (sampleHost 5000)
        (sampleAgent AIState.attack 75) 0.016 (some (samplePlayer 150 100)) [] =
          some (e1, some projectile)) ∧
      (∃ e1, update Math sampleWorld (sampleHost 0)
        (sampleAgent AIState.attack 75) 0.016 (some (samplePlayer 150 100)) [] =
          some (e1, none)) := by
  apply withRealMath_intro
  intro Math hM
  exact ⟨(update_sample_intent Math hM 100 5000).1 (by norm_num),
    (update_sample_intent Math hM 100 0).2 (by norm_num)⟩

/-- C30 at a concrete input: the sample agent in state attack fires at the
target at `(150, 0)`; the state of the result is attack or retreat and the
target is visible from the agent. -/
theorem update_fires_only_at_seen_witness :
    withRealMath fun Math =>
      ∃ e1 projectile, update Math sampleWorld (sampleHost 5000)
          (sampleAgent AIState.attack 75) 0.016 (some (samplePlayer 150 100)) [] =
            some (e1, some projectile) ∧
        (e1.state = AIState.attack ∨ e1.state = AIState.retreat) ∧
        canSeeTarget (sampleAgent AIState.attack (75 : ℝ)) (samplePlayer 150 100).toTarget [] =
          true := by
  apply withRealMath_intro
  intro Math hM
  obtain ⟨e1, projectile, h⟩ := (update_sample_intent Math hM 100 5000).1 (by norm_num)
  obtain ⟨-, hfire, -⟩ := update_fires_only_at_seen Math sampleWorld (sampleHost 5000)
    (sampleAgent AIState.attack 75) 0.016 (samplePlayer 150 100) [] e1 (some projectile) h
  obtain ⟨hs, hsee, -⟩ := hfire rfl
  exact ⟨e1, projectile, h, hs, hsee⟩

end UpdateScenario

section AvoidanceScenario

/-- To the right of the y axis `Math.atan2(y, x)` is `arctan (y / x)`. -/
theorem JSMath.IsReal.atan2_right {Math : JSMath ℝ} (hM : Math.IsReal) (x y : ℝ) (hx : 0 < x) :
    Math.atan2 y x = Real.arctan (y / x) := by
  rw [hM.2.2.1]
  have habs : |Complex.arg ⟨x, y⟩| < Real.pi / 2 :=
    Complex.abs_arg_lt_pi_div_two_iff.mpr (Or.inl hx)
  have htan : Real.tan (Complex.arg ⟨x, y⟩) = y / x := Complex.tan_arg ⟨x, y⟩
  rw [← htan, Real.arctan_tan (abs_lt.mp habs).1 (abs_lt.mp habs).2]

/-- C26 fails with two obstacles in the cone: `farAhead` at `(60, 0)` comes
first in the list and `nearLeft` at `(30, 5)` is nearer to the agent. The offset
of `nearLeft` is positive, so the nearest obstacle would turn the bearing by
`-0.5`; the loop returns at `farAhead`, whose offset is 0, and the bearing is
turned by `+0.5`. -/
theorem getObstacleAvoidanceVector_not_nearest :
    withRealMath fun Math =>
      inAvoidanceCone Math (scout : Enemy ℝ) farAhead = true ∧
      inAvoidanceCone Math (scout : Enemy ℝ) nearLeft = true ∧
      getDistanceTo Math.sqrt (scout : Enemy ℝ)
          ⟨(nearLeft : Obstacle ℝ).x, (nearLeft : Obstacle ℝ).y⟩ <
        getDistanceTo Math.sqrt (scout : Enemy ℝ)
          ⟨(farAhead : Obstacle ℝ).x, (farAhead : Obstacle ℝ).y⟩ ∧
      avoidanceOffset Math (scout : Enemy ℝ) nearLeft > 0 ∧
      getObstacleAvoidanceVector Math (scout : Enemy ℝ) [farAhead, nearLeft] = some 1 := by
  apply withRealMath_intro
  intro Math hM
  obtain ⟨hp1, hp2⟩ := hM.pi_bounds
  have hdfar : getDistanceTo Math.sqrt (scout : Enemy ℝ)
      ⟨(farAhead : Obstacle ℝ).x, (farAhead : Obstacle ℝ).y⟩ = 60 := by
    rw [hM.2.1]
    simp only [getDistanceTo, scout, farAhead, Enemy.new, sub_zero]
    rw [show (60 : ℝ) ^ 2 + 0 ^ 2 = 60 ^ 2 from by norm_num, Real.sqrt_sq (by norm_num)]
  have hdnear : getDistanceTo Math.sqrt (scout : Enemy ℝ)
      ⟨(nearLeft : Obstacle ℝ).x, (nearLeft : Obstacle ℝ).y⟩ < 60 := by
    rw [hM.2.1]
    simp only [getDistanceTo, scout, nearLeft, Enemy.new, sub_zero]
    rw [Real.sqrt_lt' (by norm_num)]
    norm_num
  have hofar : avoidanceOffset Math (scout : Enemy ℝ) farAhead = 0 := by
    unfold avoidanceOffset
    simp only [scout, farAhead, Enemy.new, sub_zero]
    rw [hM.atan2_zero, if_pos (by norm_num)]
    exact normalizeAngle_of_mem Math.PI Math.PI_pos 0 (by linarith) (by linarith)
  have hbear : Math.atan2 5 30 = Real.arctan (5 / 30) := hM.atan2_right 30 5 (by norm_num)
  have hlo : 0 < Real.arctan (5 / 30) := by
    rw [← Real.arctan_zero]
    exact Real.arctan_strictMono (by norm_num)
  have hhi : Real.arctan (5 / 30) < Math.PI / 4 := by
    rw [hM.1, ← Real.arctan_one]
    exact Real.arctan_strictMono (by norm_num)
  have honear : avoidanceOffset Math (scout : Enemy ℝ) nearLeft = Real.arctan (5 / 30) := by
    unfold avoidanceOffset
    simp only [scout, nearLeft, Enemy.new, sub_zero]
    rw [hbear]
    exact normalizeAngle_of_mem Math.PI Math.PI_pos _ (by linarith) (by linarith)
  have hcfar : inAvoidanceCone Math (scout : Enemy ℝ) farAhead = true := by
    unfold inAvoidanceCone
    rw [hdfar, hofar, abs_zero]
    exact decide_eq_true ⟨by norm_num, by linarith⟩
  have hcnear : inAvoidanceCone Math (scout : Enemy ℝ) nearLeft = true := by
    unfold inAvoidanceCone
    rw [honear, abs_of_pos hlo]
    exact decide_eq_true ⟨by linarith, hhi⟩
  refine ⟨hcfar, hcnear, by rw [hdfar]; exact hdnear, by rw [honear]; exact hlo, ?_⟩
  rw [getObstacleAvoidanceVector_cons, hcfar, if_pos rfl, hofar, if_neg (lt_irrefl 0)]

end AvoidanceScenario

end TankBattle
